import Mathlib

/-!
# Verification of the RAPP state-reconciliation core

A shallow embedding of the `infrasonar/rapp` appliance agent
(`src/lib/state.py`, `src/lib/protocol.py`, `src/lib/logview.py`,
`src/lib/docker.py`) together with proofs about the embedded code.

YAML documents (the compose manifest, the configurations manifest and the
wire state document) are modelled by the recursive value type `Val`
(null / bool / int / str / list / dict).  Python dictionaries keep insertion
order and have unique keys; they are modelled by ordered association lists
(`VDict`) whose operations mirror Python `dict` semantics (update in place
keeps the position of a key, new keys are appended).  Scalars that occur in
these documents after `yaml.safe_load` are null, booleans, integers and
strings; floats do not occur in the states the claims exercise and are left
out of the model.  Dictionary keys of the loaded documents are modelled as
strings.

Fallible Python code (`raise`, failing `assert`) is modelled with
`Except String`.  In-place mutation is modelled by returning the new value.
-/

namespace Rapp

mutual

inductive Val where
  | null : Val
  | bool : Bool → Val
  | int : Int → Val
  | str : String → Val
  | list : VList → Val
  | dict : VDict → Val
deriving DecidableEq

inductive VList where
  | nil : VList
  | cons : Val → VList → VList
deriving DecidableEq

inductive VDict where
  | nil : VDict
  | cons : String → Val → VDict → VDict
deriving DecidableEq

end

namespace VList

def length : VList → Nat
  | .nil => 0
  | .cons _ t => t.length + 1

def get? : VList → Nat → Option Val
  | .nil, _ => none
  | .cons v _, 0 => some v
  | .cons _ t, n + 1 => t.get? n

def append : VList → VList → VList
  | .nil, ys => ys
  | .cons v t, ys => .cons v (t.append ys)

/-- Build a `VList` from a Lean list. -/
def ofList : List Val → VList
  | [] => .nil
  | v :: t => .cons v (ofList t)

def isNil : VList → Bool
  | .nil => true
  | .cons _ _ => false

end VList

namespace VDict

/-- First (and, for Python dicts, only) binding of a key. -/
def get? : VDict → String → Option Val
  | .nil, _ => none
  | .cons k v t, key => if k == key then some v else t.get? key

/-- Python `d.get(key, default)`. -/
def getD (d : VDict) (key : String) (dflt : Val) : Val :=
  (d.get? key).getD dflt

/-- Python `key in d`. -/
def hasKey (d : VDict) (key : String) : Bool :=
  (d.get? key).isSome

/-- Python `d[key] = v`: replace in place if the key exists, else append. -/
def set : VDict → String → Val → VDict
  | .nil, key, v => .cons key v .nil
  | .cons k w t, key, v =>
    if k == key then .cons k v t else .cons k w (t.set key v)

/-- Python `del d[key]` / `d.pop(key, None)`: drop the binding if present. -/
def del : VDict → String → VDict
  | .nil, _ => .nil
  | .cons k v t, key => if k == key then t else .cons k v (t.del key)

/-- Python `d.update(e)`: set every binding of `e` in `d`, in order. -/
def update : VDict → VDict → VDict
  | d, .nil => d
  | d, .cons k v t => (d.set k v).update t

def keys : VDict → List String
  | .nil => []
  | .cons k _ t => k :: t.keys

def isNil : VDict → Bool
  | .nil => true
  | .cons _ _ _ => false

def length : VDict → Nat
  | .nil => 0
  | .cons _ _ t => t.length + 1

end VDict

/-- Python truthiness of the modelled values. -/
def truthy : Val → Bool
  | .null => false
  | .bool b => b
  | .int n => n != 0
  | .str s => !s.isEmpty
  | .list xs => !xs.isNil
  | .dict m => !m.isNil

/-- `k in ('password', 'secret')`. -/
def isSecretKey (k : String) : Bool :=
  k == "password" || k == "secret"

/-!
## `State._replace_secrets` (src/lib/state.py lines 328-338)

Walks a config dict in place.  For keys named `password`/`secret` the value
becomes `bool(value)`.  Other values: a list has its *dict* elements walked
(elements that are themselves lists are NOT walked), a dict is walked
recursively.  Tuples and sets cannot occur in YAML-loaded data, so the list
branch covers the `(tuple, list, set)` test of the source.
-/

mutual

def replaceSecretsD : VDict → VDict
  | .nil => .nil
  | .cons k v t =>
    if isSecretKey k then .cons k (.bool (truthy v)) (replaceSecretsD t)
    else
      match v with
      | .list xs => .cons k (.list (replaceSecretsL xs)) (replaceSecretsD t)
      | .dict m => .cons k (.dict (replaceSecretsD m)) (replaceSecretsD t)
      | v => .cons k v (replaceSecretsD t)

def replaceSecretsL : VList → VList
  | .nil => .nil
  | .cons (.dict m) t => .cons (.dict (replaceSecretsD m)) (replaceSecretsL t)
  | .cons v t => .cons v (replaceSecretsL t)

end

/-!
## `State._revert_secrets` (src/lib/state.py lines 340-366)

Walks the incoming config against the current (`orig`) config.  A boolean at
a secret key is replaced by `orig[k]`, asserting that `orig[k]` is truthy; a
non-boolean at a secret key must be a string.  A list value is walked with
the source's exact `o = o[idx]` rebinding: the loop variable `o` starts as
`orig.get(k, [])` and, at every *dict* element, is rebound to
`o[idx]`-if-that-is-a-dict-else-`{}` before recursing, so positional lookup
against the original list only works up to the first dict element.
-/

/-- `try: o = o[idx]; assert isinstance(o, dict); except Exception: o = {}`
where `idx` is an `int`.  Indexing a list yields the element (kept only when
it is a dict); indexing anything else (a dict with string keys, a string, a
scalar, `{}`) raises and yields `{}`. -/
def pyIndexDict (cur : Val) (idx : Nat) : VDict :=
  match cur with
  | .list xs =>
    match xs.get? idx with
    | some (.dict m) => m
    | _ => .nil
  | _ => .nil

/-- `orig.get(k)`: raises `AttributeError` when `orig` is not a dict.
The top-level `orig` handed to `_revert_secrets` by `_sanity_check` can be an
arbitrary stored value; recursive calls always pass dicts. -/
def origGet (origV : Val) (k : String) : Except String (Option Val) :=
  match origV with
  | .dict m => .ok (m.get? k)
  | _ => .error "AttributeError: get"

mutual

def revertSecretsD : VDict → Val → Except String VDict
  | .nil, _ => .ok .nil
  | .cons k v t, origV =>
    if isSecretKey k then
      match v with
      | .bool _ => do
        let o? ← origGet origV k
        match o? with
        | some o =>
          if truthy o then do
            let t' ← revertSecretsD t origV
            .ok (.cons k o t')
          else .error ("got a boolean " ++ k ++ " but missing in current state")
        | none => .error ("got a boolean " ++ k ++ " but missing in current state")
      | .str s => do
        let t' ← revertSecretsD t origV
        .ok (.cons k (.str s) t')
      | _ => .error (k ++ " must be boolean or string")
    else
      match v with
      | .list xs => do
        let o? ← origGet origV k
        let xs' ← revertSecretsL xs (o?.getD (.list .nil)) 0
        let t' ← revertSecretsD t origV
        .ok (.cons k (.list xs') t')
      | .dict m => do
        let o? ← origGet origV k
        let om := match o? with
          | some (.dict om) => om
          | _ => VDict.nil
        let m' ← revertSecretsD m (.dict om)
        let t' ← revertSecretsD t origV
        .ok (.cons k (.dict m') t')
      | v => do
        let t' ← revertSecretsD t origV
        .ok (.cons k v t')

def revertSecretsL : VList → Val → Nat → Except String VList
  | .nil, _, _ => .ok .nil
  | .cons (.dict m) t, cur, idx => do
    let o := pyIndexDict cur idx
    let m' ← revertSecretsD m (.dict o)
    let rest ← revertSecretsL t (.dict o) (idx + 1)
    .ok (.cons (.dict m') rest)
  | .cons v t, cur, idx => do
    let rest ← revertSecretsL t cur (idx + 1)
    .ok (.cons v rest)

end

/-!
## Regular expressions and small helpers (src/lib/state.py lines 19-22)

The four anchored regexes of the source are decidable character predicates.
All identifiers and tokens in play are ASCII, matching Python's behaviour on
the character classes used.
-/

/-- `RE_VAR = ^[_a-zA-Z][_0-9a-zA-Z]{0,40}$`. -/
def matchesVar (s : String) : Bool :=
  match s.toList with
  | [] => false
  | c :: rest =>
    (c == '_' || c.isAlpha) && rest.length ≤ 40 &&
      rest.all (fun d => d == '_' || d.isAlpha || d.isDigit)

/-- `RE_TOKEN = ^[0-9a-f]{32}$`. -/
def matchesToken (s : String) : Bool :=
  s.toList.length == 32 &&
    s.toList.all (fun c => c.isDigit || ('a' ≤ c && c ≤ 'f'))

/-- `RE_NUMBER = ^([1-9][0-9]*)?$` (also matches the empty string). -/
def matchesNumber (s : String) : Bool :=
  match s.toList with
  | [] => true
  | c :: rest => ('1' ≤ c && c ≤ '9') && rest.all Char.isDigit

/-- `RE_WHITE_SPACE.match(v)` is truthy iff `v` starts with whitespace
(`re.match` anchors at the start of the string only). -/
def startsWithSpace (s : String) : Bool :=
  match s.toList with
  | [] => false
  | c :: _ => c == ' ' || c == '\t' || c == '\n' || c == '\r' ||
      c == '\x0b' || c == '\x0c'

/-- Python `int(s)` on a string already known to match `RE_NUMBER`:
`int('')` raises `ValueError` (`none`). -/
def pyIntOfStr? (s : String) : Option Int :=
  match s.toList with
  | [] => none
  | cs =>
    if cs.all Char.isDigit then
      some (Int.ofNat (cs.foldl (fun a c => a * 10 + (c.toNat - 48)) 0))
    else none

/-- Python treats `bool` as a subclass of `int`; arithmetic and
`isinstance(v, int)` see `True` as `1` and `False` as `0`. -/
def pyAsInt? (v : Val) : Option Int :=
  match v with
  | .int n => some n
  | .bool b => some (if b then 1 else 0)
  | _ => none

/-- Python `v == n` for an int literal `n` (`True == 1`, `False == 0`). -/
def pyEqInt (v : Val) (n : Int) : Bool :=
  (pyAsInt? v).elim false (· == n)

/-- Python `v in ("", None)` as used for agent environment values. -/
def pyEmptyOrNone (v : Val) : Bool :=
  v == .null || v == .str ""

/-- `k.upper() == k` for the ASCII keys in play. -/
def pyIsUpper (s : String) : Bool :=
  s.toList.all (fun c => c.toUpper == c)

/-- `s.endswith(t)` via character lists (kernel-reducible). -/
def strEndsWith (s t : String) : Bool :=
  List.isSuffixOf t.toList s.toList

/-- `s.startswith(t)` via character lists (kernel-reducible). -/
def strStartsWith (s t : String) : Bool :=
  List.isPrefixOf t.toList s.toList

/-- `s.lower()` for the ASCII values in play. -/
def strToLower (s : String) : String :=
  String.mk (s.toList.map Char.toLower)

/-!
## UTC timestamps and ISO-8601 (src/lib/state.py lines 26, 508-511, 831-832)

`get` parses `__ra_until__` with `datetime.datetime.fromisoformat` and takes
`int(dt.timestamp())`; `set` renders
`datetime.datetime.fromtimestamp(ra_until, datetime.UTC).isoformat()`.
Both are modelled over the proleptic-Gregorian civil calendar
(days-from-civil / civil-from-days).  `tsOfIso` accepts the canonical form
the appliance itself writes (`YYYY-MM-DDTHH:MM:SS+00:00`); Python's parser
accepts further forms, on which the model simply reports a parse error, so
the model and the source agree on every string the appliance produces.
`isoUTCo` is `none` outside `datetime`'s year range 1..9999, where
`fromtimestamp` raises. -/

/-- Civil date (year, month, day) of a day count relative to 1970-01-01. -/
def civilFromDays (z0 : Int) : Int × Nat × Nat :=
  let z := z0 + 719468
  let era := z.fdiv 146097
  let doe := (z.fmod 146097).toNat
  let yoe := (doe - doe / 1460 + doe / 36524 - doe / 146096) / 365
  let doy := doe - (365 * yoe + yoe / 4 - yoe / 100)
  let mp := (5 * doy + 2) / 153
  let d := doy - (153 * mp + 2) / 5 + 1
  let m := if mp < 10 then mp + 3 else mp - 9
  ((yoe : Int) + era * 400 + (if m ≤ 2 then 1 else 0), m, d)

/-- Day count relative to 1970-01-01 of a civil date. -/
def daysFromCivil (y : Int) (m d : Nat) : Int :=
  let y := if m ≤ 2 then y - 1 else y
  let era := y.fdiv 400
  let yoe := (y.fmod 400).toNat
  let doy := (153 * (if m > 2 then m - 3 else m + 9) + 2) / 5 + d - 1
  let doe := yoe * 365 + yoe / 4 - yoe / 100 + doy
  era * 146097 + (doe : Int) - 719468

def pad2 (n : Nat) : String :=
  if n < 10 then "0" ++ toString n else toString n

def pad4 (n : Nat) : String :=
  if n < 10 then "000" ++ toString n
  else if n < 100 then "00" ++ toString n
  else if n < 1000 then "0" ++ toString n
  else toString n

/-- `datetime.datetime.fromtimestamp(t, datetime.UTC).isoformat()` for an
integer timestamp inside `datetime`'s range. -/
def isoUTC (t : Int) : String :=
  let days := t.fdiv 86400
  let secs := (t.fmod 86400).toNat
  let c := civilFromDays days
  pad4 c.1.toNat ++ "-" ++ pad2 c.2.1 ++ "-" ++ pad2 c.2.2 ++ "T" ++
    pad2 (secs / 3600) ++ ":" ++ pad2 (secs % 3600 / 60) ++ ":" ++
    pad2 (secs % 60) ++ "+00:00"

/-- `fromtimestamp` raises `OverflowError`/`ValueError` outside year 1..9999. -/
def isoUTCo (t : Int) : Option String :=
  if -62135596800 ≤ t && t ≤ 253402300799 then some (isoUTC t) else none

def digitVal? (c : Char) : Option Nat :=
  if c.isDigit then some (c.toNat - 48) else none

/-- Two decimal digits of a char list at position `i`. -/
def twoDigits? (cs : List Char) (i : Nat) : Option Nat := do
  let a ← digitVal? (cs.getD i ' ')
  let b ← digitVal? (cs.getD (i + 1) ' ')
  some (a * 10 + b)

/-- `int(datetime.datetime.fromisoformat(s).timestamp())` on the canonical
`YYYY-MM-DDTHH:MM:SS+00:00` form; `none` models a `ValueError`. -/
def tsOfIso (s : String) : Option Int := do
  let cs := s.toList
  if cs.length == 25 && cs.getD 4 ' ' == '-' && cs.getD 7 ' ' == '-' &&
      cs.getD 10 ' ' == 'T' && cs.getD 13 ' ' == ':' &&
      cs.getD 16 ' ' == ':' && cs.getD 19 ' ' == '+' &&
      cs.getD 20 ' ' == '0' && cs.getD 21 ' ' == '0' &&
      cs.getD 22 ' ' == ':' && cs.getD 23 ' ' == '0' &&
      cs.getD 24 ' ' == '0' then
    let yh ← twoDigits? cs 0
    let yl ← twoDigits? cs 2
    let mo ← twoDigits? cs 5
    let da ← twoDigits? cs 8
    let hh ← twoDigits? cs 11
    let mi ← twoDigits? cs 14
    let ss ← twoDigits? cs 17
    let y := yh * 100 + yl
    if 1 ≤ mo && mo ≤ 12 && 1 ≤ da && da ≤ 31 &&
        hh ≤ 23 && mi ≤ 59 && ss ≤ 59 then
      some (daysFromCivil (Int.ofNat y) mo da * 86400 +
        Int.ofNat (hh * 3600 + mi * 60 + ss))
    else none
  else none

def TIME_NULL : String := "1970-01-01T00:00:00+00:00"

/-- `MAX_RA = 3600*24*3`. -/
def MAX_RA : Int := 259200

/-!
## Static service definitions (src/lib/state.py lines 79-143)

Environment-variable defaults from `src/lib/envvars.py`:
`DATA_PATH = './data'`, `COMPOSE_FILE = '/docker/docker-compose.yml'`,
`USE_DEVELOPMENT = 0` (so `_init` leaves the agents' `API_URI` at the
production value).
-/

def VDict.ofList : List (String × Val) → VDict
  | [] => .nil
  | (k, v) :: t => .cons k v (VDict.ofList t)

def loggingOpts : Val :=
  .dict (VDict.ofList [("options",
    .dict (VDict.ofList [("max-size", .str "5m")]))])

def _SOCAT : Val := .dict (VDict.ofList [
  ("image", .str "alpine/socat"),
  ("command", .str "tcp-l:443,fork,reuseaddr tcp:$\x7bSOCAT_TARGET_ADDR\x7d:443"),
  ("expose", .list (VList.ofList [.int 443])),
  ("restart", .str "always"),
  ("logging", loggingOpts),
  ("network_mode", .str "host")])

def _RA : Val := .dict (VDict.ofList [
  ("image", .str "ghcr.io/infrasonar/remote-access"),
  ("expose", .list (VList.ofList [.int 6213])),
  ("restart", .str "always"),
  ("logging", loggingOpts),
  ("network_mode", .str "host")])

def _DOCKER_AGENT : VDict := VDict.ofList [
  ("environment", .dict (VDict.ofList [
    ("TOKEN", .str "$\x7bAGENT_TOKEN\x7d"),
    ("API_URI", .str "https://api.infrasonar.com")])),
  ("image", .str "ghcr.io/infrasonar/docker-agent"),
  ("volumes", .list (VList.ofList [
    .str "/var/run/docker.sock:/var/run/docker.sock",
    .str "./data:/data/"]))]

def _DISCOVERY_AGENT : VDict := VDict.ofList [
  ("environment", .dict (VDict.ofList [
    ("TOKEN", .str "$\x7bAGENT_TOKEN\x7d"),
    ("API_URI", .str "https://api.infrasonar.com"),
    ("DAEMON", .str "1"),
    ("CONFIG_PATH", .str "/data/discovery")])),
  ("image", .str "ghcr.io/infrasonar/discovery-agent"),
  ("volumes", .list (VList.ofList [
    .str "/var/run/docker.sock:/var/run/docker.sock",
    .str "./data:/data/"]))]

/-- `_AGENTS` (the `speedtest` entry is commented out in the source). -/
def agentKeys : List String := ["docker", "discovery"]

def agentTemplate (key : String) : VDict :=
  if key == "docker" then _DOCKER_AGENT else _DISCOVERY_AGENT

def _SELENIUM : Val := .dict (VDict.ofList [
  ("image", .str "selenium/standalone-chrome"),
  ("expose", .list (VList.ofList [.int 4444, .int 7900])),
  ("shm_size", .str "2gb"),
  ("restart", .str "always"),
  ("logging", loggingOpts),
  ("network_mode", .str "host")])

def LOG_LEVELS : List String := ["debug", "info", "warning", "error", "critical"]

def agentVarNames : List String :=
  ["LOG_LEVEL", "LOG_COLORIZED", "ASSET_ID", "NETWORK", "CHECK_NMAP_INTERVAL"]

/-- `AGENT_VARS[k](v)` (src/lib/state.py lines 58-77).  `none` models an
exception escaping the validator (`int('')` raising `ValueError`). -/
def agentVarCheck (k : String) (v : Val) : Option Bool :=
  if k == "LOG_LEVEL" then
    some (match v with
      | .str s => LOG_LEVELS.contains (strToLower s)
      | _ => false)
  else if k == "LOG_COLORIZED" then
    some (pyEqInt v 0 || pyEqInt v 1 || v == .str "0" || v == .str "1")
  else if k == "ASSET_ID" then
    some (match v with
      | .null => true
      | .bool b => b
      | .int n => 0 < n
      | .str s => matchesNumber s
      | _ => false)
  else if k == "NETWORK" then
    some (match v with
      | .str s => !s.isEmpty && !startsWithSpace s
      | _ => false)
  else if k == "CHECK_NMAP_INTERVAL" then
    match v with
    | .str s =>
      if matchesNumber s then
        match pyIntOfStr? s with
        | some n => some (900 ≤ n && n ≤ 259200)
        | none => none
      else some false
    | .int n => some (900 ≤ n && n ≤ 259200)
    | .bool _ => some false
    | _ => some false
  else none

def PROBE_KEYS : List String := ["key", "compose", "config", "use", "enabled"]
def AGENT_KEYS : List String := ["key", "compose", "enabled"]
/-- Note: the source's `CONFIG_KEYS` does NOT contain `use`. -/
def CONFIG_KEYS : List String := ["like", "name", "config"]
def STATE_KEYS : List String :=
  ["probes", "agents", "configs", "agent_token", "agentcore_token",
   "agentcore_zone_id", "socat_target_addr", "ra"]
def RA_KEYS : List String := ["allowed", "enabled", "until", "info"]
def COMPOSE_KEYS : List String := ["environment", "image"]

/-!
## Application state

`State.get`/`State.set` read and write `compose_data['services']`,
`x_infrasonar_template` (the alias of `compose_data['x-infrasonar-template']`),
`config_data` and `env_data`.  `env_data` is the fixed four-key dict built by
`State._read`; its values stay arbitrary Python objects, hence `Val` fields.
`ALLOW_REMOTE_ACCESS` is a process-wide startup flag and is passed as a
parameter, as is the clock value `now = int(time.time())`.
-/

structure EnvData where
  agentcoreToken : Val
  agentToken : Val
  zoneId : Val
  socatTargetAddr : Val
deriving DecidableEq

structure AppState where
  services : VDict
  template : VDict
  config : VDict
  env : EnvData
deriving DecidableEq

def asDict (what : String) : Val → Except String VDict
  | .dict m => .ok m
  | _ => .error ("TypeError: " ++ what)

/-- Python `d[k]` on a dict: `KeyError` when absent. -/
def VDict.index (d : VDict) (k : String) : Except String Val :=
  match d.get? k with
  | some v => .ok v
  | none => .error ("KeyError: " ++ k)

def VList.toList : VList → List Val
  | .nil => []
  | .cons v t => v :: t.toList

/-!
## `State.get` (src/lib/state.py lines 368-522)
-/

/-- The pre-formatted `ra.info` operator instructions
(src/lib/state.py lines 491-502). -/
def raInfo (allow : Bool) : String :=
  let toName := if allow then "block" else "allow"
  let toVal := if allow then "0" else "1"
  "To " ++ toName ++ " remote access, locate the `docker-compose.yml` " ++
    "file at `/docker` on your appliance and modify the " ++
    "`ALLOW_REMOTE_ACCESS` environment variable to `" ++ toVal ++
    "` within the rapp service definition and press _Pull & update_ " ++
    "before making other changes."

/-- Shared tail of a probe item: `use` when it is a truthy string, else the
(already redacted) config.  By the time this runs the config is known to be
a dict, so the source's `else: continue` branch is unreachable. -/
def probeUseOrConfig (base : VDict) (use : Val) (config1 : Val) : VDict :=
  match use with
  | .str s => if s.isEmpty then base.set "config" config1 else base.set "use" (.str s)
  | _ => base.set "config" config1

/-- One iteration of the first probes loop: the contribution of one compose
service (src/lib/state.py lines 370-407); `none` means the service is
skipped (name without `-probe` suffix, or disabled per config). -/
def probeItem1 (cfg : VDict) (name : String) (service : Val) :
    Except String (Option Val) :=
  if !strEndsWith name "-probe" then .ok none
  else
    let key := name.dropRight 6
    match cfg.getD key (.dict .nil) with
    | .dict probe =>
      let use := probe.getD "use" (.str "")
      let enabled := probe.getD "enabled" (.bool true)
      if !truthy enabled then .ok none
      else
        match probe.getD "config" (.dict .nil), service with
        | .dict m, .dict sm =>
          (match sm.get? "image" with
          | some image =>
            .ok (some (.dict (probeUseOrConfig (VDict.ofList [
              ("key", .str key),
              ("compose", .dict (VDict.ofList [
                ("image", image),
                ("environment", sm.getD "environment" (.dict .nil))])),
              ("enabled", enabled)]) use (.dict (replaceSecretsD m)))))
          | none => .error "KeyError: image")
        | .dict _, _ => .error "TypeError: service"
        | _, _ => .error "AttributeError: config.items"
    | _ => .error "AttributeError: probe.get"

/-- First probes loop: services whose name ends in `-probe`
(src/lib/state.py lines 370-407). -/
def getProbes1 : VDict → VDict → Except String (List Val)
  | .nil, _ => .ok []
  | .cons name service rest, cfg => do
    let it? ← probeItem1 cfg name service
    let tail ← getProbes1 rest cfg
    .ok (match it? with
         | some it => it :: tail
         | none => tail)

/-- `probe.get('like') is None`. -/
def likeIsNone (probe : VDict) : Bool :=
  match probe.get? "like" with
  | none => true
  | some .null => true
  | some _ => false

/-- One iteration of the second probes loop: the contribution of one
configurations-manifest entry (src/lib/state.py lines 409-436). -/
def probeItem2 (key : String) (probeV : Val) : Except String (Option Val) :=
  match probeV with
  | .dict probe =>
    if probe.getD "enabled" (.bool true) == .bool false && likeIsNone probe then
      match probe.getD "config" (.dict .nil) with
      | .dict m =>
        .ok (some (.dict (probeUseOrConfig (VDict.ofList [
          ("key", .str key),
          ("compose", .dict (VDict.ofList [
            ("image", .str ("ghcr.io/infrasonar/" ++ key ++ "-probe")),
            ("environment", .dict .nil)])),
          ("enabled", .bool false)]) (probe.getD "use" (.str ""))
          (.dict (replaceSecretsD m)))))
      | _ => .error "AttributeError: config.items"
    else .ok none
  | _ => .ok none

/-- Second probes loop: disabled probes that exist only in the
configurations manifest (src/lib/state.py lines 409-436). -/
def getProbes2 : VDict → Except String (List Val)
  | .nil => .ok []
  | .cons key probeV rest => do
    let it? ← probeItem2 key probeV
    let tail ← getProbes2 rest
    .ok (match it? with
         | some it => it :: tail
         | none => tail)

/-- `{k: v for k, v in env.items() if k in AGENT_VARS}`. -/
def filterAgentVars : VDict → VDict
  | .nil => .nil
  | .cons k v t =>
    if agentVarNames.contains k then .cons k v (filterAgentVars t)
    else filterAgentVars t

/-- Agents loop (src/lib/state.py lines 438-457). -/
def getAgent (services : VDict) (key : String) : Except String Val :=
  match services.get? (key ++ "-agent") with
  | none => .ok (.dict (VDict.ofList [("key", .str key), ("enabled", .bool false)]))
  | some serviceV => do
    let sm ← asDict "service" serviceV
    let envm ← match sm.getD "environment" (.dict .nil) with
      | .dict m => Except.ok m
      | _ => Except.error "AttributeError: env.items"
    let env := filterAgentVars envm
    let image ← sm.index "image"
    .ok (.dict (VDict.ofList [
      ("key", .str key),
      ("compose", .dict (VDict.ofList [
        ("image", image), ("environment", .dict env)])),
      ("enabled", .bool true)]))

def getAgents (services : VDict) : Except String (List Val) := do
  let a ← getAgent services "docker"
  let b ← getAgent services "discovery"
  .ok [a, b]

/-- One iteration of the named-configs loop: the contribution of one
configurations-manifest entry (src/lib/state.py lines 459-489); `none` means
the entry is skipped (no truthy string `like`, or an invalid config logged
and skipped). -/
def configItem (name : String) (objV : Val) : Option Val :=
  match objV with
  | .dict obj =>
    (match obj.get? "like" with
    | some (.str l) =>
      if l.isEmpty then none
      else
        let use := obj.getD "use" (.str "")
        let base := VDict.ofList [("like", .str l), ("name", .str name)]
        let cfgItem? : Option Val := match obj.getD "config" (.dict .nil) with
          | .dict m =>
            some (.dict (base.set "config" (.dict (replaceSecretsD m))))
          | _ => none
        match use with
        | .str s =>
          if s.isEmpty then cfgItem?
          else some (.dict (base.set "use" (.str s)))
        | _ => cfgItem?
    | _ => none)
  | _ => none

/-- Named-configs loop (src/lib/state.py lines 459-489).  Total: entries
whose config is not a dict are skipped with an error log. -/
def getConfigs : VDict → List Val
  | .nil => []
  | .cons name objV rest =>
    match configItem name objV with
    | some item => item :: getConfigs rest
    | none => getConfigs rest

/-- The `ra` block of `get` (src/lib/state.py lines 491-511). -/
def getRa (allow : Bool) (services config : VDict) : Except String VDict := do
  let base := VDict.ofList [
    ("allowed", .bool allow), ("info", .str (raInfo allow))]
  if !allow then .ok base
  else
    match services.get? "ra" with
    | none => .ok (base.set "enabled" (.bool false))
    | some _ => do
      let untilV := config.getD "__ra_until__" (.str TIME_NULL)
      let s ← match untilV with
        | .str s => Except.ok s
        | _ => Except.error "TypeError: fromisoformat"
      let t ← match tsOfIso s with
        | some t => Except.ok t
        | none => Except.error "ValueError: fromisoformat"
      .ok ((base.set "enabled" (.bool true)).set "until" (.int t))

/-!
## `State._sanity_check` (src/lib/state.py lines 524-678)

Validates the incoming wire document and mutates it in place: boolean
secrets in probe/named-config configs are restored from the current on-disk
values, boolean tokens are replaced by the stored env values.  The model
returns the mutated document.

Divergences that cannot affect any claim: assertion-message interpolation of
values is simplified, and the `set()`-based duplicate test dedups by
structural equality (Python additionally identifies `True == 1` and raises
`TypeError` on unhashable keys; in both corner cases both the source and the
model reject the document, possibly with different messages).
-/

/-- First key of `d` outside `allowed`
(`unknown = list(set(d.keys()) - ALLOWED); assert not unknown`). -/
def firstUnknownKey (d : VDict) (allowed : List String) : Option String :=
  match d with
  | .nil => none
  | .cons k _ t => if allowed.contains k then firstUnknownKey t allowed else some k

/-- Environment checks for probe compose blocks
(src/lib/state.py lines 560-564); `isinstance(v, (int, float, str))`
admits booleans (a subclass of `int`). -/
def probeEnvCheck : VDict → Except String Unit
  | .nil => .ok ()
  | .cons k v t =>
    if k.isEmpty || !pyIsUpper k then
      .error "environment keys must be uppercase strings"
    else
      match v with
      | .int _ | .str _ | .bool _ => probeEnvCheck t
      | _ => .error "environment variable must be number or string"

/-- Environment checks for agent compose blocks
(src/lib/state.py lines 604-606). -/
def agentEnvCheck : VDict → Except String Unit
  | .nil => .ok ()
  | .cons k v t =>
    if agentVarNames.contains k then
      match agentVarCheck k v with
      | some true => agentEnvCheck t
      | some false => .error ("invalid agent environment: " ++ k)
      | none => .error "ValueError: invalid literal for int"
    else .error ("invalid agent environment: " ++ k)

def itemKeyOf (field : String) (v : Val) : Option Val :=
  match v with
  | .dict m => some (m.getD field .null)
  | _ => none

/-- `all_configs = set(probe_keys + config_names)` and the duplicate test
(src/lib/state.py lines 534-538). -/
def dupCheck (probes configs : List Val) : Except String Unit :=
  let pk := probes.filterMap (itemKeyOf "key")
  let cn := configs.filterMap (itemKeyOf "name")
  if ((pk ++ cn).eraseDups).length == pk.length + cn.length then .ok ()
  else .error "duplicated probes and/or configs in state"

/-- Per-probe validation (src/lib/state.py lines 540-583); returns the probe
with its config reverted. -/
def probeSanity (configData : VDict) (allConfigs : List Val) (probeV : Val) :
    Except String Val := do
  let probe ← match probeV with
    | .dict m => Except.ok m
    | _ => Except.error "probes must be a list with dicts"
  let key ← match probe.get? "key" with
    | some (.str k) =>
      if matchesVar k then Except.ok k
      else Except.error "missing or invalid `key` in probe"
    | _ => Except.error "missing or invalid `key` in probe"
  let enabled ← match probe.getD "enabled" (.bool true) with
    | .bool b => Except.ok b
    | _ => Except.error ("invalid `enabled` in probe " ++ key)
  let probe' ←
    if enabled then do
      let compose ← match probe.get? "compose" with
        | some (.dict m) => Except.ok m
        | _ => Except.error ("missing or invalid `compose` in probe " ++ key)
      let _ ← match compose.get? "image" with
        | some (.str i) =>
          if strStartsWith i ("ghcr.io/infrasonar/" ++ key ++ "-probe") then
            Except.ok ()
          else Except.error ("invalid probe image: " ++ i)
        | _ => Except.error "invalid probe image"
      let envm ← match compose.getD "environment" (.dict .nil) with
        | .dict m => Except.ok m
        | _ => Except.error "AttributeError: environment.items"
      probeEnvCheck envm
      let _ ← match firstUnknownKey compose COMPOSE_KEYS with
        | some k => Except.error ("invalid compose key: " ++ k)
        | none => Except.ok ()
      let cfg? ← match probe.getD "config" .null with
        | .null => Except.ok none
        | .dict m => Except.ok (some m)
        | _ => Except.error "probe config must be a dict"
      let (probe2, cfgIsNone) ←
        match cfg? with
        | some m =>
          if m.isNil then Except.ok (probe, false)
          else do
            let origOuter ← match configData.getD key (.dict .nil) with
              | .dict m2 => Except.ok m2
              | _ => Except.error "AttributeError: .get"
            let m' ← revertSecretsD m (origOuter.getD "config" (.dict .nil))
            Except.ok (probe.set "config" (.dict m'), false)
        | none => Except.ok (probe, true)
      let useIsNone ← match probe.getD "use" .null with
        | .null => Except.ok true
        | .str u =>
          if u != key && allConfigs.contains (.str u) then Except.ok false
          else Except.error ("invalid \"use\" value for probe " ++ key)
        | _ => Except.error ("invalid \"use\" value for probe " ++ key)
      if !cfgIsNone && !useIsNone then
        Except.error ("both \"use\" and \"config\" for probe " ++ key)
      else Except.ok probe2
    else Except.ok probe
  match firstUnknownKey probe' PROBE_KEYS with
  | some k => Except.error ("invalid probe key: " ++ k)
  | none => Except.ok (.dict probe')

/-- Per-agent validation (src/lib/state.py lines 585-614). -/
def agentSanity (agentV : Val) : Except String Unit := do
  let agent ← match agentV with
    | .dict m => Except.ok m
    | _ => Except.error "agents must be a list with dicts"
  let key ← match agent.get? "key" with
    | some (.str k) =>
      if agentKeys.contains k then Except.ok k
      else Except.error "missing or invalid `key` in agent"
    | _ => Except.error "missing or invalid `key` in agent"
  let enabled ← match agent.get? "enabled" with
    | some (.bool b) => Except.ok b
    | _ => Except.error ("missing or invalid `enabled` in agent " ++ key)
  let compose := agent.getD "compose" .null
  let _ ←
    if enabled then do
      let cm ← match compose with
        | .dict m => Except.ok m
        | _ => Except.error ("invalid `compose` in agent " ++ key)
      let _ ← match cm.get? "image" with
        | some (.str i) =>
          if strStartsWith i ("ghcr.io/infrasonar/" ++ key ++ "-agent") then
            Except.ok ()
          else Except.error ("invalid agent image: " ++ i)
        | _ => Except.error "invalid agent image"
      let envm ← match cm.getD "environment" (.dict .nil) with
        | .dict m => Except.ok m
        | _ => Except.error "AttributeError: environment.items"
      agentEnvCheck envm
      match firstUnknownKey cm COMPOSE_KEYS with
      | some k => Except.error ("invalid compose key: " ++ k)
      | none => Except.ok ()
    else
      match compose with
      | .null => Except.ok ()
      | _ => Except.error ("unexpected compose; agent " ++ key ++ " is disabled")
  match firstUnknownKey agent AGENT_KEYS with
  | some k => Except.error ("invalid agent key: " ++ k)
  | none => Except.ok ()

/-- Per-named-config validation (src/lib/state.py lines 616-642); returns the
config with its `config` block reverted.  Note that the source's
`CONFIG_KEYS` does not contain `use`, so any config carrying `use` fails the
final unknown-key assertion. -/
def configSanity (configData : VDict) (allConfigs : List Val) (configV : Val) :
    Except String Val := do
  let config ← match configV with
    | .dict m => Except.ok m
    | _ => Except.error "configs must be a list with dicts"
  let _ ← match config.get? "like" with
    | some (.str l) =>
      if matchesVar l then Except.ok ()
      else Except.error "missing or invalid `like` in config"
    | _ => Except.error "missing or invalid `like` in config"
  let name ← match config.get? "name" with
    | some (.str n) =>
      if matchesVar n then Except.ok n
      else Except.error "missing or invalid `name` in config"
    | _ => Except.error "missing or invalid `name` in config"
  let cfg? ← match config.getD "config" .null with
    | .null => Except.ok none
    | .dict m => Except.ok (some m)
    | _ => Except.error "config must be a dict"
  let (config2, cfgIsNone) ←
    match cfg? with
    | some m =>
      if m.isNil then Except.ok (config, false)
      else do
        let origOuter ← match configData.getD name (.dict .nil) with
          | .dict m2 => Except.ok m2
          | _ => Except.error "AttributeError: .get"
        let m' ← revertSecretsD m (origOuter.getD "config" (.dict .nil))
        Except.ok (config.set "config" (.dict m'), false)
    | none => Except.ok (config, true)
  let useIsNone ← match config.getD "use" .null with
    | .null => Except.ok true
    | .str u =>
      if u != name && allConfigs.contains (.str u) then Except.ok false
      else Except.error ("invalid \"use\" value for config " ++ name)
    | _ => Except.error ("invalid \"use\" value for config " ++ name)
  if !cfgIsNone && !useIsNone then
    Except.error ("both \"use\" and \"config\" for config " ++ name)
  else if cfgIsNone && useIsNone then
    Except.error ("both \"use\" and \"config\" missing for config " ++ name)
  else
    match firstUnknownKey config2 CONFIG_KEYS with
    | some k => Except.error ("invalid config name: " ++ k)
    | none => Except.ok (.dict config2)

/-- Token validation (src/lib/state.py lines 644-651): a string must match
`RE_TOKEN`; a boolean (`True` or `False`) is replaced by the stored env
value; anything else is rejected. -/
def tokenSanity (envVal : Val) (tokenName : String) (t : Val) :
    Except String Val :=
  match t with
  | .str s =>
    if matchesToken s then .ok (.str s) else .error ("invalid " ++ tokenName)
  | .bool _ => .ok envVal
  | _ => .error ("missing or invalid " ++ tokenName)

/-- `State._sanity_check` (src/lib/state.py lines 524-678), returning the
document with the in-place mutations applied. -/
def sanityCheck (env : EnvData) (configData : VDict) (now : Int)
    (stateV : Val) : Except String Val := do
  let st ← match stateV with
    | .dict m => Except.ok m
    | _ => Except.error "expecting state to be a dict"
  let probesL ← match st.getD "probes" .null with
    | .list xs => Except.ok xs.toList
    | _ => Except.error "probes must be a list in state"
  let agentsL ← match st.getD "agents" .null with
    | .list xs => Except.ok xs.toList
    | _ => Except.error "agents must be a list in state"
  let configsL ← match st.getD "configs" .null with
    | .list xs => Except.ok xs.toList
    | _ => Except.error "configs must be a list in state"
  dupCheck probesL configsL
  let allConfigs :=
    probesL.filterMap (itemKeyOf "key") ++ configsL.filterMap (itemKeyOf "name")
  let probesL' ← probesL.mapM (probeSanity configData allConfigs)
  let _ ← agentsL.mapM agentSanity
  let configsL' ← configsL.mapM (configSanity configData allConfigs)
  let agentTok ← tokenSanity env.agentToken "agent_token"
    (st.getD "agent_token" .null)
  let agentcoreTok ← tokenSanity env.agentcoreToken "agentcore_token"
    (st.getD "agentcore_token" .null)
  let _ ← match st.getD "agentcore_zone_id" .null with
    | .int n =>
      if 0 ≤ n && n ≤ 9 then Except.ok ()
      else Except.error "missing or invalid `agentcore_zone_id` in state"
    | .bool _ => Except.ok ()
    | _ => Except.error "missing or invalid `agentcore_zone_id` in state"
  let _ ← match st.getD "socat_target_addr" .null with
    | .str _ => Except.ok ()
    | _ => Except.error "missing or invalid `socat_target_addr` in state"
  let ra ← match st.getD "ra" (.dict .nil) with
    | .dict m => Except.ok m
    | _ => Except.error "ra must be a dict"
  let _ ← match ra.getD "allowed" (.bool false) with
    | .bool _ => Except.ok ()
    | _ => Except.error "ra/allowed must be a boolean"
  let _ ← match ra.getD "enabled" (.bool false) with
    | .bool _ => Except.ok ()
    | _ => Except.error "ra/enabled must be a boolean"
  let raUntil ← match pyAsInt? (ra.getD "until" (.int 0)) with
    | some n => Except.ok n
    | none => Except.error "ra/until must be a integer"
  if raUntil - now ≤ MAX_RA then do
    let _ ← match firstUnknownKey ra RA_KEYS with
      | some k => Except.error ("invalid ra key: " ++ k)
      | none => Except.ok ()
    let _ ← match firstUnknownKey st STATE_KEYS with
      | some k => Except.error ("invalid state key: " ++ k)
      | none => Except.ok ()
    let st1 := st.set "probes" (.list (VList.ofList probesL'))
    let st2 := st1.set "configs" (.list (VList.ofList configsL'))
    let st3 := st2.set "agent_token" agentTok
    let st4 := st3.set "agentcore_token" agentcoreTok
    Except.ok (.dict st4)
  else Except.error "Remote access can be extended up to 3 days."

namespace State

/-- `State.get` (src/lib/state.py lines 368-522). -/
def get (allow : Bool) (s : AppState) : Except String Val := do
  let p1 ← getProbes1 s.services s.config
  let p2 ← getProbes2 s.config
  let ags ← getAgents s.services
  let cfgs := getConfigs s.config
  let ra ← getRa allow s.services s.config
  .ok (.dict (VDict.ofList [
    ("probes", .list (VList.ofList (p1 ++ p2))),
    ("agents", .list (VList.ofList ags)),
    ("configs", .list (VList.ofList cfgs)),
    ("agent_token", .bool (truthy s.env.agentToken)),
    ("agentcore_token", .bool (truthy s.env.agentcoreToken)),
    ("agentcore_zone_id", s.env.zoneId),
    ("socat_target_addr", s.env.socatTargetAddr),
    ("ra", .dict ra)]))

end State

/-!
## `State.set`, phase 2 (src/lib/state.py lines 680-850)

Reconciliation of `compose_data['services']`, `config_data` and `env_data`
against the validated document.  Run only after `_sanity_check` succeeded;
exceptions raised during this phase abort `set` before `cls.write()`, so a
failing `set` never touches the on-disk documents (the in-memory Python
state may be left partially mutated, which the model need not track since
every claim is about the written documents).
-/

/-- `{agent['key']: agent['compose'] for agent in state['agents']
if agent['enabled']}` (src/lib/state.py lines 684-688). -/
def buildAgentsMap (l : List Val) : Except String VDict :=
  l.foldlM (fun acc aV => do
    let a ← asDict "agent" aV
    let enabled ← a.index "enabled"
    if truthy enabled then do
      let kV ← a.index "key"
      let k ← match kV with
        | .str s => Except.ok s
        | _ => Except.error "TypeError: key"
      let comp ← a.index "compose"
      Except.ok (acc.set k comp)
    else Except.ok acc) .nil

/-- The `for probe in probes: if probe['key'] == key and
probe.get('enabled', True): break / else: del services[name]` search
(src/lib/state.py lines 693-700).  `probe['key']` on a non-dict or keyless
probe would raise, but `set` runs this only on sanity-checked documents. -/
def keepProbe (probes : List Val) (key : String) : Bool :=
  probes.any (fun p =>
    match p with
    | .dict pm =>
      pm.getD "key" .null == .str key && truthy (pm.getD "enabled" (.bool true))
    | _ => false)

/-- Remove compose services ending in `-probe` that have no enabled desired
probe (src/lib/state.py lines 692-700). -/
def removeDisabledServices (services : VDict) (probes : List Val) : VDict :=
  services.keys.foldl
    (fun acc name =>
      if strEndsWith name "-probe" && !keepProbe probes (name.dropRight 6) then
        acc.del name
      else acc)
    services

structure SetAcc where
  services : VDict
  config : VDict
  hasSelenium : Bool
deriving DecidableEq

/-- One iteration of the probes loop (src/lib/state.py lines 704-743). -/
def probeStep (template : VDict) (acc : SetAcc) (pV : Val) :
    Except String SetAcc := do
  let p ← asDict "probe" pV
  let keyV ← p.index "key"
  let key ← match keyV with
    | .str s => Except.ok s
    | _ => Except.error "TypeError: key"
  let enabled := truthy (p.getD "enabled" (.bool true))
  if !enabled then
    match acc.config.get? key with
    | some entryV => do
      let em ← asDict "entry" entryV
      Except.ok { acc with
        config := acc.config.set key (.dict (em.set "enabled" (.bool false))) }
    | none =>
      Except.ok { acc with
        config := acc.config.set key
          (.dict (VDict.ofList [("enabled", .bool false)])) }
  else do
    let composeV ← p.index "compose"
    let compose ← asDict "compose" composeV
    let name := key ++ "-probe"
    let acc1 :=
      if key == "selenium" then
        if acc.services.hasKey "selenium" then { acc with hasSelenium := true }
        else { acc with services := acc.services.set "selenium" _SELENIUM,
                        hasSelenium := true }
      else acc
    let services2 ←
      if acc1.services.hasKey name then do
        let sm ← asDict "service" ((acc1.services.get? name).getD .null)
        let sm1 := match compose.get? "environment" with
          | some envv => sm.set "environment" envv
          | none => sm.del "environment"
        let img ← compose.index "image"
        Except.ok (acc1.services.set name (.dict (sm1.set "image" img)))
      else
        Except.ok (acc1.services.set name (.dict (template.update compose)))
    let use := p.getD "use" .null
    let configV := p.getD "config" .null
    let assetsV ← match acc1.config.getD key (.dict .nil) with
      | .dict m => Except.ok (m.getD "assets" .null)
      | _ => Except.error "AttributeError: .get"
    let entry : VDict :=
      if truthy assetsV then VDict.ofList [("assets", assetsV)] else .nil
    let config2 :=
      if truthy use then acc1.config.set key (.dict (entry.set "use" use))
      else if truthy configV then
        acc1.config.set key (.dict (entry.set "config" configV))
      else if !truthy assetsV then (acc1.config.set key (.dict entry)).del key
      else acc1.config.set key (.dict entry)
    Except.ok { services := services2, config := config2,
                hasSelenium := acc1.hasSelenium }

def filterNonEmpty : VDict → VDict
  | .nil => .nil
  | .cons k v t =>
    if pyEmptyOrNone v then filterNonEmpty t
    else .cons k v (filterNonEmpty t)

def emptyKeys : VDict → List String
  | .nil => []
  | .cons k v t => if pyEmptyOrNone v then k :: emptyKeys t else emptyKeys t

/-- One iteration of the agents loop (src/lib/state.py lines 751-775). -/
def agentStep (template : VDict) (agents : VDict) (services : VDict)
    (key : String) : Except String VDict := do
  let name := key ++ "-agent"
  match agents.get? key with
  | some composeV => do
    let compose ← asDict "compose" composeV
    let service0 ←
      if services.hasKey name then
        asDict "service" ((services.get? name).getD .null)
      else
        Except.ok (template.update (agentTemplate key))
    let envc ← match compose.getD "environment" (.dict .nil) with
      | .dict m => Except.ok m
      | _ => Except.error "AttributeError: env.items"
    let seV ← service0.index "environment"
    let se ← asDict "environment" seV
    let se1 := se.update (filterNonEmpty envc)
    let se2 := (emptyKeys envc).foldl (fun a k => a.del k) se1
    let img ← compose.index "image"
    let service1 := (service0.set "environment" (.dict se2)).set "image" img
    Except.ok (services.set name (.dict service1))
  | none => Except.ok (services.del name)

/-- `configs_to_delete` (src/lib/state.py lines 777-783): names of current
entries that are dicts with a truthy string `like`. -/
def likeNames : VDict → List String
  | .nil => []
  | .cons name v t =>
    match v with
    | .dict m =>
      (match m.get? "like" with
      | some (.str l) => if l.isEmpty then likeNames t else name :: likeNames t
      | _ => likeNames t)
    | _ => likeNames t

/-- One iteration of the named-configs loop
(src/lib/state.py lines 785-805); also returns the processed name. -/
def namedConfigStep (acc : VDict) (cV : Val) :
    Except String (VDict × String) := do
  let c ← asDict "config" cV
  let nameV ← c.index "name"
  let name ← match nameV with
    | .str s => Except.ok s
    | _ => Except.error "TypeError: name"
  let use := c.getD "use" .null
  let assetsV ← match acc.getD name (.dict .nil) with
    | .dict m => Except.ok (m.getD "assets" .null)
    | _ => Except.error "AttributeError: .get"
  let likeV ← c.index "like"
  let entry0 := VDict.ofList [("like", likeV)]
  let entry1 := if truthy assetsV then entry0.set "assets" assetsV else entry0
  let entry2 ←
    if truthy use then Except.ok (entry1.set "use" use)
    else do
      let cfg ← c.index "config"
      Except.ok (entry1.set "config" cfg)
  Except.ok (acc.set name (.dict entry2), name)

namespace State

/-- `State.set` (src/lib/state.py lines 680-850).  `allow` is the process
flag `ALLOW_REMOTE_ACCESS` and `now` is `int(time.time())` (the source reads
the clock twice, in `_sanity_check` and in the remote-access step; the model
uses a single instant).  The final `cls.write()` and the background
`update()` are outside the document-level model: a returned `.ok` state is
exactly the document content handed to `write`. -/
def set (allow : Bool) (now : Int) (s : AppState) (state0 : Val) :
    Except String AppState := do
  let stateV ← sanityCheck s.env s.config now state0
  let st ← asDict "state" stateV
  let probesV ← st.index "probes"
  let probesL ← match probesV with
    | .list xs => Except.ok xs.toList
    | _ => Except.error "TypeError: probes"
  let agentsV ← st.index "agents"
  let agentsL ← match agentsV with
    | .list xs => Except.ok xs.toList
    | _ => Except.error "TypeError: agents"
  let agentsM ← buildAgentsMap agentsL
  let configsV ← st.index "configs"
  let configsL ← match configsV with
    | .list xs => Except.ok xs.toList
    | _ => Except.error "TypeError: configs"
  let services1 := removeDisabledServices s.services probesL
  let acc0 : SetAcc :=
    { services := services1, config := s.config, hasSelenium := false }
  let acc1 ← probesL.foldlM (probeStep s.template) acc0
  let services2 :=
    if acc1.hasSelenium then acc1.services else acc1.services.del "selenium"
  let services3 ← agentKeys.foldlM (agentStep s.template agentsM) services2
  let toDelete0 := likeNames acc1.config
  let step ← configsL.foldlM
    (fun (pr : VDict × List String) cV => do
      let r ← namedConfigStep pr.1 cV
      Except.ok (r.1, r.2 :: pr.2))
    (acc1.config, [])
  let config3 :=
    (toDelete0.filter (fun n => !step.2.contains n)).foldl
      (fun a n => a.del n) step.1
  let socatV := st.getD "socat_target_addr" .null
  let services4 :=
    if truthy socatV then services3.set "socat" _SOCAT
    else services3.del "socat"
  let ra ← asDict "ra" (st.getD "ra" (.dict .nil))
  let raEnabled := truthy (ra.getD "enabled" (.bool false))
  let u ← match pyAsInt? (ra.getD "until" (.int 0)) with
    | some u => Except.ok u
    | none => Except.error "TypeError: unsupported operand"
  let sc ←
    if allow && raEnabled && 55 < u - now && u - now ≤ MAX_RA then do
      let iso ← match isoUTCo u with
        | some i => Except.ok i
        | none => Except.error "ValueError: fromtimestamp out of range"
      Except.ok (services4.set "ra" _RA, config3.set "__ra_until__" (.str iso))
    else Except.ok (services4.del "ra", config3)
  let tokAc ← st.index "agentcore_token"
  let tokAg ← st.index "agent_token"
  let zid ← st.index "agentcore_zone_id"
  let sta ← st.index "socat_target_addr"
  Except.ok { services := sc.1, template := s.template, config := sc.2,
              env := { agentcoreToken := tokAc, agentToken := tokAg,
                       zoneId := zid, socatTargetAddr := sta } }

end State

/-!
## `State.write` and `State.tmp_file` (src/lib/state.py lines 266-326, 916-920)

The compose and configurations manifests are written with the same file
sequence: write the full content to a sibling temp file, `os.unlink` the
target, `os.rename` the temp file over the target.  A tiny file-system
trace semantics captures the states the target passes through.  (The env
file is handed to `ConfigObj.write`, which rewrites the target in place
with no temp file; that third-party call is outside this model.)
-/

/-- `State.tmp_file`: the target name plus a dot and the 10-char random
lowercase suffix. -/
def tmpFile (filename suffix : String) : String :=
  filename ++ "." ++ suffix

def lookupFS (fs : List (String × String)) (name : String) : Option String :=
  match fs with
  | [] => none
  | (n, c) :: t => if n == name then some c else lookupFS t name

def removeFS (fs : List (String × String)) (name : String) :
    List (String × String) :=
  match fs with
  | [] => []
  | (n, c) :: t => if n == name then removeFS t name else (n, c) :: removeFS t name

def setFS (fs : List (String × String)) (name content : String) :
    List (String × String) :=
  (name, content) :: removeFS fs name

inductive FOp where
  | writeF (name content : String)
  | unlink (name : String)
  | rename (src dst : String)
deriving DecidableEq

def applyOp (fs : List (String × String)) : FOp → List (String × String)
  | .writeF n c => setFS fs n c
  | .unlink n => removeFS fs n
  | .rename src dst =>
    match lookupFS fs src with
    | some c => setFS (removeFS fs src) dst c
    | none => fs

/-- The sequence performed for each manifest by `State.write`
(src/lib/state.py lines 277-291 and 293-326): temp write, `os.unlink`,
`os.rename`. -/
def writeOps (target tmp content : String) : List FOp :=
  [.writeF tmp content, .unlink target, .rename tmp target]

/-- All file-system states passed through while executing `ops`. -/
def traceFS (fs : List (String × String)) : List FOp → List (List (String × String))
  | [] => [fs]
  | op :: t => fs :: traceFS (applyOp fs op) t

/-!
## `RappProtocol` dispatch (src/lib/protocol.py lines 10-90)

`on_package_received` looks the request code up in the handler map, dropping
unknown codes, and schedules `go`, which checks `Docker.lock.locked()`
before anything else: when the gate is held it builds a BUSY reply carrying
the request's packet id and never invokes the handler.  The handler itself
is abstracted as a function producing the reply outcome (`RES`, or `ERR`
from an exception); `go` is modelled together with a flag recording whether
the handler was invoked.
-/

def PROTO_RAPP_PING : Nat := 0x40
def PROTO_RAPP_READ : Nat := 0x41
def PROTO_RAPP_PUSH : Nat := 0x42
def PROTO_RAPP_UPDATE : Nat := 0x43
def PROTO_RAPP_LOG : Nat := 0x44
def PROTO_RAPP_RES : Nat := 0x50
def PROTO_RAPP_BUSY : Nat := 0x53
def PROTO_RAPP_ERR : Nat := 0x54

/-- The request codes present in the `_map` of `on_package_received`. -/
def requestCodes : List Nat :=
  [PROTO_RAPP_PING, PROTO_RAPP_READ, PROTO_RAPP_PUSH,
   PROTO_RAPP_UPDATE, PROTO_RAPP_LOG]

inductive Outcome where
  /-- A reply packet written back: type code and echoed packet id. -/
  | reply (tp pid : Nat)
  /-- No reply (unhandled request code is logged and dropped). -/
  | dropped
deriving DecidableEq

/-- `RappProtocol.go` (src/lib/protocol.py lines 58-76): the Bool result
records whether the handler ran. -/
def protoGo (locked : Bool) (pid : Nat) (handle : Unit → Outcome) :
    Bool × Outcome :=
  if locked then (false, .reply PROTO_RAPP_BUSY pid) else (true, handle ())

/-- `RappProtocol.on_package_received` (src/lib/protocol.py lines 78-90). -/
def onPackageReceived (locked : Bool) (tp pid : Nat)
    (handle : Unit → Outcome) : Bool × Outcome :=
  if requestCodes.contains tp then protoGo locked pid handle
  else (false, .dropped)

/-!
## `State.clean_watchtower` (src/lib/state.py lines 187-209)

Acting on the full top-level compose document (whose `x-infrasonar-template`
entry is the object aliased by `cls.x_infrasonar_template` in `_read`):
delete `services['watchtower']` (`KeyError` passed), delete the template's
`labels` (`KeyError` passed), then `for service in cls.compose_data.values():
del service['labels']` — the loop runs over the *top-level* values of the
compose document, not over the services.  A non-dict top-level value raises
an uncaught `TypeError`.
-/

def delLabelsTop : VDict → Except String VDict
  | .nil => .ok .nil
  | .cons k v t => do
    let v' ← match v with
      | .dict m => Except.ok (Val.dict (m.del "labels"))
      | _ => Except.error "TypeError: object does not support item deletion"
    let t' ← delLabelsTop t
    .ok (.cons k v' t')

def cleanWatchtower (compose : VDict) : Except String VDict := do
  let compose1 ←
    match compose.get? "services" with
    | some (.dict sm) =>
      Except.ok (compose.set "services" (.dict (sm.del "watchtower")))
    | some _ => Except.error "TypeError: object does not support item deletion"
    | none => Except.ok compose
  let compose2 ←
    match compose1.get? "x-infrasonar-template" with
    | some (.dict tm) =>
      Except.ok (compose1.set "x-infrasonar-template" (.dict (tm.del "labels")))
    | some _ => Except.error "TypeError: object does not support item deletion"
    | none => Except.error "KeyError: x-infrasonar-template"
  delLabelsTop compose2

/-!
## `LogView.get_lines` (src/lib/logview.py lines 66-79)
-/

structure LogView where
  lines : List String
  accessed : Nat
deriving DecidableEq

structure LogLines where
  lines : List String
  next : Nat
  count : Nat
  start : Nat
  limit : Nat
deriving DecidableEq

/-- `LogView.get_lines(start, limit)`; `now` is `time.time()`, written into
`self._accessed`.  The updated view is returned beside the page. -/
def LogView.get_lines (lv : LogView) (now start limit : Nat) :
    LogView × LogLines :=
  let c := lv.lines.length
  let start1 := if start > c then 0 else start
  let n := if c - start1 > limit then start1 + limit else c
  ({ lv with accessed := now },
   { lines := (lv.lines.drop start1).take (n - start1),
     next := n, count := c, start := start1, limit := limit })

/-- C8 counterexample data: a compose document whose `rapp` service still
carries a `labels` field, plus the deprecated `watchtower` service and a
template with `labels`. -/
def c8Compose : VDict := VDict.ofList [
  ("services", .dict (VDict.ofList [
    ("rapp", .dict (VDict.ofList [
      ("image", .str "ghcr.io/infrasonar/rapp"),
      ("labels", .str "com.centurylinklabs.watchtower.enable")])),
    ("watchtower", .dict .nil)])),
  ("x-infrasonar-template", .dict (VDict.ofList [
    ("labels", .str "com.centurylinklabs.watchtower.enable"),
    ("restart", .str "always")]))]

/-- The compose document after `clean_watchtower`. -/
def c8Result : VDict := VDict.ofList [
  ("services", .dict (VDict.ofList [
    ("rapp", .dict (VDict.ofList [
      ("image", .str "ghcr.io/infrasonar/rapp"),
      ("labels", .str "com.centurylinklabs.watchtower.enable")]))])),
  ("x-infrasonar-template", .dict (VDict.ofList [
    ("restart", .str "always")]))]

def c8SM : VDict := VDict.ofList [
  ("rapp", .dict (VDict.ofList [
    ("image", .str "ghcr.io/infrasonar/rapp"),
    ("labels", .str "com.centurylinklabs.watchtower.enable")])),
  ("watchtower", .dict .nil)]

def c8TM : VDict := VDict.ofList [
  ("labels", .str "com.centurylinklabs.watchtower.enable"),
  ("restart", .str "always")]

/-!
## Secret-redaction predicates (for C3, C4, C10)

`noPlainSecret*` states the spec's property: no non-boolean value sits at a
key named `password`/`secret`, at any nesting depth.  `noListInList*` states
the side condition under which the source's traversal reaches every such
key: no list occurs as a direct element of another list.
-/

def Val.isBool : Val → Bool
  | .bool _ => true
  | _ => false

mutual

def noPlainSecretV : Val → Bool
  | .list xs => noPlainSecretL xs
  | .dict m => noPlainSecretD m
  | _ => true

def noPlainSecretL : VList → Bool
  | .nil => true
  | .cons v t => noPlainSecretV v && noPlainSecretL t

def noPlainSecretD : VDict → Bool
  | .nil => true
  | .cons k v t =>
    (if isSecretKey k then v.isBool else noPlainSecretV v) && noPlainSecretD t

end

mutual

def noListInListV : Val → Bool
  | .list xs => noListInListL xs
  | .dict m => noListInListD m
  | _ => true

def noListInListL : VList → Bool
  | .nil => true
  | .cons (.list _) _ => false
  | .cons v t => noListInListV v && noListInListL t

def noListInListD : VDict → Bool
  | .nil => true
  | .cons _ v t => noListInListV v && noListInListD t

end

/-- The `config` field of a stored entry, when present, is free of lists
directly inside lists. -/
def configFieldNLL (v : Val) : Bool :=
  match v with
  | .dict m =>
    (match m.get? "config" with
     | some c => noListInListV c
     | none => true)
  | _ => true

/-- Every `config` block stored in the configurations manifest is free of
lists directly inside lists. -/
def storedConfigsOk : VDict → Bool
  | .nil => true
  | .cons _ v t => configFieldNLL v && storedConfigsOk t

/-- The `config` field of a wire probes/configs item is free of plain
secrets (items without a `config` field count as redacted). -/
def itemConfigRedacted (item : Val) : Bool :=
  match item with
  | .dict m =>
    (match m.get? "config" with
     | some c => noPlainSecretV c
     | none => true)
  | _ => true

def itemsConfigRedacted : VList → Bool
  | .nil => true
  | .cons v t => itemConfigRedacted v && itemsConfigRedacted t

/-- Redaction over the `probes` and `configs` sequences of a wire
document. -/
def docConfigsRedacted (d : Val) : Bool :=
  match d with
  | .dict m =>
    (match m.get? "probes" with
     | some (.list xs) => itemsConfigRedacted xs
     | _ => true) &&
    (match m.get? "configs" with
     | some (.list xs) => itemsConfigRedacted xs
     | _ => true)
  | _ => true

/-- C3 counterexample data: a probe config with a secret inside a list that
sits directly inside another list. -/
def c3State : AppState :=
  { services := VDict.ofList [("ping-probe", .dict (VDict.ofList [
      ("image", .str "ghcr.io/infrasonar/ping-probe:v1"),
      ("environment", .dict .nil)]))],
    template := .nil,
    config := VDict.ofList [("ping", .dict (VDict.ofList [
      ("config", .dict (VDict.ofList [
        ("a", .list (VList.ofList [.list (VList.ofList [
          .dict (VDict.ofList [("password", .str "hunter2")])])]))]))]))],
    env := { agentcoreToken := .str "", agentToken := .str "",
             zoneId := .int 0, socatTargetAddr := .str "" } }

/-- C3 witness data: a canonical state whose probe config holds a secret. -/
def c3WitState : AppState :=
  { services := VDict.ofList [("ping-probe", .dict (VDict.ofList [
      ("image", .str "ghcr.io/infrasonar/ping-probe:v1"),
      ("environment", .dict .nil)]))],
    template := .nil,
    config := VDict.ofList [("ping", .dict (VDict.ofList [
      ("config", .dict (VDict.ofList [
        ("password", .str "xyz"), ("user", .str "alice")]))]))],
    env := { agentcoreToken := .str "", agentToken := .str "",
             zoneId := .int 0, socatTargetAddr := .str "" } }

/-- The wire document `get` produces for `c3WitState`. -/
def c3WitDoc : Val := .dict (VDict.ofList [
  ("probes", .list (VList.ofList [.dict (VDict.ofList [
    ("key", .str "ping"),
    ("compose", .dict (VDict.ofList [
      ("image", .str "ghcr.io/infrasonar/ping-probe:v1"),
      ("environment", .dict .nil)])),
    ("enabled", .bool true),
    ("config", .dict (VDict.ofList [
      ("password", .bool true), ("user", .str "alice")]))])])),
  ("agents", .list (VList.ofList [
    .dict (VDict.ofList [("key", .str "docker"), ("enabled", .bool false)]),
    .dict (VDict.ofList [("key", .str "discovery"),
      ("enabled", .bool false)])])),
  ("configs", .list .nil),
  ("agent_token", .bool false),
  ("agentcore_token", .bool false),
  ("agentcore_zone_id", .int 0),
  ("socat_target_addr", .str ""),
  ("ra", .dict (VDict.ofList [
    ("allowed", .bool false), ("info", .str (raInfo false))]))])

/-!
## Paths into YAML values

`valAt` reads a nested value along a path of dict fields and list indices.
`firstDict` finds the first element of a list that is a dict, with its
index.  `revReach` is the set of paths `_revert_secrets` actually walks when
reverting a config dict: at a dict it descends through non-secret keys, at a
list only into the *first* dict element (positional lookup against the
original value is correct only there, because of the `o = o[idx]` rebinding
in src/lib/state.py lines 353-360).
-/

inductive PathElem where
  | field : String → PathElem
  | idx : Nat → PathElem
deriving DecidableEq

def valAt : Val → List PathElem → Option Val
  | v, [] => some v
  | .dict m, .field k :: p =>
    match m.get? k with
    | some v => valAt v p
    | none => none
  | .list xs, .idx i :: p =>
    match xs.get? i with
    | some v => valAt v p
    | none => none
  | _, _ => none

def firstDict : VList → Option (Nat × VDict)
  | .nil => none
  | .cons (.dict m) _ => some (0, m)
  | .cons _ t => (firstDict t).map (fun rm => (rm.1 + 1, rm.2))

def revReach : Val → List PathElem → Bool
  | _, [] => true
  | .dict m, .field k :: p =>
    !isSecretKey k &&
    (match m.get? k with
     | some v => revReach v p
     | none => false)
  | .list xs, .idx i :: p =>
    (match firstDict xs with
     | some rm => rm.1 == i && revReach (.dict rm.2) p
     | none => false)
  | _, _ => false

/-!
## Concrete data for the round-trip, secret-restore, asset and
remote-access claims (C2, C4, C5, C6, C10)
-/

/-- C2 counterexample data: a valid state whose probe service has no
`environment` block. -/
def c2CexState : AppState :=
  { services := VDict.ofList [("ping-probe", .dict (VDict.ofList [
      ("image", .str "ghcr.io/infrasonar/ping-probe:v1")]))],
    template := .nil,
    config := .nil,
    env := { agentcoreToken := .str "", agentToken := .str "",
             zoneId := .int 0, socatTargetAddr := .str "" } }

/-- The wire document `get` produces for `c2CexState`. -/
def c2CexDoc : Val :=
  match State.get true c2CexState with
  | .ok d => d
  | .error _ => .null

/-- The state `set` writes back for `c2CexDoc`. -/
def c2CexOut : AppState :=
  match State.set true 0 c2CexState c2CexDoc with
  | .ok s => s
  | .error _ => c2CexState

/-- C2 family: a canonical valid state (probe service with an explicit
`environment` block, one stored probe config with a secret), parametric in
the two stored tokens and in the non-secret config value. -/
def c2Fam (ta tc : Val) (u : String) : AppState :=
  { services := VDict.ofList [("ping-probe", .dict (VDict.ofList [
      ("image", .str "ghcr.io/infrasonar/ping-probe:v1"),
      ("environment", .dict .nil)]))],
    template := .nil,
    config := VDict.ofList [("ping", .dict (VDict.ofList [
      ("config", .dict (VDict.ofList [
        ("password", .str "hunter2"), ("user", .str u)]))]))],
    env := { agentcoreToken := tc, agentToken := ta,
             zoneId := .int 0, socatTargetAddr := .str "" } }

/-- C4 witness data: wire probe config carrying `password: true`. -/
def cfgW : VDict :=
  VDict.ofList [("password", .bool true), ("user", .str "alice")]

/-- C4 witness data: the wire probe. -/
def pmW : VDict := VDict.ofList [
  ("key", .str "ping"),
  ("compose", .dict (VDict.ofList [
    ("image", .str "ghcr.io/infrasonar/ping-probe:v1"),
    ("environment", .dict .nil)])),
  ("enabled", .bool true),
  ("config", .dict cfgW)]

/-- C4/C10 witness data: the stored configurations-manifest entry with the
secret `"xyz"`. -/
def emW : VDict := VDict.ofList [("config", .dict (VDict.ofList [
  ("password", .str "xyz"), ("user", .str "alice")]))]

/-- C4/C10 witness data: the on-disk state. -/
def c4WitState : AppState :=
  { services := .nil, template := .nil,
    config := VDict.ofList [("ping", .dict emW)],
    env := { agentcoreToken := .str "", agentToken := .str "",
             zoneId := .int 0, socatTargetAddr := .str "" } }

/-- C4 witness data: the incoming document. -/
def c4WitDoc : VDict := VDict.ofList [
  ("probes", .list (VList.ofList [.dict pmW])),
  ("agents", .list .nil),
  ("configs", .list .nil),
  ("agent_token", .bool false),
  ("agentcore_token", .bool false),
  ("agentcore_zone_id", .int 0),
  ("socat_target_addr", .str "")]

/-- C4 witness data: the state written by `set`. -/
def c4WitOut : AppState :=
  match State.set true 0 c4WitState (.dict c4WitDoc) with
  | .ok s => s
  | .error _ => c4WitState

/-- C4 counterexample data: empty manifests on disk. -/
def c4CexState : AppState :=
  { services := .nil, template := .nil, config := .nil,
    env := { agentcoreToken := .str "", agentToken := .str "",
             zoneId := .int 0, socatTargetAddr := .str "" } }

/-- C4 counterexample data: a wire config carrying `password: true` inside
a list that sits directly inside another list. -/
def c4CexCfg : VDict := VDict.ofList [
  ("a", .list (VList.ofList [.list (VList.ofList [
    .dict (VDict.ofList [("password", .bool true)])])]))]

/-- C4 counterexample data: the incoming document. -/
def c4CexDoc : VDict := VDict.ofList [
  ("probes", .list (VList.ofList [.dict (VDict.ofList [
    ("key", .str "ping"),
    ("compose", .dict (VDict.ofList [
      ("image", .str "ghcr.io/infrasonar/ping-probe:v1"),
      ("environment", .dict .nil)])),
    ("enabled", .bool true),
    ("config", .dict c4CexCfg)])])),
  ("agents", .list .nil),
  ("configs", .list .nil),
  ("agent_token", .bool false),
  ("agentcore_token", .bool false),
  ("agentcore_zone_id", .int 0),
  ("socat_target_addr", .str "")]

/-- C4 counterexample data: the state written by `set`. -/
def c4CexOut : AppState :=
  match State.set true 0 c4CexState (.dict c4CexDoc) with
  | .ok s => s
  | .error _ => c4CexState

/-- C10 witness data: wire probe config carrying `password: false`. -/
def cfgW10 : VDict :=
  VDict.ofList [("password", .bool false), ("user", .str "alice")]

/-- C10 witness data: the wire probe. -/
def pmW10 : VDict := VDict.ofList [
  ("key", .str "ping"),
  ("compose", .dict (VDict.ofList [
    ("image", .str "ghcr.io/infrasonar/ping-probe:v1"),
    ("environment", .dict .nil)])),
  ("enabled", .bool true),
  ("config", .dict cfgW10)]

/-- C10 witness data: the incoming document. -/
def c10WitDoc : VDict := VDict.ofList [
  ("probes", .list (VList.ofList [.dict pmW10])),
  ("agents", .list .nil),
  ("configs", .list .nil),
  ("agent_token", .bool false),
  ("agentcore_token", .bool false),
  ("agentcore_zone_id", .int 0),
  ("socat_target_addr", .str "")]

/-- C10 witness data: the state written by `set`. -/
def c10WitOut : AppState :=
  match State.set true 0 c4WitState (.dict c10WitDoc) with
  | .ok s => s
  | .error _ => c4WitState

/-- C10 counterexample data: a stored config whose secret sits inside a
list directly inside another list. -/
def c10CexCfgStored : VDict := VDict.ofList [
  ("a", .list (VList.ofList [.list (VList.ofList [
    .dict (VDict.ofList [("password", .str "hunter2")])])]))]

/-- C10 counterexample data: the on-disk state holding that secret. -/
def c10CexState : AppState :=
  { services := .nil, template := .nil,
    config := VDict.ofList [("ping", .dict (VDict.ofList [
      ("config", .dict c10CexCfgStored)]))],
    env := { agentcoreToken := .str "", agentToken := .str "",
             zoneId := .int 0, socatTargetAddr := .str "" } }

/-- C10 counterexample data: a wire config carrying `password: false` at
the same doubly-nested path. -/
def c10CexCfgWire : VDict := VDict.ofList [
  ("a", .list (VList.ofList [.list (VList.ofList [
    .dict (VDict.ofList [("password", .bool false)])])]))]

/-- C10 counterexample data: the incoming document. -/
def c10CexDoc : VDict := VDict.ofList [
  ("probes", .list (VList.ofList [.dict (VDict.ofList [
    ("key", .str "ping"),
    ("compose", .dict (VDict.ofList [
      ("image", .str "ghcr.io/infrasonar/ping-probe:v1"),
      ("environment", .dict .nil)])),
    ("enabled", .bool true),
    ("config", .dict c10CexCfgWire)])])),
  ("agents", .list .nil),
  ("configs", .list .nil),
  ("agent_token", .bool false),
  ("agentcore_token", .bool false),
  ("agentcore_zone_id", .int 0),
  ("socat_target_addr", .str "")]

/-- C10 counterexample data: the state written by `set`. -/
def c10CexOut : AppState :=
  match State.set true 0 c10CexState (.dict c10CexDoc) with
  | .ok s => s
  | .error _ => c10CexState

/-- C5 witness data: a stored probe entry with an `assets` value. -/
def emW5 : VDict := VDict.ofList [
  ("config", .dict (VDict.ofList [("user", .str "alice")])),
  ("assets", .list (VList.ofList [.int 1]))]

/-- C5 witness data: the wire probe (no `assets` on the wire). -/
def pmW5 : VDict := VDict.ofList [
  ("key", .str "ping"),
  ("compose", .dict (VDict.ofList [
    ("image", .str "ghcr.io/infrasonar/ping-probe:v1"),
    ("environment", .dict .nil)])),
  ("enabled", .bool true),
  ("config", .dict (VDict.ofList [("user", .str "bob")]))]

/-- C5 witness data: the on-disk state. -/
def c5WitState : AppState :=
  { services := .nil, template := .nil,
    config := VDict.ofList [("ping", .dict emW5)],
    env := { agentcoreToken := .str "", agentToken := .str "",
             zoneId := .int 0, socatTargetAddr := .str "" } }

/-- C5 witness data: the incoming document. -/
def c5WitDoc : VDict := VDict.ofList [
  ("probes", .list (VList.ofList [.dict pmW5])),
  ("agents", .list .nil),
  ("configs", .list .nil),
  ("agent_token", .bool false),
  ("agentcore_token", .bool false),
  ("agentcore_zone_id", .int 0),
  ("socat_target_addr", .str "")]

/-- C5 witness data: the state written by `set`. -/
def c5WitOut : AppState :=
  match State.set true 0 c5WitState (.dict c5WitDoc) with
  | .ok s => s
  | .error _ => c5WitState

/-- C5 witness data (named-config case): a stored named-config entry with
`like` and an `assets` value. -/
def emW5c : VDict := VDict.ofList [
  ("like", .str "ping"),
  ("assets", .list (VList.ofList [.int 2])),
  ("config", .dict (VDict.ofList [("user", .str "alice")]))]

/-- C5 witness data (named-config case): the wire named config (no
`assets` on the wire). -/
def cmW5 : VDict := VDict.ofList [
  ("like", .str "ping"),
  ("name", .str "web"),
  ("config", .dict (VDict.ofList [("user", .str "bob")]))]

/-- C5 witness data (named-config case): the on-disk state. -/
def c5WitState2 : AppState :=
  { services := .nil, template := .nil,
    config := VDict.ofList [("web", .dict emW5c)],
    env := { agentcoreToken := .str "", agentToken := .str "",
             zoneId := .int 0, socatTargetAddr := .str "" } }

/-- C5 witness data (named-config case): the incoming document. -/
def c5WitDoc2 : VDict := VDict.ofList [
  ("probes", .list .nil),
  ("agents", .list .nil),
  ("configs", .list (VList.ofList [.dict cmW5])),
  ("agent_token", .bool false),
  ("agentcore_token", .bool false),
  ("agentcore_zone_id", .int 0),
  ("socat_target_addr", .str "")]

/-- C5 witness data (named-config case): the state written by `set`. -/
def c5WitOut2 : AppState :=
  match State.set true 0 c5WitState2 (.dict c5WitDoc2) with
  | .ok s => s
  | .error _ => c5WitState2

/-- C5 counterexample data: a named config with `like` and `assets` on
disk. -/
def c5CexState : AppState :=
  { services := .nil, template := .nil,
    config := VDict.ofList [("web", .dict (VDict.ofList [
      ("like", .str "ping"),
      ("assets", .list (VList.ofList [.int 1])),
      ("config", .dict (VDict.ofList [("user", .str "alice")]))]))],
    env := { agentcoreToken := .str "", agentToken := .str "",
             zoneId := .int 0, socatTargetAddr := .str "" } }

/-- C5 counterexample data: the incoming document omits the named config
entirely. -/
def c5CexDoc : VDict := VDict.ofList [
  ("probes", .list .nil),
  ("agents", .list .nil),
  ("configs", .list .nil),
  ("agent_token", .bool false),
  ("agentcore_token", .bool false),
  ("agentcore_zone_id", .int 0),
  ("socat_target_addr", .str "")]

/-- C5 counterexample data: the state written by `set`. -/
def c5CexOut : AppState :=
  match State.set true 0 c5CexState (.dict c5CexDoc) with
  | .ok s => s
  | .error _ => c5CexState

/-- C6 witness data: the incoming `ra` block. -/
def c6Ra : VDict := VDict.ofList [
  ("allowed", .bool true), ("enabled", .bool true), ("until", .int 100)]

/-- C6 witness data: the on-disk state. -/
def c6WitState : AppState :=
  { services := .nil, template := .nil, config := .nil,
    env := { agentcoreToken := .str "", agentToken := .str "",
             zoneId := .int 0, socatTargetAddr := .str "" } }

/-- C6 witness data: the incoming document. -/
def c6WitDoc : VDict := VDict.ofList [
  ("probes", .list .nil),
  ("agents", .list .nil),
  ("configs", .list .nil),
  ("agent_token", .bool false),
  ("agentcore_token", .bool false),
  ("agentcore_zone_id", .int 0),
  ("socat_target_addr", .str ""),
  ("ra", .dict c6Ra)]

/-- C6 witness data: the state written by `set`. -/
def c6WitOut : AppState :=
  match State.set true 0 c6WitState (.dict c6WitDoc) with
  | .ok s => s
  | .error _ => c6WitState

/-!
## Association-list lemmas
-/

namespace VDict

theorem get?_set : ∀ (d : VDict) (k k' : String) (v : Val),
    (d.set k v).get? k' = if k == k' then some v else d.get? k'
  | .nil, k, k', v => by simp [set, get?]
  | .cons k'' w t, k, k', v => by
    have ih := get?_set t k k' v
    by_cases h1 : k'' = k <;> by_cases h2 : k'' = k' <;>
      by_cases h3 : k = k' <;> simp_all [set, get?]

theorem get?_del_ne : ∀ (d : VDict) (k k' : String), k ≠ k' →
    (d.del k).get? k' = d.get? k'
  | .nil, k, k', _ => by simp [del, get?]
  | .cons k'' w t, k, k', h => by
    have ih := get?_del_ne t k k' h
    by_cases h1 : k'' = k <;> by_cases h2 : k'' = k' <;>
      simp_all [del, get?]

theorem del_cons_self (k0 : String) (v : Val) (t : VDict) :
    (VDict.cons k0 v t).del k0 = t := by
  simp [del]

theorem del_cons_ne (k0 : String) (v : Val) (t : VDict) {k : String}
    (h : k0 ≠ k) : (VDict.cons k0 v t).del k = .cons k0 v (t.del k) := by
  simp [del, h]

theorem get?_cons_ne (k0 : String) (v : Val) (t : VDict) {k : String}
    (h : k0 ≠ k) : (VDict.cons k0 v t).get? k = t.get? k := by
  simp [get?, h]

theorem get?_cons_self (k0 : String) (v : Val) (t : VDict) :
    (VDict.cons k0 v t).get? k0 = some v := by
  simp [get?]

theorem get?_eq_none_of_not_mem : ∀ (d : VDict) (k : String),
    k ∉ d.keys → d.get? k = none
  | .nil, _, _ => rfl
  | .cons k0 v t, k, h => by
    have h0 : k0 ≠ k := fun e => h (by simp [keys, e])
    have ht : k ∉ t.keys := fun e => h (by simp [keys, e])
    rw [get?_cons_ne k0 v t h0]
    exact get?_eq_none_of_not_mem t k ht

theorem keys_del_subset : ∀ (d : VDict) (k k' : String),
    k' ∈ (d.del k).keys → k' ∈ d.keys
  | .nil, _, _, h => h
  | .cons k0 v t, k, k', h => by
    by_cases h0 : k0 = k
    · subst h0
      rw [del_cons_self] at h
      exact by simp [keys, h]
    · rw [del_cons_ne k0 v t h0] at h
      simp only [keys, List.mem_cons] at h ⊢
      rcases h with rfl | h
      · exact Or.inl rfl
      · exact Or.inr (keys_del_subset t k k' h)

theorem get?_del_self_of_nodup : ∀ (d : VDict) (k : String),
    d.keys.Nodup → (d.del k).get? k = none
  | .nil, _, _ => rfl
  | .cons k0 v t, k, h => by
    have hnd := List.nodup_cons.mp (by simpa [keys] using h)
    by_cases h0 : k0 = k
    · subst h0
      rw [del_cons_self]
      exact get?_eq_none_of_not_mem t k0 hnd.1
    · rw [del_cons_ne k0 v t h0, get?_cons_ne k0 v _ h0]
      exact get?_del_self_of_nodup t k hnd.2

theorem get?_del_none : ∀ (d : VDict) (k k' : String),
    d.get? k = none → (d.del k').get? k = none
  | .nil, _, _, _ => rfl
  | .cons k0 v t, k, k', h => by
    have h0 : k0 ≠ k := by
      intro e
      subst e
      simp [get?] at h
    have ht : t.get? k = none := by rwa [get?_cons_ne k0 v t h0] at h
    by_cases h1 : k0 = k'
    · subst h1
      rw [del_cons_self]
      exact ht
    · rw [del_cons_ne k0 v t h1, get?_cons_ne k0 _ _ h0]
      exact get?_del_none t k k' ht

end VDict

theorem lookupFS_setFS (fs : List (String × String)) (n c m : String) :
    lookupFS (setFS fs n c) m = if n == m then some c else lookupFS fs m := by
  by_cases h : n = m
  · simp [setFS, lookupFS, h]
  · simp only [setFS, lookupFS, beq_iff_eq, h, if_false]
    induction fs with
    | nil => simp [removeFS, lookupFS]
    | cons p t ih =>
      by_cases h1 : p.1 = n <;> by_cases h2 : p.1 = m <;>
        simp_all [removeFS, lookupFS]

theorem lookupFS_removeFS (fs : List (String × String)) (n m : String) :
    lookupFS (removeFS fs n) m = if n == m then none else lookupFS fs m := by
  induction fs with
  | nil => simp [removeFS, lookupFS]
  | cons p t ih =>
    by_cases h1 : p.1 = n <;> by_cases h2 : p.1 = m <;>
      by_cases h3 : n = m <;> simp_all [removeFS, lookupFS]

/-- A 10-character suffix makes the temp name differ from the target. -/
theorem tmpFile_ne (target suffix : String) (hs : suffix.length = 10) :
    tmpFile target suffix ≠ target := by
  intro h
  have hdot : ("." : String).length = 1 := rfl
  have hlen : (tmpFile target suffix).length = target.length + 1 + 10 := by
    simp [tmpFile, String.length_append, hs, hdot]
  rw [h] at hlen
  omega

/-- Renaming `src` over `dst` makes `dst` hold `src`'s content. -/
theorem lookupFS_rename_present (fs : List (String × String))
    (src dst c : String) (h : lookupFS fs src = some c) :
    lookupFS (applyOp fs (.rename src dst)) dst = some c := by
  simp [applyOp, h, lookupFS_setFS]

theorem bandL {a b : Bool} (h : (a && b) = true) : a = true := by
  cases a <;> simp_all

theorem bandR {a b : Bool} (h : (a && b) = true) : b = true := by
  cases a <;> simp_all

theorem bandI {a b : Bool} (ha : a = true) (hb : b = true) :
    (a && b) = true := by
  rw [ha, hb]
  rfl

/-- Inversion for successful `Except` binds. -/
theorem exBind_ok {α β : Type} {e : Except String α} {f : α → Except String β}
    {b : β} (h : e >>= f = .ok b) : ∃ a, e = .ok a ∧ f a = .ok b := by
  cases e with
  | error s => exact absurd h (by simp [Bind.bind, Except.bind])
  | ok a => exact ⟨a, rfl, by simpa [Bind.bind, Except.bind] using h⟩

theorem replaceSecretsD_cons (k : String) (v : Val) (t : VDict) :
    replaceSecretsD (.cons k v t)
      = (if isSecretKey k then .cons k (.bool (truthy v)) (replaceSecretsD t)
         else match v with
           | .list xs => .cons k (.list (replaceSecretsL xs)) (replaceSecretsD t)
           | .dict m => .cons k (.dict (replaceSecretsD m)) (replaceSecretsD t)
           | v => .cons k v (replaceSecretsD t)) := by
  cases v <;> rfl

theorem replaceSecretsL_cons (v : Val) (t : VList) :
    replaceSecretsL (.cons v t)
      = (match v with
         | .dict m => VList.cons (.dict (replaceSecretsD m)) (replaceSecretsL t)
         | v => VList.cons v (replaceSecretsL t)) := by
  cases v <;> rfl

mutual

theorem replaceD_noPlainSecret : ∀ (m : VDict), noListInListD m = true →
    noPlainSecretD (replaceSecretsD m) = true
  | .nil, _ => rfl
  | .cons k v t, h => by
    have hv : noListInListV v = true ∧ noListInListD t = true := by
      have hh : noListInListD (.cons k v t)
          = (noListInListV v && noListInListD t) := rfl
      rw [hh] at h
      exact ⟨bandL h, bandR h⟩
    have ht' := replaceD_noPlainSecret t hv.2
    have hnp : ∀ w : Val, noPlainSecretD (.cons k w (replaceSecretsD t))
        = ((if isSecretKey k then Val.isBool w else noPlainSecretV w)
           && noPlainSecretD (replaceSecretsD t)) := fun w => rfl
    rw [replaceSecretsD_cons]
    by_cases hk : isSecretKey k = true
    · rw [if_pos hk, hnp, if_pos hk]
      simp [Val.isBool, ht']
    · have hk' : ¬ (isSecretKey k = true) := hk
      rw [if_neg hk']
      cases v with
      | list xs =>
        show noPlainSecretD (.cons k (.list (replaceSecretsL xs))
          (replaceSecretsD t)) = true
        rw [hnp, if_neg hk']
        exact bandI (replaceL_noPlainSecret xs hv.1) ht'
      | dict mm =>
        show noPlainSecretD (.cons k (.dict (replaceSecretsD mm))
          (replaceSecretsD t)) = true
        rw [hnp, if_neg hk']
        exact bandI (replaceD_noPlainSecret mm hv.1) ht'
      | null =>
        show noPlainSecretD (.cons k .null (replaceSecretsD t)) = true
        rw [hnp, if_neg hk']
        exact bandI rfl ht'
      | bool b =>
        show noPlainSecretD (.cons k (.bool b) (replaceSecretsD t)) = true
        rw [hnp, if_neg hk']
        exact bandI rfl ht'
      | int n =>
        show noPlainSecretD (.cons k (.int n) (replaceSecretsD t)) = true
        rw [hnp, if_neg hk']
        exact bandI rfl ht'
      | str s =>
        show noPlainSecretD (.cons k (.str s) (replaceSecretsD t)) = true
        rw [hnp, if_neg hk']
        exact bandI rfl ht'

theorem replaceL_noPlainSecret : ∀ (xs : VList), noListInListL xs = true →
    noPlainSecretL (replaceSecretsL xs) = true
  | .nil, _ => rfl
  | .cons v t, h => by
    have hnp : ∀ w : Val, noPlainSecretL (.cons w (replaceSecretsL t))
        = (noPlainSecretV w && noPlainSecretL (replaceSecretsL t)) :=
      fun w => rfl
    rw [replaceSecretsL_cons]
    cases v with
    | dict mm =>
      have hv : noListInListD mm = true ∧ noListInListL t = true := by
        have hh : noListInListL (.cons (.dict mm) t)
            = (noListInListV (.dict mm) && noListInListL t) := rfl
        rw [hh] at h
        exact ⟨bandL h, bandR h⟩
      show noPlainSecretL (.cons (.dict (replaceSecretsD mm))
        (replaceSecretsL t)) = true
      rw [hnp]
      exact bandI (replaceD_noPlainSecret mm hv.1) (replaceL_noPlainSecret t hv.2)
    | list ys =>
      have hfalse : noListInListL (.cons (.list ys) t) = false := rfl
      rw [hfalse] at h
      exact absurd h (by simp)
    | null =>
      have hv : noListInListL t = true := by
        have hh : noListInListL (.cons .null t)
            = (noListInListV .null && noListInListL t) := rfl
        rw [hh] at h
        exact bandR h
      show noPlainSecretL (.cons .null (replaceSecretsL t)) = true
      rw [hnp]
      exact bandI rfl (replaceL_noPlainSecret t hv)
    | bool b =>
      have hv : noListInListL t = true := by
        have hh : noListInListL (.cons (.bool b) t)
            = (noListInListV (.bool b) && noListInListL t) := rfl
        rw [hh] at h
        exact bandR h
      show noPlainSecretL (.cons (.bool b) (replaceSecretsL t)) = true
      rw [hnp]
      exact bandI rfl (replaceL_noPlainSecret t hv)
    | int n =>
      have hv : noListInListL t = true := by
        have hh : noListInListL (.cons (.int n) t)
            = (noListInListV (.int n) && noListInListL t) := rfl
        rw [hh] at h
        exact bandR h
      show noPlainSecretL (.cons (.int n) (replaceSecretsL t)) = true
      rw [hnp]
      exact bandI rfl (replaceL_noPlainSecret t hv)
    | str s =>
      have hv : noListInListL t = true := by
        have hh : noListInListL (.cons (.str s) t)
            = (noListInListV (.str s) && noListInListL t) := rfl
        rw [hh] at h
        exact bandR h
      show noPlainSecretL (.cons (.str s) (replaceSecretsL t)) = true
      rw [hnp]
      exact bandI rfl (replaceL_noPlainSecret t hv)

end

theorem storedConfigsOk_lookup : ∀ (cfg : VDict),
    storedConfigsOk cfg = true →
    ∀ (k : String) (m : VDict) (c : Val), cfg.get? k = some (.dict m) →
      m.get? "config" = some c → noListInListV c = true
  | .nil, _, k, m, c, hk, _ => by
    rw [show VDict.nil.get? k = none from rfl] at hk
    cases hk
  | .cons k0 v0 t, h, k, m, c, hk, hc => by
    have hparts : configFieldNLL v0 = true ∧ storedConfigsOk t = true := by
      have hh : storedConfigsOk (.cons k0 v0 t)
          = (configFieldNLL v0 && storedConfigsOk t) := rfl
      rw [hh] at h
      exact ⟨bandL h, bandR h⟩
    by_cases he : k0 = k
    · subst he
      have hself : (VDict.cons k0 v0 t).get? k0 = some v0 := by
        rw [show (VDict.cons k0 v0 t).get? k0
          = (if k0 == k0 then some v0 else t.get? k0) from rfl]
        simp
      rw [hself] at hk
      have hv0 : v0 = .dict m := by
        injection hk
      subst hv0
      have h1 := hparts.1
      rw [show configFieldNLL (.dict m)
        = (match m.get? "config" with
           | some cc => noListInListV cc
           | none => true) from rfl, hc] at h1
      exact h1
    · rw [VDict.get?_cons_ne k0 _ _ he] at hk
      exact storedConfigsOk_lookup t hparts.2 k m c hk hc

/-- The shared probe-item builder leaves either no `config` field or the
given config. -/
theorem probeUseOrConfig_config (base : VDict) (use cfg : Val) :
    (probeUseOrConfig base use cfg).get? "config" = some cfg ∨
    (probeUseOrConfig base use cfg).get? "config" = base.get? "config" := by
  have hset : (base.set "config" cfg).get? "config" = some cfg := by
    rw [VDict.get?_set]
    simp
  have huse : ∀ s : String, (base.set "use" (.str s)).get? "config"
      = base.get? "config" := by
    intro s
    rw [VDict.get?_set]
    simp
  cases use with
  | str s =>
    have hrw : probeUseOrConfig base (.str s) cfg
        = (if s.isEmpty then base.set "config" cfg
           else base.set "use" (.str s)) := rfl
    rw [hrw]
    by_cases hs : s.isEmpty = true
    · rw [if_pos hs]
      exact Or.inl hset
    · rw [if_neg hs]
      exact Or.inr (huse s)
  | null => exact Or.inl hset
  | bool b => exact Or.inl hset
  | int n => exact Or.inl hset
  | list xs => exact Or.inl hset
  | dict mm => exact Or.inl hset

/-- The probe-item builder produces a redacted item when fed a redacted
config (and a base without `config` field). -/
theorem probeUseOrConfig_redacted (base : VDict) (use : Val) (m : VDict)
    (hbase : base.get? "config" = none)
    (hm : noPlainSecretD (replaceSecretsD m) = true) :
    itemConfigRedacted (.dict
      (probeUseOrConfig base use (.dict (replaceSecretsD m)))) = true := by
  have hic : ∀ d : VDict, itemConfigRedacted (.dict d)
      = (match d.get? "config" with
         | some c => noPlainSecretV c
         | none => true) := fun d => rfl
  rcases probeUseOrConfig_config base use (.dict (replaceSecretsD m)) with
    hcase | hcase
  · rw [hic, hcase]
    have hred : (match some (Val.dict (replaceSecretsD m)) with
        | some c => noPlainSecretV c
        | none => true) = noPlainSecretD (replaceSecretsD m) := rfl
    rw [hred]
    exact hm
  · rw [hic, hcase, hbase]


theorem VDict.getD_eq (d : VDict) (k : String) (dflt : Val) :
    d.getD k dflt = (d.get? k).getD dflt := rfl

/-- Provenance of the config dict fed to `_replace_secrets`: it is empty or
a `config` block stored in the configurations manifest, hence (under
`storedConfigsOk`) free of lists directly inside lists. -/
theorem stored_config_nll (cfg : VDict) (key : String) (probe m : VDict)
    (hok : storedConfigsOk cfg = true)
    (hp : cfg.getD key (.dict .nil) = .dict probe)
    (hc : probe.getD "config" (.dict .nil) = .dict m) :
    noListInListD m = true := by
  rcases hgd : cfg.get? key with _ | v
  · rw [VDict.getD_eq, hgd] at hp
    simp only [Option.getD, Val.dict.injEq] at hp
    subst hp
    rw [VDict.getD_eq] at hc
    rw [show VDict.nil.get? "config" = none from rfl] at hc
    simp only [Option.getD, Val.dict.injEq] at hc
    subst hc
    rfl
  · rw [VDict.getD_eq, hgd] at hp
    simp only [Option.getD] at hp
    subst hp
    rcases hcd : probe.get? "config" with _ | c
    · rw [VDict.getD_eq, hcd] at hc
      simp only [Option.getD, Val.dict.injEq] at hc
      subst hc
      rfl
    · rw [VDict.getD_eq, hcd] at hc
      simp only [Option.getD] at hc
      subst hc
      exact storedConfigsOk_lookup cfg hok key probe (.dict m) hgd hcd

theorem storedConfigsOk_head {k0 : String} {v0 : Val} {t : VDict}
    (h : storedConfigsOk (.cons k0 v0 t) = true) :
    configFieldNLL v0 = true ∧ storedConfigsOk t = true := by
  have hh : storedConfigsOk (.cons k0 v0 t)
      = (configFieldNLL v0 && storedConfigsOk t) := rfl
  rw [hh] at h
  exact ⟨bandL h, bandR h⟩

/-- As `stored_config_nll`, but from the entry value directly. -/
theorem configFieldNLL_getD (probe m : VDict)
    (hv : configFieldNLL (.dict probe) = true)
    (hc : probe.getD "config" (.dict .nil) = .dict m) :
    noListInListD m = true := by
  rcases hcd : probe.get? "config" with _ | c
  · rw [VDict.getD_eq, hcd] at hc
    simp only [Option.getD, Val.dict.injEq] at hc
    subst hc
    rfl
  · rw [VDict.getD_eq, hcd] at hc
    simp only [Option.getD] at hc
    subst hc
    have h1 : (match probe.get? "config" with
        | some cc => noListInListV cc
        | none => true) = true := hv
    rw [hcd] at h1
    exact h1

theorem probeItem1_redacted (cfg : VDict) (name : String) (service : Val)
    (it : Val) (hok : storedConfigsOk cfg = true)
    (h : probeItem1 cfg name service = .ok (some it)) :
    itemConfigRedacted it = true := by
  simp only [probeItem1] at h
  split at h
  · cases h
  · split at h
    · rename_i probe heqp
      split at h
      · cases h
      · split at h
        · rename_i m sm heqc
          split at h
          · rename_i image heqi
            injection h with h'
            injection h' with h''
            subst h''
            apply probeUseOrConfig_redacted
            · rfl
            · exact replaceD_noPlainSecret m
                (stored_config_nll cfg (name.dropRight 6) probe m hok
                  heqp heqc)
          · cases h
        · cases h
        · cases h
    · cases h

theorem probeItem2_redacted (key : String) (probeV : Val)
    (it : Val) (hnl : configFieldNLL probeV = true)
    (h : probeItem2 key probeV = .ok (some it)) :
    itemConfigRedacted it = true := by
  simp only [probeItem2] at h
  split at h
  · rename_i probe
    split at h
    · split at h
      · rename_i m heqc
        injection h with h'
        injection h' with h''
        subst h''
        apply probeUseOrConfig_redacted
        · rfl
        · exact replaceD_noPlainSecret m (configFieldNLL_getD probe m hnl heqc)
      · cases h
    · cases h
  · cases h

theorem configItem_redacted (name : String) (objV : Val)
    (it : Val) (hnl : configFieldNLL objV = true)
    (h : configItem name objV = some it) :
    itemConfigRedacted it = true := by
  have hcfgcase : ∀ (obj : VDict) (l : String),
      objV = .dict obj →
      (match obj.getD "config" (.dict .nil) with
        | Val.dict m => some (Val.dict ((VDict.ofList [("like", Val.str l),
            ("name", Val.str name)]).set "config"
            (.dict (replaceSecretsD m))))
        | _ => none) = some it →
      itemConfigRedacted it = true := by
    intro obj l hobj hc
    split at hc
    · rename_i m heqc
      injection hc with hc'
      subst hc'
      have hg : ((VDict.ofList [("like", Val.str l),
          ("name", Val.str name)]).set "config"
          (.dict (replaceSecretsD m))).get? "config"
          = some (.dict (replaceSecretsD m)) := by
        rw [VDict.get?_set, if_pos (by decide)]
      rw [show itemConfigRedacted (.dict ((VDict.ofList [
          ("like", Val.str l), ("name", Val.str name)]).set "config"
          (.dict (replaceSecretsD m))))
        = (match ((VDict.ofList [("like", Val.str l),
            ("name", Val.str name)]).set "config"
            (.dict (replaceSecretsD m))).get? "config" with
           | some cc => noPlainSecretV cc
           | none => true) from rfl, hg]
      apply replaceD_noPlainSecret m
      apply configFieldNLL_getD obj m (hobj ▸ hnl) heqc
    · cases hc
  simp only [configItem] at h
  split at h
  · rename_i obj
    split at h
    · rename_i l heql
      split at h
      · cases h
      · split at h
        · rename_i s hequse
          split at h
          · exact hcfgcase obj l rfl h
          · injection h with h'
            subst h'
            have hg : ((VDict.ofList [("like", Val.str l),
                ("name", Val.str name)]).set "use" (.str s)).get? "config"
                = none := by
              rw [VDict.get?_set, if_neg (by decide)]
              rfl
            rw [show itemConfigRedacted (.dict ((VDict.ofList [
                ("like", Val.str l), ("name", Val.str name)]).set "use"
                (.str s)))
              = (match ((VDict.ofList [("like", Val.str l),
                  ("name", Val.str name)]).set "use" (.str s)).get? "config"
                  with
                 | some cc => noPlainSecretV cc
                 | none => true) from rfl, hg]
        · exact hcfgcase obj l rfl h
    · cases h
  · cases h

theorem itemsConfigRedacted_ofList : ∀ (l : List Val),
    (∀ it ∈ l, itemConfigRedacted it = true) →
    itemsConfigRedacted (VList.ofList l) = true
  | [], _ => rfl
  | v :: t, h =>
    bandI (h v (List.mem_cons_self v t))
      (itemsConfigRedacted_ofList t
        (fun it hit => h it (List.mem_cons_of_mem v hit)))

theorem getProbes1_redacted : ∀ (services cfg : VDict) (items : List Val),
    storedConfigsOk cfg = true → getProbes1 services cfg = .ok items →
    ∀ it ∈ items, itemConfigRedacted it = true
  | .nil, cfg, items, _, h, it, hit => by
    simp only [getProbes1] at h
    injection h with h'
    subst h'
    cases hit
  | .cons name service rest, cfg, items, hok, h, it, hit => by
    simp only [getProbes1] at h
    rcases exBind_ok h with ⟨it?, h1, h⟩
    rcases exBind_ok h with ⟨tail, h2, h⟩
    injection h with h'
    subst h'
    cases it? with
    | some x =>
      rcases List.mem_cons.mp hit with rfl | hmem
      · exact probeItem1_redacted cfg name service it hok h1
      · exact getProbes1_redacted rest cfg tail hok h2 it hmem
    | none => exact getProbes1_redacted rest cfg tail hok h2 it hit

theorem getProbes2_redacted : ∀ (cfg : VDict) (items : List Val),
    storedConfigsOk cfg = true → getProbes2 cfg = .ok items →
    ∀ it ∈ items, itemConfigRedacted it = true
  | .nil, items, _, h, it, hit => by
    simp only [getProbes2] at h
    injection h with h'
    subst h'
    cases hit
  | .cons key pv rest, items, hok, h, it, hit => by
    have hparts := storedConfigsOk_head hok
    simp only [getProbes2] at h
    rcases exBind_ok h with ⟨it?, h1, h⟩
    rcases exBind_ok h with ⟨tail, h2, h⟩
    injection h with h'
    subst h'
    cases it? with
    | some x =>
      rcases List.mem_cons.mp hit with rfl | hmem
      · exact probeItem2_redacted key pv it hparts.1 h1
      · exact getProbes2_redacted rest tail hparts.2 h2 it hmem
    | none => exact getProbes2_redacted rest tail hparts.2 h2 it hit

theorem getConfigs_redacted : ∀ (cfg : VDict),
    storedConfigsOk cfg = true →
    ∀ it ∈ getConfigs cfg, itemConfigRedacted it = true
  | .nil, _, it, hit => by
    simp only [getConfigs] at hit
    cases hit
  | .cons name objV rest, hok, it, hit => by
    have hparts := storedConfigsOk_head hok
    simp only [getConfigs] at hit
    cases hcl : configItem name objV with
    | some x =>
      rw [hcl] at hit
      rcases List.mem_cons.mp hit with rfl | hmem
      · exact configItem_redacted name objV it hparts.1 hcl
      · exact getConfigs_redacted rest hparts.2 it hmem
    | none =>
      rw [hcl] at hit
      exact getConfigs_redacted rest hparts.2 it hit

/-!
## Path lemmas for `_revert_secrets`

Unfolding lemmas for `valAt`, `revReach` and `firstDict`, then the two core
facts about `_revert_secrets`: along every path it actually walks
(`revReach`), a boolean at a secret key is replaced by the original value
when that value is present and truthy (`revertD_restore`), and the walk
cannot succeed when the original value is absent or falsy (`revertD_fail`).
-/

theorem valAt_dict_field (m : VDict) (k : String) (rest : List PathElem) :
    valAt (.dict m) (.field k :: rest) =
      match m.get? k with
      | some v => valAt v rest
      | none => none := rfl

theorem valAt_list_idx (xs : VList) (i : Nat) (rest : List PathElem) :
    valAt (.list xs) (.idx i :: rest) =
      match xs.get? i with
      | some v => valAt v rest
      | none => none := rfl

theorem valAt_not_dict_field (v : Val) (k : String) (rest : List PathElem)
    (h : ∀ m, v ≠ .dict m) : valAt v (.field k :: rest) = none := by
  cases v <;> first
    | rfl
    | exact absurd rfl (h _)

theorem valAt_not_list_idx (v : Val) (i : Nat) (rest : List PathElem)
    (h : ∀ xs, v ≠ .list xs) : valAt v (.idx i :: rest) = none := by
  cases v <;> first
    | rfl
    | exact absurd rfl (h _)

theorem revReach_dict_field (m : VDict) (k : String) (rest : List PathElem) :
    revReach (.dict m) (.field k :: rest) =
      (!isSecretKey k &&
        (match m.get? k with
         | some v => revReach v rest
         | none => false)) := rfl

theorem revReach_list_idx (xs : VList) (i : Nat) (rest : List PathElem) :
    revReach (.list xs) (.idx i :: rest) =
      (match firstDict xs with
       | some rm => rm.1 == i && revReach (.dict rm.2) rest
       | none => false) := rfl

theorem revReach_dict_idx (m : VDict) (i : Nat) (rest : List PathElem) :
    revReach (.dict m) (.idx i :: rest) = false := rfl

theorem revReach_list_field (xs : VList) (k : String) (rest : List PathElem) :
    revReach (.list xs) (.field k :: rest) = false := rfl

/-- A path reaching into a dict starts with a field step (or is empty). -/
theorem revReach_dict_shape (m : VDict) (p : List PathElem)
    (h : revReach (.dict m) p = true) :
    p = [] ∨ ∃ k p', p = PathElem.field k :: p' := by
  cases p with
  | nil => exact Or.inl rfl
  | cons e rest =>
    cases e with
    | field k => exact Or.inr ⟨k, rest, rfl⟩
    | idx i => rw [revReach_dict_idx] at h; exact absurd h (by simp)

theorem firstDict_get? : ∀ (xs : VList) (rm : Nat × VDict),
    firstDict xs = some rm → xs.get? rm.1 = some (.dict rm.2)
  | .nil, rm, h => by simp [firstDict] at h
  | .cons (.dict m) t, rm, h => by
    simp only [firstDict] at h
    injection h with h
    subst h
    rfl
  | .cons (.null) t, rm, h => by
    simp only [firstDict, Option.map_eq_some'] at h
    obtain ⟨rm0, h0, rfl⟩ := h
    exact firstDict_get? t rm0 h0
  | .cons (.bool b) t, rm, h => by
    simp only [firstDict, Option.map_eq_some'] at h
    obtain ⟨rm0, h0, rfl⟩ := h
    exact firstDict_get? t rm0 h0
  | .cons (.int n) t, rm, h => by
    simp only [firstDict, Option.map_eq_some'] at h
    obtain ⟨rm0, h0, rfl⟩ := h
    exact firstDict_get? t rm0 h0
  | .cons (.str s) t, rm, h => by
    simp only [firstDict, Option.map_eq_some'] at h
    obtain ⟨rm0, h0, rfl⟩ := h
    exact firstDict_get? t rm0 h0
  | .cons (.list ys) t, rm, h => by
    simp only [firstDict, Option.map_eq_some'] at h
    obtain ⟨rm0, h0, rfl⟩ := h
    exact firstDict_get? t rm0 h0

theorem exists_cons_append (p : List PathElem) (x : PathElem) :
    ∃ e rest, p ++ [x] = e :: rest := by
  cases p <;> exact ⟨_, _, rfl⟩

theorem valAt_nil (v : Val) : valAt v [] = some v := by
  cases v <;> rfl

theorem valAt_single_field (d : VDict) (sk : String) :
    valAt (.dict d) [.field sk] = d.get? sk := by
  rw [valAt_dict_field]
  cases d.get? sk with
  | some v => exact valAt_nil v
  | none => rfl

theorem valAt_field_some (w : Val) (a : String) (rest : List PathElem)
    (x : Val) (h : valAt w (.field a :: rest) = some x) :
    ∃ m v, w = .dict m ∧ m.get? a = some v ∧ valAt v rest = some x := by
  cases w with
  | dict m =>
    rw [valAt_dict_field] at h
    cases hg : m.get? a with
    | some v =>
      rw [hg] at h
      exact ⟨m, v, rfl, hg, h⟩
    | none => rw [hg] at h; exact absurd h (by simp)
  | null => exact absurd h (by simp [valAt_not_dict_field])
  | bool b => exact absurd h (by simp [valAt_not_dict_field])
  | int n => exact absurd h (by simp [valAt_not_dict_field])
  | str s => exact absurd h (by simp [valAt_not_dict_field])
  | list xs => exact absurd h (by simp [valAt_not_dict_field])

theorem valAt_idx_some (w : Val) (i : Nat) (rest : List PathElem)
    (x : Val) (h : valAt w (.idx i :: rest) = some x) :
    ∃ xs v, w = .list xs ∧ xs.get? i = some v ∧ valAt v rest = some x := by
  cases w with
  | list xs =>
    rw [valAt_list_idx] at h
    cases hg : xs.get? i with
    | some v =>
      rw [hg] at h
      exact ⟨xs, v, rfl, hg, h⟩
    | none => rw [hg] at h; exact absurd h (by simp)
  | null => exact absurd h (by simp [valAt_not_list_idx])
  | bool b => exact absurd h (by simp [valAt_not_list_idx])
  | int n => exact absurd h (by simp [valAt_not_list_idx])
  | str s => exact absurd h (by simp [valAt_not_list_idx])
  | dict m => exact absurd h (by simp [valAt_not_list_idx])

theorem valAt_field_intro (m : VDict) (a : String) (rest : List PathElem)
    (v x : Val) (hg : m.get? a = some v) (hv : valAt v rest = some x) :
    valAt (.dict m) (.field a :: rest) = some x := by
  rw [valAt_dict_field, hg]
  exact hv

theorem valAt_idx_intro (xs : VList) (i : Nat) (rest : List PathElem)
    (v x : Val) (hg : xs.get? i = some v) (hv : valAt v rest = some x) :
    valAt (.list xs) (.idx i :: rest) = some x := by
  rw [valAt_list_idx, hg]
  exact hv

theorem valAt_dict_nil_append (p : List PathElem) (x : PathElem) :
    valAt (.dict .nil) (p ++ [x]) = none := by
  obtain ⟨e, rest, heq⟩ := exists_cons_append p x
  rw [heq]
  cases e with
  | field a => rw [valAt_dict_field]; rfl
  | idx i => rfl

theorem revReach_field_some (m : VDict) (a : String) (rest : List PathElem)
    (h : revReach (.dict m) (.field a :: rest) = true) :
    isSecretKey a = false ∧
      ∃ v, m.get? a = some v ∧ revReach v rest = true := by
  rw [revReach_dict_field] at h
  have h1 := bandL h
  have h2 := bandR h
  refine ⟨by simpa using h1, ?_⟩
  cases hg : m.get? a with
  | some v => rw [hg] at h2; exact ⟨v, rfl, h2⟩
  | none => rw [hg] at h2; exact absurd h2 (by simp)

theorem revReach_idx_some (xs : VList) (i : Nat) (rest : List PathElem)
    (h : revReach (.list xs) (.idx i :: rest) = true) :
    ∃ m, firstDict xs = some (i, m) ∧ revReach (.dict m) rest = true := by
  rw [revReach_list_idx] at h
  cases hg : firstDict xs with
  | some rm =>
    obtain ⟨r1, m2⟩ := rm
    rw [hg] at h
    have h1 := bandL h
    have h2 := bandR h
    have hri : r1 = i := by simpa using h1
    subst hri
    exact ⟨m2, rfl, h2⟩
  | none => rw [hg] at h; exact absurd h (by simp)

theorem revReach_field_intro (m : VDict) (a : String) (rest : List PathElem)
    (v : Val) (hsec : isSecretKey a = false) (hg : m.get? a = some v)
    (hr : revReach v rest = true) :
    revReach (.dict m) (.field a :: rest) = true := by
  rw [revReach_dict_field, hg]
  exact bandI (by simp [hsec]) hr

/-- Along every reachable path, any value met by `valAt` from a dict is
itself a dict. -/
theorem valAt_dict_path_orig (m : VDict) (p : List PathElem) (sk : String)
    (w : Val) (x : Val) (hshape : revReach (.dict m) p = true)
    (hw : valAt w (p ++ [.field sk]) = some x) : ∃ mw, w = .dict mw := by
  rcases revReach_dict_shape _ _ hshape with rfl | ⟨a, p', rfl⟩
  · obtain ⟨mw, v, hwm, _, _⟩ := valAt_field_some w sk [] x hw
    exact ⟨mw, hwm⟩
  · rw [List.cons_append] at hw
    obtain ⟨mw, v, hwm, _, _⟩ := valAt_field_some w a (p' ++ [.field sk]) x hw
    exact ⟨mw, hwm⟩

theorem pyIndexDict_cases (cur : Val) (i : Nat) :
    pyIndexDict cur i = .nil ∨
      ∃ c om, cur = .list c ∧ c.get? i = some (.dict om) ∧
        pyIndexDict cur i = om := by
  cases cur with
  | list c =>
    cases hce : c.get? i with
    | some el =>
      cases el with
      | dict om => exact Or.inr ⟨c, om, rfl, hce, by simp [pyIndexDict, hce]⟩
      | null => exact Or.inl (by simp [pyIndexDict, hce])
      | bool b => exact Or.inl (by simp [pyIndexDict, hce])
      | int n => exact Or.inl (by simp [pyIndexDict, hce])
      | str s => exact Or.inl (by simp [pyIndexDict, hce])
      | list ys => exact Or.inl (by simp [pyIndexDict, hce])
    | none => exact Or.inl (by simp [pyIndexDict, hce])
  | null => exact Or.inl rfl
  | bool b => exact Or.inl rfl
  | int n => exact Or.inl rfl
  | str s => exact Or.inl rfl
  | dict m => exact Or.inl rfl

theorem om_cases (o? : Option Val) :
    (∃ om, o? = some (.dict om) ∧
      (match o? with | some (.dict om') => om' | _ => VDict.nil) = om) ∨
    ((match o? with | some (.dict om') => om' | _ => VDict.nil) = VDict.nil ∧
      ∀ om, o? ≠ some (.dict om)) := by
  cases o? with
  | none => exact Or.inr ⟨rfl, by simp⟩
  | some ov =>
    cases ov with
    | dict om => exact Or.inl ⟨om, rfl, rfl⟩
    | null => exact Or.inr ⟨rfl, by simp⟩
    | bool b => exact Or.inr ⟨rfl, by simp⟩
    | int n => exact Or.inr ⟨rfl, by simp⟩
    | str s => exact Or.inr ⟨rfl, by simp⟩
    | list xs => exact Or.inr ⟨rfl, by simp⟩

/-- Any successful `_revert_secrets` on a non-empty dict keeps the head key
in place and reverts the tail with the same original value. -/
theorem revertD_cons_shape (k : String) (v : Val) (t : VDict) (origV : Val)
    (res : VDict) (h : revertSecretsD (.cons k v t) origV = .ok res) :
    ∃ v0 t', res = .cons k v0 t' ∧ revertSecretsD t origV = .ok t' := by
  cases v with
  | bool b =>
    simp only [revertSecretsD] at h
    split at h
    · obtain ⟨o?, ho, h⟩ := exBind_ok h
      cases o? with
      | some o =>
        simp only at h
        split at h
        · obtain ⟨t', ht, h⟩ := exBind_ok h
          injection h with h
          exact ⟨o, t', h.symm, ht⟩
        · exact absurd h (by simp)
      | none => exact absurd h (by simp)
    · obtain ⟨t', ht, h⟩ := exBind_ok h
      injection h with h
      exact ⟨.bool b, t', h.symm, ht⟩
  | str s =>
    simp only [revertSecretsD] at h
    split at h
    · obtain ⟨t', ht, h⟩ := exBind_ok h
      injection h with h
      exact ⟨.str s, t', h.symm, ht⟩
    · obtain ⟨t', ht, h⟩ := exBind_ok h
      injection h with h
      exact ⟨.str s, t', h.symm, ht⟩
  | null =>
    simp only [revertSecretsD] at h
    split at h
    · exact absurd h (by simp)
    · obtain ⟨t', ht, h⟩ := exBind_ok h
      injection h with h
      exact ⟨.null, t', h.symm, ht⟩
  | int n =>
    simp only [revertSecretsD] at h
    split at h
    · exact absurd h (by simp)
    · obtain ⟨t', ht, h⟩ := exBind_ok h
      injection h with h
      exact ⟨.int n, t', h.symm, ht⟩
  | list xs =>
    simp only [revertSecretsD] at h
    split at h
    · exact absurd h (by simp)
    · obtain ⟨o?, ho, h⟩ := exBind_ok h
      obtain ⟨xs', hxs, h⟩ := exBind_ok h
      obtain ⟨t', ht, h⟩ := exBind_ok h
      injection h with h
      exact ⟨.list xs', t', h.symm, ht⟩
  | dict m =>
    simp only [revertSecretsD] at h
    split at h
    · exact absurd h (by simp)
    · obtain ⟨o?, ho, h⟩ := exBind_ok h
      obtain ⟨m', hm, h⟩ := exBind_ok h
      obtain ⟨t', ht, h⟩ := exBind_ok h
      injection h with h
      exact ⟨.dict m', t', h.symm, ht⟩

/-- Tail case of the restoration lemma: when the path does not start at the
head key, the reverted tail carries the restored value. -/
theorem restore_skip (k : String) (v : Val) (t : VDict) (origV : Val)
    (res : VDict) (p : List PathElem) (sk : String) (b : Bool) (o : Val)
    (h : revertSecretsD (.cons k v t) origV = .ok res)
    (hreach : revReach (.dict (.cons k v t)) p = true)
    (hvn : valAt (.dict (.cons k v t)) (p ++ [.field sk]) = some (.bool b))
    (hvo : valAt origV (p ++ [.field sk]) = some o)
    (hne : (p = [] → k ≠ sk) ∧ ∀ k' p', p = .field k' :: p' → k ≠ k')
    (ih : ∀ res' p₁, revertSecretsD t origV = .ok res' →
        revReach (.dict t) p₁ = true →
        valAt (.dict t) (p₁ ++ [.field sk]) = some (.bool b) →
        valAt origV (p₁ ++ [.field sk]) = some o →
        valAt (.dict res') (p₁ ++ [.field sk]) = some o) :
    valAt (.dict res) (p ++ [.field sk]) = some o := by
  obtain ⟨v0, t', rfl, ht⟩ := revertD_cons_shape k v t origV res h
  cases p with
  | nil =>
    have hks : k ≠ sk := hne.1 rfl
    rw [List.nil_append, valAt_single_field,
      VDict.get?_cons_ne k v t hks] at hvn
    have hres := ih t' [] ht rfl
      (by rw [List.nil_append, valAt_single_field]; exact hvn) hvo
    rw [List.nil_append, valAt_single_field] at hres
    rw [List.nil_append, valAt_single_field, VDict.get?_cons_ne k v0 t' hks]
    exact hres
  | cons e p' =>
    cases e with
    | idx i => rw [revReach_dict_idx] at hreach; exact absurd hreach (by simp)
    | field k' =>
      have hkk : k ≠ k' := hne.2 k' p' rfl
      obtain ⟨hsec, w, hw, hrw⟩ := revReach_field_some _ k' p' hreach
      rw [VDict.get?_cons_ne k v t hkk] at hw
      rw [List.cons_append] at hvn hvo ⊢
      obtain ⟨m1, v1, hm1, hg1, hv1⟩ :=
        valAt_field_some _ k' (p' ++ [.field sk]) _ hvn
      injection hm1 with hm1
      rw [← hm1, VDict.get?_cons_ne k v t hkk] at hg1
      have hres := ih t' (.field k' :: p') ht
        (revReach_field_intro t k' p' w hsec hw hrw)
        (by
          rw [List.cons_append]
          exact valAt_field_intro t k' (p' ++ [.field sk]) v1 _ hg1 hv1)
        (by rw [List.cons_append]; exact hvo)
      rw [List.cons_append] at hres
      obtain ⟨m2, v2, hm2, hg2, hv2⟩ :=
        valAt_field_some _ k' (p' ++ [.field sk]) _ hres
      injection hm2 with hm2
      rw [← hm2] at hg2
      exact valAt_field_intro _ k' (p' ++ [.field sk]) v2 o
        (by rw [VDict.get?_cons_ne k v0 t' hkk]; exact hg2) hv2

mutual

/-- `_revert_secrets` (success case) replaces a boolean at a secret key at
the end of any reachable path by the original value at that path, provided
that value is present and truthy. -/
theorem revertD_restore : ∀ (new : VDict), ∀ (origV : Val) (res : VDict)
    (p : List PathElem) (sk : String) (b : Bool) (o : Val),
    revertSecretsD new origV = .ok res →
    isSecretKey sk = true →
    revReach (.dict new) p = true →
    valAt (.dict new) (p ++ [.field sk]) = some (.bool b) →
    valAt origV (p ++ [.field sk]) = some o →
    truthy o = true →
    valAt (.dict res) (p ++ [.field sk]) = some o
  | .nil => by
    intro origV res p sk b o hrev hsk hreach hvn hvo hto
    obtain ⟨e, rest, heq⟩ := exists_cons_append p (.field sk)
    rw [heq] at hvn
    cases e with
    | field a =>
      rw [valAt_dict_field] at hvn
      simp [VDict.get?] at hvn
    | idx i =>
      rw [valAt_not_list_idx _ i rest (by simp)] at hvn
      exact absurd hvn (by simp)
  | .cons k v t => by
    intro origV res p sk b o hrev hsk hreach hvn hvo hto
    have ihtail : ∀ res' p₁, revertSecretsD t origV = .ok res' →
        revReach (.dict t) p₁ = true →
        valAt (.dict t) (p₁ ++ [.field sk]) = some (.bool b) →
        valAt origV (p₁ ++ [.field sk]) = some o →
        valAt (.dict res') (p₁ ++ [.field sk]) = some o :=
      fun res' p₁ h1 h2 h3 h4 =>
        revertD_restore t origV res' p₁ sk b o h1 hsk h2 h3 h4 hto
    cases v with
    | bool b0 =>
      cases p with
      | nil =>
        by_cases hks : k = sk
        · subst hks
          obtain ⟨omv, ov, rfl, hgo, hvo'⟩ :=
            valAt_field_some origV k [] o
              (by rw [List.nil_append] at hvo; exact hvo)
          rw [valAt_nil] at hvo'
          injection hvo' with hvo'
          subst hvo'
          simp only [revertSecretsD] at hrev
          split at hrev
          · obtain ⟨o?, ho?, hrev⟩ := exBind_ok hrev
            have ho2 : o? = some ov := by
              have hh : origGet (.dict omv) k = .ok (omv.get? k) := rfl
              rw [hh] at ho?
              injection ho? with hx
              rw [← hx, hgo]
            subst ho2
            split at hrev
            · rename_i o1 heq1
              injection heq1 with heq1
              subst heq1
              rw [if_pos hto] at hrev
              obtain ⟨t', ht', hrev⟩ := exBind_ok hrev
              injection hrev with hres
              subst hres
              rw [List.nil_append, valAt_single_field, VDict.get?_cons_self]
            · rename_i heq1
              exact absurd heq1 (by simp)
          · rename_i hns
            exact absurd hsk hns
        · exact restore_skip k (.bool b0) t origV res [] sk b o hrev hreach
            hvn hvo ⟨fun _ => hks, fun k' p' hh => by simp at hh⟩ ihtail
      | cons e p' =>
        cases e with
        | idx i =>
          exact restore_skip k (.bool b0) t origV res (.idx i :: p') sk b o
            hrev hreach hvn hvo
            ⟨fun hh => by simp at hh, fun k' p'' hh => by simp at hh⟩ ihtail
        | field k' =>
          by_cases hkk : k = k'
          · subst hkk
            rw [List.cons_append] at hvn
            obtain ⟨m1, v1, hm1, hg1, hv1⟩ :=
              valAt_field_some _ k (p' ++ [.field sk]) _ hvn
            injection hm1 with hm1
            rw [← hm1, VDict.get?_cons_self] at hg1
            injection hg1 with hg1
            subst hg1
            obtain ⟨e2, rest2, heq2⟩ := exists_cons_append p' (.field sk)
            rw [heq2] at hv1
            cases e2 with
            | field a =>
              rw [valAt_not_dict_field _ a rest2 (by simp)] at hv1
              exact absurd hv1 (by simp)
            | idx i2 =>
              rw [valAt_not_list_idx _ i2 rest2 (by simp)] at hv1
              exact absurd hv1 (by simp)
          · exact restore_skip k (.bool b0) t origV res (.field k' :: p') sk
              b o hrev hreach hvn hvo
              ⟨fun hh => by simp at hh, fun k'' p'' hh => by
                injection hh with h1 h2
                injection h1 with h1
                rw [← h1]
                exact hkk⟩ ihtail
    | null =>
      cases p with
      | nil =>
        by_cases hks : k = sk
        · subst hks
          rw [List.nil_append, valAt_single_field, VDict.get?_cons_self] at hvn
          injection hvn with hvn
          exact absurd hvn (by simp)
        · exact restore_skip k .null t origV res [] sk b o hrev hreach
            hvn hvo ⟨fun _ => hks, fun k' p' hh => by simp at hh⟩ ihtail
      | cons e p' =>
        cases e with
        | idx i =>
          exact restore_skip k .null t origV res (.idx i :: p') sk b o
            hrev hreach hvn hvo
            ⟨fun hh => by simp at hh, fun k' p'' hh => by simp at hh⟩ ihtail
        | field k' =>
          by_cases hkk : k = k'
          · subst hkk
            rw [List.cons_append] at hvn
            obtain ⟨m1, v1, hm1, hg1, hv1⟩ :=
              valAt_field_some _ k (p' ++ [.field sk]) _ hvn
            injection hm1 with hm1
            rw [← hm1, VDict.get?_cons_self] at hg1
            injection hg1 with hg1
            subst hg1
            obtain ⟨e2, rest2, heq2⟩ := exists_cons_append p' (.field sk)
            rw [heq2] at hv1
            cases e2 with
            | field a =>
              rw [valAt_not_dict_field _ a rest2 (by simp)] at hv1
              exact absurd hv1 (by simp)
            | idx i2 =>
              rw [valAt_not_list_idx _ i2 rest2 (by simp)] at hv1
              exact absurd hv1 (by simp)
          · exact restore_skip k .null t origV res (.field k' :: p') sk
              b o hrev hreach hvn hvo
              ⟨fun hh => by simp at hh, fun k'' p'' hh => by
                injection hh with h1 h2
                injection h1 with h1
                rw [← h1]
                exact hkk⟩ ihtail
    | int n =>
      cases p with
      | nil =>
        by_cases hks : k = sk
        · subst hks
          rw [List.nil_append, valAt_single_field, VDict.get?_cons_self] at hvn
          injection hvn with hvn
          exact absurd hvn (by simp)
        · exact restore_skip k (.int n) t origV res [] sk b o hrev hreach
            hvn hvo ⟨fun _ => hks, fun k' p' hh => by simp at hh⟩ ihtail
      | cons e p' =>
        cases e with
        | idx i =>
          exact restore_skip k (.int n) t origV res (.idx i :: p') sk b o
            hrev hreach hvn hvo
            ⟨fun hh => by simp at hh, fun k' p'' hh => by simp at hh⟩ ihtail
        | field k' =>
          by_cases hkk : k = k'
          · subst hkk
            rw [List.cons_append] at hvn
            obtain ⟨m1, v1, hm1, hg1, hv1⟩ :=
              valAt_field_some _ k (p' ++ [.field sk]) _ hvn
            injection hm1 with hm1
            rw [← hm1, VDict.get?_cons_self] at hg1
            injection hg1 with hg1
            subst hg1
            obtain ⟨e2, rest2, heq2⟩ := exists_cons_append p' (.field sk)
            rw [heq2] at hv1
            cases e2 with
            | field a =>
              rw [valAt_not_dict_field _ a rest2 (by simp)] at hv1
              exact absurd hv1 (by simp)
            | idx i2 =>
              rw [valAt_not_list_idx _ i2 rest2 (by simp)] at hv1
              exact absurd hv1 (by simp)
          · exact restore_skip k (.int n) t origV res (.field k' :: p') sk
              b o hrev hreach hvn hvo
              ⟨fun hh => by simp at hh, fun k'' p'' hh => by
                injection hh with h1 h2
                injection h1 with h1
                rw [← h1]
                exact hkk⟩ ihtail
    | str s =>
      cases p with
      | nil =>
        by_cases hks : k = sk
        · subst hks
          rw [List.nil_append, valAt_single_field, VDict.get?_cons_self] at hvn
          injection hvn with hvn
          exact absurd hvn (by simp)
        · exact restore_skip k (.str s) t origV res [] sk b o hrev hreach
            hvn hvo ⟨fun _ => hks, fun k' p' hh => by simp at hh⟩ ihtail
      | cons e p' =>
        cases e with
        | idx i =>
          exact restore_skip k (.str s) t origV res (.idx i :: p') sk b o
            hrev hreach hvn hvo
            ⟨fun hh => by simp at hh, fun k' p'' hh => by simp at hh⟩ ihtail
        | field k' =>
          by_cases hkk : k = k'
          · subst hkk
            rw [List.cons_append] at hvn
            obtain ⟨m1, v1, hm1, hg1, hv1⟩ :=
              valAt_field_some _ k (p' ++ [.field sk]) _ hvn
            injection hm1 with hm1
            rw [← hm1, VDict.get?_cons_self] at hg1
            injection hg1 with hg1
            subst hg1
            obtain ⟨e2, rest2, heq2⟩ := exists_cons_append p' (.field sk)
            rw [heq2] at hv1
            cases e2 with
            | field a =>
              rw [valAt_not_dict_field _ a rest2 (by simp)] at hv1
              exact absurd hv1 (by simp)
            | idx i2 =>
              rw [valAt_not_list_idx _ i2 rest2 (by simp)] at hv1
              exact absurd hv1 (by simp)
          · exact restore_skip k (.str s) t origV res (.field k' :: p') sk
              b o hrev hreach hvn hvo
              ⟨fun hh => by simp at hh, fun k'' p'' hh => by
                injection hh with h1 h2
                injection h1 with h1
                rw [← h1]
                exact hkk⟩ ihtail
    | dict mm =>
      cases p with
      | nil =>
        by_cases hks : k = sk
        · subst hks
          rw [List.nil_append, valAt_single_field, VDict.get?_cons_self] at hvn
          injection hvn with hvn
          exact absurd hvn (by simp)
        · exact restore_skip k (.dict mm) t origV res [] sk b o hrev hreach
            hvn hvo ⟨fun _ => hks, fun k' p' hh => by simp at hh⟩ ihtail
      | cons e p' =>
        cases e with
        | idx i =>
          exact restore_skip k (.dict mm) t origV res (.idx i :: p') sk b o
            hrev hreach hvn hvo
            ⟨fun hh => by simp at hh, fun k' p'' hh => by simp at hh⟩ ihtail
        | field k' =>
          by_cases hkk : k = k'
          · subst hkk
            obtain ⟨hsec, w, hw, hrw⟩ := revReach_field_some _ k p' hreach
            rw [VDict.get?_cons_self] at hw
            injection hw with hw
            subst hw
            rw [List.cons_append] at hvn hvo ⊢
            obtain ⟨m1, v1, hm1, hg1, hv1⟩ :=
              valAt_field_some _ k (p' ++ [.field sk]) _ hvn
            injection hm1 with hm1
            rw [← hm1, VDict.get?_cons_self] at hg1
            injection hg1 with hg1
            subst hg1
            obtain ⟨omv, ov, rfl, hgo, hvo'⟩ :=
              valAt_field_some origV k (p' ++ [.field sk]) o hvo
            obtain ⟨om0, rfl⟩ :=
              valAt_dict_path_orig mm p' sk ov o hrw hvo'
            simp only [revertSecretsD] at hrev
            split at hrev
            · rename_i hsx
              rw [hsec] at hsx
              exact absurd hsx (by simp)
            · obtain ⟨o?, ho?, hrev⟩ := exBind_ok hrev
              have ho2 : o? = some (.dict om0) := by
                have hh : origGet (.dict omv) k = .ok (omv.get? k) := rfl
                rw [hh] at ho?
                injection ho? with hx
                rw [← hx, hgo]
              subst ho2
              obtain ⟨m', hm', hrev⟩ := exBind_ok hrev
              obtain ⟨t', ht', hrev⟩ := exBind_ok hrev
              injection hrev with hres
              subst hres
              have hrec := revertD_restore mm (.dict om0) m' p' sk b o hm'
                hsk hrw hv1 hvo' hto
              exact valAt_field_intro _ k (p' ++ [.field sk]) (.dict m') o
                (VDict.get?_cons_self k (.dict m') t') hrec
          · exact restore_skip k (.dict mm) t origV res (.field k' :: p') sk
              b o hrev hreach hvn hvo
              ⟨fun hh => by simp at hh, fun k'' p'' hh => by
                injection hh with h1 h2
                injection h1 with h1
                rw [← h1]
                exact hkk⟩ ihtail
    | list xs =>
      cases p with
      | nil =>
        by_cases hks : k = sk
        · subst hks
          rw [List.nil_append, valAt_single_field, VDict.get?_cons_self] at hvn
          injection hvn with hvn
          exact absurd hvn (by simp)
        · exact restore_skip k (.list xs) t origV res [] sk b o hrev hreach
            hvn hvo ⟨fun _ => hks, fun k' p' hh => by simp at hh⟩ ihtail
      | cons e p' =>
        cases e with
        | idx i =>
          exact restore_skip k (.list xs) t origV res (.idx i :: p') sk b o
            hrev hreach hvn hvo
            ⟨fun hh => by simp at hh, fun k' p'' hh => by simp at hh⟩ ihtail
        | field k' =>
          by_cases hkk : k = k'
          · subst hkk
            obtain ⟨hsec, w, hw, hrw⟩ := revReach_field_some _ k p' hreach
            rw [VDict.get?_cons_self] at hw
            injection hw with hw
            subst hw
            cases p' with
            | nil =>
              rw [List.cons_append, List.nil_append] at hvn
              obtain ⟨m1, v1, hm1, hg1, hv1⟩ :=
                valAt_field_some _ k [.field sk] _ hvn
              injection hm1 with hm1
              rw [← hm1, VDict.get?_cons_self] at hg1
              injection hg1 with hg1
              subst hg1
              rw [valAt_not_dict_field _ sk [] (by simp)] at hv1
              exact absurd hv1 (by simp)
            | cons e2 p'' =>
              cases e2 with
              | field a =>
                rw [revReach_list_field] at hrw
                exact absurd hrw (by simp)
              | idx i =>
                obtain ⟨m2, hfd, hrm⟩ := revReach_idx_some xs i p'' hrw
                rw [List.cons_append, List.cons_append] at hvn hvo ⊢
                obtain ⟨m1, v1, hm1, hg1, hv1⟩ :=
                  valAt_field_some _ k (.idx i :: (p'' ++ [.field sk])) _ hvn
                injection hm1 with hm1
                rw [← hm1, VDict.get?_cons_self] at hg1
                injection hg1 with hg1
                subst hg1
                obtain ⟨xs1, el, hxl, hgel, hvel⟩ :=
                  valAt_idx_some _ i (p'' ++ [.field sk]) _ hv1
                injection hxl with hxl
                rw [← hxl] at hgel
                have hel : el = .dict m2 := by
                  have := firstDict_get? xs (i, m2) hfd
                  rw [hgel] at this
                  injection this with this
                subst hel
                obtain ⟨omv, ov, rfl, hgo, hvo'⟩ :=
                  valAt_field_some origV k
                    (.idx i :: (p'' ++ [.field sk])) o hvo
                obtain ⟨c, elo, rfl, hce, hvelo⟩ :=
                  valAt_idx_some ov i (p'' ++ [.field sk]) o hvo'
                obtain ⟨om0, rfl⟩ :=
                  valAt_dict_path_orig m2 p'' sk elo o hrm hvelo
                simp only [revertSecretsD] at hrev
                split at hrev
                · rename_i hsx
                  rw [hsec] at hsx
                  exact absurd hsx (by simp)
                · obtain ⟨o?, ho?, hrev⟩ := exBind_ok hrev
                  have ho2 : o? = some (.list c) := by
                    have hh : origGet (.dict omv) k = .ok (omv.get? k) := rfl
                    rw [hh] at ho?
                    injection ho? with hx
                    rw [← hx, hgo]
                  subst ho2
                  obtain ⟨xs2, hxs2, hrev⟩ := exBind_ok hrev
                  obtain ⟨t', ht', hrev⟩ := exBind_ok hrev
                  injection hrev with hres
                  subst hres
                  have hc0 : c.get? (0 + i) = some (.dict om0) := by
                    rw [Nat.zero_add]
                    exact hce
                  obtain ⟨m', hg', hv'⟩ := revertL_restore xs (.list c) 0 xs2
                    i m2 p'' sk b o c om0 hxs2 hfd rfl hc0 hsk hrm hvel
                    hvelo hto
                  exact valAt_field_intro _ k
                    (.idx i :: (p'' ++ [.field sk])) (.list xs2) o
                    (VDict.get?_cons_self k (.list xs2) t')
                    (valAt_idx_intro xs2 i (p'' ++ [.field sk]) (.dict m') o
                      hg' hv')
          · exact restore_skip k (.list xs) t origV res (.field k' :: p') sk
              b o hrev hreach hvn hvo
              ⟨fun hh => by simp at hh, fun k'' p'' hh => by
                injection hh with h1 h2
                injection h1 with h1
                rw [← h1]
                exact hkk⟩ ihtail

/-- List companion of `revertD_restore`: restoration inside the first dict
element of a list, the only list element the walk pairs correctly with the
original document. -/
theorem revertL_restore : ∀ (xs : VList), ∀ (cur : Val) (j : Nat)
    (xs' : VList) (r : Nat) (m : VDict) (p : List PathElem) (sk : String)
    (b : Bool) (o : Val) (c : VList) (om : VDict),
    revertSecretsL xs cur j = .ok xs' →
    firstDict xs = some (r, m) →
    cur = .list c →
    c.get? (j + r) = some (.dict om) →
    isSecretKey sk = true →
    revReach (.dict m) p = true →
    valAt (.dict m) (p ++ [.field sk]) = some (.bool b) →
    valAt (.dict om) (p ++ [.field sk]) = some o →
    truthy o = true →
    ∃ m', xs'.get? r = some (.dict m') ∧
      valAt (.dict m') (p ++ [.field sk]) = some o
  | .nil => by
    intro cur j xs' r m p sk b o c om hrev hfd
    simp [firstDict] at hfd
  | .cons (.dict m0) tl => by
    intro cur j xs' r m p sk b o c om hrev hfd hcur hc hsk hreach hvn hvo hto
    simp only [firstDict] at hfd
    injection hfd with hfd
    have hr : 0 = r := congrArg Prod.fst hfd
    have hm : m0 = m := congrArg Prod.snd hfd
    subst hr
    subst hm
    simp only [revertSecretsL] at hrev
    obtain ⟨m', hm', hrev⟩ := exBind_ok hrev
    obtain ⟨rest, hrest, hrev⟩ := exBind_ok hrev
    injection hrev with hres
    subst hres
    subst hcur
    rw [Nat.add_zero] at hc
    have hpy : pyIndexDict (.list c) j = om := by simp [pyIndexDict, hc]
    rw [hpy] at hm'
    exact ⟨m', rfl,
      revertD_restore m0 (.dict om) m' p sk b o hm' hsk hreach hvn hvo hto⟩
  | .cons .null tl => by
    intro cur j xs' r m p sk b o c om hrev hfd hcur hc hsk hreach hvn hvo hto
    simp only [firstDict, Option.map_eq_some'] at hfd
    obtain ⟨⟨r0, m1⟩, hfd0, heq2⟩ := hfd
    have hr : r0 + 1 = r := congrArg Prod.fst heq2
    have hm : m1 = m := congrArg Prod.snd heq2
    subst hr
    subst hm
    simp only [revertSecretsL] at hrev
    obtain ⟨rest, hrest, hrev⟩ := exBind_ok hrev
    injection hrev with hres
    subst hres
    have hc' : c.get? ((j + 1) + r0) = some (.dict om) := by
      rw [show (j + 1) + r0 = j + (r0 + 1) from by omega]
      exact hc
    obtain ⟨m', hg', hv'⟩ := revertL_restore tl cur (j + 1) rest r0 m1 p sk
      b o c om hrest hfd0 hcur hc' hsk hreach hvn hvo hto
    exact ⟨m', hg', hv'⟩
  | .cons (.bool bb) tl => by
    intro cur j xs' r m p sk b o c om hrev hfd hcur hc hsk hreach hvn hvo hto
    simp only [firstDict, Option.map_eq_some'] at hfd
    obtain ⟨⟨r0, m1⟩, hfd0, heq2⟩ := hfd
    have hr : r0 + 1 = r := congrArg Prod.fst heq2
    have hm : m1 = m := congrArg Prod.snd heq2
    subst hr
    subst hm
    simp only [revertSecretsL] at hrev
    obtain ⟨rest, hrest, hrev⟩ := exBind_ok hrev
    injection hrev with hres
    subst hres
    have hc' : c.get? ((j + 1) + r0) = some (.dict om) := by
      rw [show (j + 1) + r0 = j + (r0 + 1) from by omega]
      exact hc
    obtain ⟨m', hg', hv'⟩ := revertL_restore tl cur (j + 1) rest r0 m1 p sk
      b o c om hrest hfd0 hcur hc' hsk hreach hvn hvo hto
    exact ⟨m', hg', hv'⟩
  | .cons (.int n0) tl => by
    intro cur j xs' r m p sk b o c om hrev hfd hcur hc hsk hreach hvn hvo hto
    simp only [firstDict, Option.map_eq_some'] at hfd
    obtain ⟨⟨r0, m1⟩, hfd0, heq2⟩ := hfd
    have hr : r0 + 1 = r := congrArg Prod.fst heq2
    have hm : m1 = m := congrArg Prod.snd heq2
    subst hr
    subst hm
    simp only [revertSecretsL] at hrev
    obtain ⟨rest, hrest, hrev⟩ := exBind_ok hrev
    injection hrev with hres
    subst hres
    have hc' : c.get? ((j + 1) + r0) = some (.dict om) := by
      rw [show (j + 1) + r0 = j + (r0 + 1) from by omega]
      exact hc
    obtain ⟨m', hg', hv'⟩ := revertL_restore tl cur (j + 1) rest r0 m1 p sk
      b o c om hrest hfd0 hcur hc' hsk hreach hvn hvo hto
    exact ⟨m', hg', hv'⟩
  | .cons (.str s0) tl => by
    intro cur j xs' r m p sk b o c om hrev hfd hcur hc hsk hreach hvn hvo hto
    simp only [firstDict, Option.map_eq_some'] at hfd
    obtain ⟨⟨r0, m1⟩, hfd0, heq2⟩ := hfd
    have hr : r0 + 1 = r := congrArg Prod.fst heq2
    have hm : m1 = m := congrArg Prod.snd heq2
    subst hr
    subst hm
    simp only [revertSecretsL] at hrev
    obtain ⟨rest, hrest, hrev⟩ := exBind_ok hrev
    injection hrev with hres
    subst hres
    have hc' : c.get? ((j + 1) + r0) = some (.dict om) := by
      rw [show (j + 1) + r0 = j + (r0 + 1) from by omega]
      exact hc
    obtain ⟨m', hg', hv'⟩ := revertL_restore tl cur (j + 1) rest r0 m1 p sk
      b o c om hrest hfd0 hcur hc' hsk hreach hvn hvo hto
    exact ⟨m', hg', hv'⟩
  | .cons (.list ys) tl => by
    intro cur j xs' r m p sk b o c om hrev hfd hcur hc hsk hreach hvn hvo hto
    simp only [firstDict, Option.map_eq_some'] at hfd
    obtain ⟨⟨r0, m1⟩, hfd0, heq2⟩ := hfd
    have hr : r0 + 1 = r := congrArg Prod.fst heq2
    have hm : m1 = m := congrArg Prod.snd heq2
    subst hr
    subst hm
    simp only [revertSecretsL] at hrev
    obtain ⟨rest, hrest, hrev⟩ := exBind_ok hrev
    injection hrev with hres
    subst hres
    have hc' : c.get? ((j + 1) + r0) = some (.dict om) := by
      rw [show (j + 1) + r0 = j + (r0 + 1) from by omega]
      exact hc
    obtain ⟨m', hg', hv'⟩ := revertL_restore tl cur (j + 1) rest r0 m1 p sk
      b o c om hrest hfd0 hcur hc' hsk hreach hvn hvo hto
    exact ⟨m', hg', hv'⟩

end

/-- Tail case of the failure lemma. -/
theorem fail_skip (k : String) (v : Val) (t : VDict) (origV : Val)
    (res : VDict) (p : List PathElem) (sk : String) (b : Bool)
    (h : revertSecretsD (.cons k v t) origV = .ok res)
    (hreach : revReach (.dict (.cons k v t)) p = true)
    (hvn : valAt (.dict (.cons k v t)) (p ++ [.field sk]) = some (.bool b))
    (hmiss : ∀ o, valAt origV (p ++ [.field sk]) = some o →
      truthy o = false)
    (hne : (p = [] → k ≠ sk) ∧ ∀ k' p', p = .field k' :: p' → k ≠ k')
    (ih : ∀ res' p₁, revertSecretsD t origV = .ok res' →
        revReach (.dict t) p₁ = true →
        valAt (.dict t) (p₁ ++ [.field sk]) = some (.bool b) →
        (∀ o, valAt origV (p₁ ++ [.field sk]) = some o →
          truthy o = false) →
        False) :
    False := by
  obtain ⟨v0, t', rfl, ht⟩ := revertD_cons_shape k v t origV res h
  cases p with
  | nil =>
    have hks : k ≠ sk := hne.1 rfl
    rw [List.nil_append, valAt_single_field,
      VDict.get?_cons_ne k v t hks] at hvn
    exact ih t' [] ht rfl
      (by rw [List.nil_append, valAt_single_field]; exact hvn) hmiss
  | cons e p' =>
    cases e with
    | idx i => rw [revReach_dict_idx] at hreach; exact absurd hreach (by simp)
    | field k' =>
      have hkk : k ≠ k' := hne.2 k' p' rfl
      obtain ⟨hsec, w, hw, hrw⟩ := revReach_field_some _ k' p' hreach
      rw [VDict.get?_cons_ne k v t hkk] at hw
      rw [List.cons_append] at hvn
      obtain ⟨m1, v1, hm1, hg1, hv1⟩ :=
        valAt_field_some _ k' (p' ++ [.field sk]) _ hvn
      injection hm1 with hm1
      rw [← hm1, VDict.get?_cons_ne k v t hkk] at hg1
      exact ih t' (.field k' :: p') ht
        (revReach_field_intro t k' p' w hsec hw hrw)
        (by
          rw [List.cons_append]
          exact valAt_field_intro t k' (p' ++ [.field sk]) v1 _ hg1 hv1)
        (fun o ho => hmiss o (by rw [List.cons_append]; exact ho))

mutual

/-- `_revert_secrets` cannot succeed when a boolean sits at a secret key at
the end of a reachable path and the original value at that path is absent or
falsy. -/
theorem revertD_fail : ∀ (new : VDict), ∀ (origV : Val) (res : VDict)
    (p : List PathElem) (sk : String) (b : Bool),
    revertSecretsD new origV = .ok res →
    isSecretKey sk = true →
    revReach (.dict new) p = true →
    valAt (.dict new) (p ++ [.field sk]) = some (.bool b) →
    (∀ o, valAt origV (p ++ [.field sk]) = some o → truthy o = false) →
    False
  | .nil => by
    intro origV res p sk b hrev hsk hreach hvn hmiss
    obtain ⟨e, rest, heq⟩ := exists_cons_append p (.field sk)
    rw [heq] at hvn
    cases e with
    | field a =>
      rw [valAt_dict_field] at hvn
      simp [VDict.get?] at hvn
    | idx i =>
      rw [valAt_not_list_idx _ i rest (by simp)] at hvn
      exact absurd hvn (by simp)
  | .cons k v t => by
    intro origV res p sk b hrev hsk hreach hvn hmiss
    have ihtail : ∀ res' p₁, revertSecretsD t origV = .ok res' →
        revReach (.dict t) p₁ = true →
        valAt (.dict t) (p₁ ++ [.field sk]) = some (.bool b) →
        (∀ o, valAt origV (p₁ ++ [.field sk]) = some o →
          truthy o = false) →
        False :=
      fun res' p₁ h1 h2 h3 h4 =>
        revertD_fail t origV res' p₁ sk b h1 hsk h2 h3 h4
    cases v with
    | bool b0 =>
      cases p with
      | nil =>
        by_cases hks : k = sk
        · subst hks
          simp only [revertSecretsD] at hrev
          split at hrev
          · obtain ⟨o?, ho?, hrev⟩ := exBind_ok hrev
            cases origV with
            | null => simp [origGet] at ho?
            | bool bx => simp [origGet] at ho?
            | int nx => simp [origGet] at ho?
            | str sx => simp [origGet] at ho?
            | list xsx => simp [origGet] at ho?
            | dict omv =>
              have hx : omv.get? k = o? := by
                have hh : origGet (.dict omv) k = .ok (omv.get? k) := rfl
                rw [hh] at ho?
                injection ho? with hx
              cases o? with
              | none => simp at hrev
              | some o =>
                split at hrev
                · rename_i o1 heq1
                  injection heq1 with heq1
                  subst heq1
                  have hfo : truthy o = false := hmiss o
                    (by
                      rw [List.nil_append]
                      exact valAt_field_intro omv k [] o o hx (valAt_nil o))
                  rw [if_neg (by simp [hfo])] at hrev
                  exact absurd hrev (by simp)
                · rename_i heq1
                  exact absurd heq1 (by simp)
          · rename_i hns
            exact absurd hsk hns
        · exact fail_skip k (.bool b0) t origV res [] sk b hrev hreach
            hvn hmiss ⟨fun _ => hks, fun k' p' hh => by simp at hh⟩ ihtail
      | cons e p' =>
        cases e with
        | idx i =>
          exact fail_skip k (.bool b0) t origV res (.idx i :: p') sk b
            hrev hreach hvn hmiss
            ⟨fun hh => by simp at hh, fun k' p'' hh => by simp at hh⟩ ihtail
        | field k' =>
          by_cases hkk : k = k'
          · subst hkk
            rw [List.cons_append] at hvn
            obtain ⟨m1, v1, hm1, hg1, hv1⟩ :=
              valAt_field_some _ k (p' ++ [.field sk]) _ hvn
            injection hm1 with hm1
            rw [← hm1, VDict.get?_cons_self] at hg1
            injection hg1 with hg1
            subst hg1
            obtain ⟨e2, rest2, heq2⟩ := exists_cons_append p' (.field sk)
            rw [heq2] at hv1
            cases e2 with
            | field a =>
              rw [valAt_not_dict_field _ a rest2 (by simp)] at hv1
              exact absurd hv1 (by simp)
            | idx i2 =>
              rw [valAt_not_list_idx _ i2 rest2 (by simp)] at hv1
              exact absurd hv1 (by simp)
          · exact fail_skip k (.bool b0) t origV res (.field k' :: p') sk
              b hrev hreach hvn hmiss
              ⟨fun hh => by simp at hh, fun k'' p'' hh => by
                injection hh with h1 h2
                injection h1 with h1
                rw [← h1]
                exact hkk⟩ ihtail
    | null =>
      cases p with
      | nil =>
        by_cases hks : k = sk
        · subst hks
          rw [List.nil_append, valAt_single_field, VDict.get?_cons_self] at hvn
          injection hvn with hvn
          exact absurd hvn (by simp)
        · exact fail_skip k .null t origV res [] sk b hrev hreach
            hvn hmiss ⟨fun _ => hks, fun k' p' hh => by simp at hh⟩ ihtail
      | cons e p' =>
        cases e with
        | idx i =>
          exact fail_skip k .null t origV res (.idx i :: p') sk b
            hrev hreach hvn hmiss
            ⟨fun hh => by simp at hh, fun k' p'' hh => by simp at hh⟩ ihtail
        | field k' =>
          by_cases hkk : k = k'
          · subst hkk
            rw [List.cons_append] at hvn
            obtain ⟨m1, v1, hm1, hg1, hv1⟩ :=
              valAt_field_some _ k (p' ++ [.field sk]) _ hvn
            injection hm1 with hm1
            rw [← hm1, VDict.get?_cons_self] at hg1
            injection hg1 with hg1
            subst hg1
            obtain ⟨e2, rest2, heq2⟩ := exists_cons_append p' (.field sk)
            rw [heq2] at hv1
            cases e2 with
            | field a =>
              rw [valAt_not_dict_field _ a rest2 (by simp)] at hv1
              exact absurd hv1 (by simp)
            | idx i2 =>
              rw [valAt_not_list_idx _ i2 rest2 (by simp)] at hv1
              exact absurd hv1 (by simp)
          · exact fail_skip k .null t origV res (.field k' :: p') sk
              b hrev hreach hvn hmiss
              ⟨fun hh => by simp at hh, fun k'' p'' hh => by
                injection hh with h1 h2
                injection h1 with h1
                rw [← h1]
                exact hkk⟩ ihtail
    | int n =>
      cases p with
      | nil =>
        by_cases hks : k = sk
        · subst hks
          rw [List.nil_append, valAt_single_field, VDict.get?_cons_self] at hvn
          injection hvn with hvn
          exact absurd hvn (by simp)
        · exact fail_skip k (.int n) t origV res [] sk b hrev hreach
            hvn hmiss ⟨fun _ => hks, fun k' p' hh => by simp at hh⟩ ihtail
      | cons e p' =>
        cases e with
        | idx i =>
          exact fail_skip k (.int n) t origV res (.idx i :: p') sk b
            hrev hreach hvn hmiss
            ⟨fun hh => by simp at hh, fun k' p'' hh => by simp at hh⟩ ihtail
        | field k' =>
          by_cases hkk : k = k'
          · subst hkk
            rw [List.cons_append] at hvn
            obtain ⟨m1, v1, hm1, hg1, hv1⟩ :=
              valAt_field_some _ k (p' ++ [.field sk]) _ hvn
            injection hm1 with hm1
            rw [← hm1, VDict.get?_cons_self] at hg1
            injection hg1 with hg1
            subst hg1
            obtain ⟨e2, rest2, heq2⟩ := exists_cons_append p' (.field sk)
            rw [heq2] at hv1
            cases e2 with
            | field a =>
              rw [valAt_not_dict_field _ a rest2 (by simp)] at hv1
              exact absurd hv1 (by simp)
            | idx i2 =>
              rw [valAt_not_list_idx _ i2 rest2 (by simp)] at hv1
              exact absurd hv1 (by simp)
          · exact fail_skip k (.int n) t origV res (.field k' :: p') sk
              b hrev hreach hvn hmiss
              ⟨fun hh => by simp at hh, fun k'' p'' hh => by
                injection hh with h1 h2
                injection h1 with h1
                rw [← h1]
                exact hkk⟩ ihtail
    | str s =>
      cases p with
      | nil =>
        by_cases hks : k = sk
        · subst hks
          rw [List.nil_append, valAt_single_field, VDict.get?_cons_self] at hvn
          injection hvn with hvn
          exact absurd hvn (by simp)
        · exact fail_skip k (.str s) t origV res [] sk b hrev hreach
            hvn hmiss ⟨fun _ => hks, fun k' p' hh => by simp at hh⟩ ihtail
      | cons e p' =>
        cases e with
        | idx i =>
          exact fail_skip k (.str s) t origV res (.idx i :: p') sk b
            hrev hreach hvn hmiss
            ⟨fun hh => by simp at hh, fun k' p'' hh => by simp at hh⟩ ihtail
        | field k' =>
          by_cases hkk : k = k'
          · subst hkk
            rw [List.cons_append] at hvn
            obtain ⟨m1, v1, hm1, hg1, hv1⟩ :=
              valAt_field_some _ k (p' ++ [.field sk]) _ hvn
            injection hm1 with hm1
            rw [← hm1, VDict.get?_cons_self] at hg1
            injection hg1 with hg1
            subst hg1
            obtain ⟨e2, rest2, heq2⟩ := exists_cons_append p' (.field sk)
            rw [heq2] at hv1
            cases e2 with
            | field a =>
              rw [valAt_not_dict_field _ a rest2 (by simp)] at hv1
              exact absurd hv1 (by simp)
            | idx i2 =>
              rw [valAt_not_list_idx _ i2 rest2 (by simp)] at hv1
              exact absurd hv1 (by simp)
          · exact fail_skip k (.str s) t origV res (.field k' :: p') sk
              b hrev hreach hvn hmiss
              ⟨fun hh => by simp at hh, fun k'' p'' hh => by
                injection hh with h1 h2
                injection h1 with h1
                rw [← h1]
                exact hkk⟩ ihtail
    | dict mm =>
      cases p with
      | nil =>
        by_cases hks : k = sk
        · subst hks
          rw [List.nil_append, valAt_single_field, VDict.get?_cons_self] at hvn
          injection hvn with hvn
          exact absurd hvn (by simp)
        · exact fail_skip k (.dict mm) t origV res [] sk b hrev hreach
            hvn hmiss ⟨fun _ => hks, fun k' p' hh => by simp at hh⟩ ihtail
      | cons e p' =>
        cases e with
        | idx i =>
          exact fail_skip k (.dict mm) t origV res (.idx i :: p') sk b
            hrev hreach hvn hmiss
            ⟨fun hh => by simp at hh, fun k' p'' hh => by simp at hh⟩ ihtail
        | field k' =>
          by_cases hkk : k = k'
          · subst hkk
            obtain ⟨hsec, w, hw, hrw⟩ := revReach_field_some _ k p' hreach
            rw [VDict.get?_cons_self] at hw
            injection hw with hw
            subst hw
            rw [List.cons_append] at hvn
            obtain ⟨m1, v1, hm1, hg1, hv1⟩ :=
              valAt_field_some _ k (p' ++ [.field sk]) _ hvn
            injection hm1 with hm1
            rw [← hm1, VDict.get?_cons_self] at hg1
            injection hg1 with hg1
            subst hg1
            simp only [revertSecretsD] at hrev
            split at hrev
            · rename_i hsx
              rw [hsec] at hsx
              exact absurd hsx (by simp)
            · obtain ⟨o?, ho?, hrev⟩ := exBind_ok hrev
              cases origV with
              | null => simp [origGet] at ho?
              | bool bx => simp [origGet] at ho?
              | int nx => simp [origGet] at ho?
              | str sx => simp [origGet] at ho?
              | list xsx => simp [origGet] at ho?
              | dict omv =>
                have hx : omv.get? k = o? := by
                  have hh : origGet (.dict omv) k = .ok (omv.get? k) := rfl
                  rw [hh] at ho?
                  injection ho? with hx
                obtain ⟨m', hm', hrev⟩ := exBind_ok hrev
                rcases om_cases o? with ⟨om0, ho0, homm⟩ | ⟨homm, hno⟩
                · rw [homm] at hm'
                  rw [ho0] at hx
                  exact revertD_fail mm (.dict om0) m' p' sk b hm' hsk hrw
                    hv1
                    (fun o ho => hmiss o (by
                      rw [List.cons_append]
                      exact valAt_field_intro omv k (p' ++ [.field sk])
                        (.dict om0) o hx ho))
                · rw [homm] at hm'
                  exact revertD_fail mm (.dict .nil) m' p' sk b hm' hsk hrw
                    hv1
                    (fun o ho => by
                      rw [valAt_dict_nil_append] at ho
                      exact absurd ho (by simp))
          · exact fail_skip k (.dict mm) t origV res (.field k' :: p') sk
              b hrev hreach hvn hmiss
              ⟨fun hh => by simp at hh, fun k'' p'' hh => by
                injection hh with h1 h2
                injection h1 with h1
                rw [← h1]
                exact hkk⟩ ihtail
    | list xs =>
      cases p with
      | nil =>
        by_cases hks : k = sk
        · subst hks
          rw [List.nil_append, valAt_single_field, VDict.get?_cons_self] at hvn
          injection hvn with hvn
          exact absurd hvn (by simp)
        · exact fail_skip k (.list xs) t origV res [] sk b hrev hreach
            hvn hmiss ⟨fun _ => hks, fun k' p' hh => by simp at hh⟩ ihtail
      | cons e p' =>
        cases e with
        | idx i =>
          exact fail_skip k (.list xs) t origV res (.idx i :: p') sk b
            hrev hreach hvn hmiss
            ⟨fun hh => by simp at hh, fun k' p'' hh => by simp at hh⟩ ihtail
        | field k' =>
          by_cases hkk : k = k'
          · subst hkk
            obtain ⟨hsec, w, hw, hrw⟩ := revReach_field_some _ k p' hreach
            rw [VDict.get?_cons_self] at hw
            injection hw with hw
            subst hw
            cases p' with
            | nil =>
              rw [List.cons_append, List.nil_append] at hvn
              obtain ⟨m1, v1, hm1, hg1, hv1⟩ :=
                valAt_field_some _ k [.field sk] _ hvn
              injection hm1 with hm1
              rw [← hm1, VDict.get?_cons_self] at hg1
              injection hg1 with hg1
              subst hg1
              rw [valAt_not_dict_field _ sk [] (by simp)] at hv1
              exact absurd hv1 (by simp)
            | cons e2 p'' =>
              cases e2 with
              | field a =>
                rw [revReach_list_field] at hrw
                exact absurd hrw (by simp)
              | idx i =>
                obtain ⟨m2, hfd, hrm⟩ := revReach_idx_some xs i p'' hrw
                rw [List.cons_append, List.cons_append] at hvn
                obtain ⟨m1, v1, hm1, hg1, hv1⟩ :=
                  valAt_field_some _ k (.idx i :: (p'' ++ [.field sk])) _ hvn
                injection hm1 with hm1
                rw [← hm1, VDict.get?_cons_self] at hg1
                injection hg1 with hg1
                subst hg1
                obtain ⟨xs1, el, hxl, hgel, hvel⟩ :=
                  valAt_idx_some _ i (p'' ++ [.field sk]) _ hv1
                injection hxl with hxl
                rw [← hxl] at hgel
                have hel : el = .dict m2 := by
                  have := firstDict_get? xs (i, m2) hfd
                  rw [hgel] at this
                  injection this with this
                subst hel
                simp only [revertSecretsD] at hrev
                split at hrev
                · rename_i hsx
                  rw [hsec] at hsx
                  exact absurd hsx (by simp)
                · obtain ⟨o?, ho?, hrev⟩ := exBind_ok hrev
                  cases origV with
                  | null => simp [origGet] at ho?
                  | bool bx => simp [origGet] at ho?
                  | int nx => simp [origGet] at ho?
                  | str sx => simp [origGet] at ho?
                  | list xsx => simp [origGet] at ho?
                  | dict omv =>
                    have hx : omv.get? k = o? := by
                      have hh : origGet (.dict omv) k = .ok (omv.get? k) := rfl
                      rw [hh] at ho?
                      injection ho? with hx
                    obtain ⟨xs2, hxs2, hrev⟩ := exBind_ok hrev
                    refine revertL_fail xs (o?.getD (.list .nil)) 0 xs2 i m2
                      p'' sk b hxs2 hfd hsk hrm hvel (fun o ho => ?_)
                    rcases pyIndexDict_cases (o?.getD (.list .nil)) (0 + i)
                      with hnil | ⟨c, om0, hovc, hce, hom⟩
                    · rw [hnil, valAt_dict_nil_append] at ho
                      exact absurd ho (by simp)
                    · rw [hom] at ho
                      rw [Nat.zero_add] at hce
                      have hcx : omv.get? k = some (.list c) := by
                        cases o? with
                        | none =>
                          simp only [Option.getD] at hovc
                          injection hovc with hovc
                          rw [← hovc] at hce
                          simp [VList.get?] at hce
                        | some w =>
                          simp only [Option.getD] at hovc
                          rw [hx, hovc]
                      exact hmiss o (by
                        rw [List.cons_append, List.cons_append]
                        exact valAt_field_intro omv k
                          (.idx i :: (p'' ++ [.field sk])) (.list c) o hcx
                          (valAt_idx_intro c i (p'' ++ [.field sk])
                            (.dict om0) o hce ho))
          · exact fail_skip k (.list xs) t origV res (.field k' :: p') sk
              b hrev hreach hvn hmiss
              ⟨fun hh => by simp at hh, fun k'' p'' hh => by
                injection hh with h1 h2
                injection h1 with h1
                rw [← h1]
                exact hkk⟩ ihtail

/-- List companion of `revertD_fail`. -/
theorem revertL_fail : ∀ (xs : VList), ∀ (cur : Val) (j : Nat)
    (xs' : VList) (r : Nat) (m : VDict) (p : List PathElem) (sk : String)
    (b : Bool),
    revertSecretsL xs cur j = .ok xs' →
    firstDict xs = some (r, m) →
    isSecretKey sk = true →
    revReach (.dict m) p = true →
    valAt (.dict m) (p ++ [.field sk]) = some (.bool b) →
    (∀ o, valAt (.dict (pyIndexDict cur (j + r))) (p ++ [.field sk]) =
      some o → truthy o = false) →
    False
  | .nil => by
    intro cur j xs' r m p sk b hrev hfd
    simp [firstDict] at hfd
  | .cons (.dict m0) tl => by
    intro cur j xs' r m p sk b hrev hfd hsk hreach hvn hmiss
    simp only [firstDict] at hfd
    injection hfd with hfd
    have hr : 0 = r := congrArg Prod.fst hfd
    have hm : m0 = m := congrArg Prod.snd hfd
    subst hr
    subst hm
    simp only [revertSecretsL] at hrev
    obtain ⟨m', hm', hrev⟩ := exBind_ok hrev
    simp only [Nat.add_zero] at hmiss
    exact revertD_fail m0 (.dict (pyIndexDict cur j)) m' p sk b hm' hsk
      hreach hvn hmiss
  | .cons .null tl => by
    intro cur j xs' r m p sk b hrev hfd hsk hreach hvn hmiss
    simp only [firstDict, Option.map_eq_some'] at hfd
    obtain ⟨⟨r0, m1⟩, hfd0, heq2⟩ := hfd
    have hr : r0 + 1 = r := congrArg Prod.fst heq2
    have hm : m1 = m := congrArg Prod.snd heq2
    subst hr
    subst hm
    simp only [revertSecretsL] at hrev
    obtain ⟨rest, hrest, hrev⟩ := exBind_ok hrev
    exact revertL_fail tl cur (j + 1) rest r0 m1 p sk b hrest hfd0 hsk
      hreach hvn
      (fun o ho => hmiss o (by
        rw [show j + (r0 + 1) = j + 1 + r0 from by omega]
        exact ho))
  | .cons (.bool bb) tl => by
    intro cur j xs' r m p sk b hrev hfd hsk hreach hvn hmiss
    simp only [firstDict, Option.map_eq_some'] at hfd
    obtain ⟨⟨r0, m1⟩, hfd0, heq2⟩ := hfd
    have hr : r0 + 1 = r := congrArg Prod.fst heq2
    have hm : m1 = m := congrArg Prod.snd heq2
    subst hr
    subst hm
    simp only [revertSecretsL] at hrev
    obtain ⟨rest, hrest, hrev⟩ := exBind_ok hrev
    exact revertL_fail tl cur (j + 1) rest r0 m1 p sk b hrest hfd0 hsk
      hreach hvn
      (fun o ho => hmiss o (by
        rw [show j + (r0 + 1) = j + 1 + r0 from by omega]
        exact ho))
  | .cons (.int n0) tl => by
    intro cur j xs' r m p sk b hrev hfd hsk hreach hvn hmiss
    simp only [firstDict, Option.map_eq_some'] at hfd
    obtain ⟨⟨r0, m1⟩, hfd0, heq2⟩ := hfd
    have hr : r0 + 1 = r := congrArg Prod.fst heq2
    have hm : m1 = m := congrArg Prod.snd heq2
    subst hr
    subst hm
    simp only [revertSecretsL] at hrev
    obtain ⟨rest, hrest, hrev⟩ := exBind_ok hrev
    exact revertL_fail tl cur (j + 1) rest r0 m1 p sk b hrest hfd0 hsk
      hreach hvn
      (fun o ho => hmiss o (by
        rw [show j + (r0 + 1) = j + 1 + r0 from by omega]
        exact ho))
  | .cons (.str s0) tl => by
    intro cur j xs' r m p sk b hrev hfd hsk hreach hvn hmiss
    simp only [firstDict, Option.map_eq_some'] at hfd
    obtain ⟨⟨r0, m1⟩, hfd0, heq2⟩ := hfd
    have hr : r0 + 1 = r := congrArg Prod.fst heq2
    have hm : m1 = m := congrArg Prod.snd heq2
    subst hr
    subst hm
    simp only [revertSecretsL] at hrev
    obtain ⟨rest, hrest, hrev⟩ := exBind_ok hrev
    exact revertL_fail tl cur (j + 1) rest r0 m1 p sk b hrest hfd0 hsk
      hreach hvn
      (fun o ho => hmiss o (by
        rw [show j + (r0 + 1) = j + 1 + r0 from by omega]
        exact ho))
  | .cons (.list ys) tl => by
    intro cur j xs' r m p sk b hrev hfd hsk hreach hvn hmiss
    simp only [firstDict, Option.map_eq_some'] at hfd
    obtain ⟨⟨r0, m1⟩, hfd0, heq2⟩ := hfd
    have hr : r0 + 1 = r := congrArg Prod.fst heq2
    have hm : m1 = m := congrArg Prod.snd heq2
    subst hr
    subst hm
    simp only [revertSecretsL] at hrev
    obtain ⟨rest, hrest, hrev⟩ := exBind_ok hrev
    exact revertL_fail tl cur (j + 1) rest r0 m1 p sk b hrest hfd0 hsk
      hreach hvn
      (fun o ho => hmiss o (by
        rw [show j + (r0 + 1) = j + 1 + r0 from by omega]
        exact ho))

end

/-!
## Pipeline lemmas

Inversion and preservation lemmas for the `_sanity_check`/`set` pipeline.
-/

theorem mem_keys_of_get? : ∀ (d : VDict) (k : String) (v : Val),
    d.get? k = some v → k ∈ d.keys
  | .nil, _, _, h => by simp [VDict.get?] at h
  | .cons k0 w t, k, v, h => by
    by_cases h0 : k0 = k
    · subst h0
      simp [VDict.keys]
    · rw [VDict.get?_cons_ne k0 w t h0] at h
      simp only [VDict.keys, List.mem_cons]
      exact Or.inr (mem_keys_of_get? t k v h)

theorem get?_isSome_of_mem : ∀ (d : VDict) (k : String),
    k ∈ d.keys → (d.get? k).isSome = true
  | .nil, _, h => by simp [VDict.keys] at h
  | .cons k0 w t, k, h => by
    by_cases h0 : k0 = k
    · subst h0
      simp [VDict.get?]
    · rw [VDict.get?_cons_ne k0 w t h0]
      simp only [VDict.keys, List.mem_cons] at h
      rcases h with rfl | h
      · exact absurd rfl h0
      · exact get?_isSome_of_mem t k h

theorem keys_set_of_mem : ∀ (d : VDict) (k : String) (v : Val),
    k ∈ d.keys → (d.set k v).keys = d.keys
  | .nil, k, v, h => by simp [VDict.keys] at h
  | .cons k0 w t, k, v, h => by
    by_cases h0 : k0 = k
    · subst h0
      simp [VDict.set, VDict.keys]
    · simp only [VDict.keys, List.mem_cons] at h
      rcases h with rfl | h
      · exact absurd rfl h0
      · simp only [VDict.set, VDict.keys]
        rw [if_neg (by simpa using h0)]
        simp only [VDict.keys]
        rw [keys_set_of_mem t k v h]

theorem keys_set_of_not_mem : ∀ (d : VDict) (k : String) (v : Val),
    k ∉ d.keys → (d.set k v).keys = d.keys ++ [k]
  | .nil, k, v, _ => by simp [VDict.set, VDict.keys]
  | .cons k0 w t, k, v, h => by
    have h0 : k0 ≠ k := fun e => h (by simp [VDict.keys, e])
    have ht : k ∉ t.keys := fun e => h (by simp [VDict.keys, e])
    simp only [VDict.set, VDict.keys]
    rw [if_neg (by simpa using h0)]
    simp only [VDict.keys]
    rw [keys_set_of_not_mem t k v ht]
    simp

theorem nodup_keys_set (d : VDict) (k : String) (v : Val)
    (h : d.keys.Nodup) : (d.set k v).keys.Nodup := by
  by_cases hm : k ∈ d.keys
  · rw [keys_set_of_mem d k v hm]
    exact h
  · rw [keys_set_of_not_mem d k v hm]
    simp [List.nodup_append, h, hm]

theorem keys_del_sublist : ∀ (d : VDict) (k : String),
    (d.del k).keys.Sublist d.keys
  | .nil, _ => by simp [VDict.del]
  | .cons k0 w t, k => by
    by_cases h0 : k0 = k
    · subst h0
      rw [VDict.del_cons_self]
      simp only [VDict.keys]
      exact List.sublist_cons_self k0 t.keys
    · rw [VDict.del_cons_ne k0 w t h0]
      simp only [VDict.keys]
      exact List.Sublist.cons₂ k0 (keys_del_sublist t k)

theorem nodup_keys_del (d : VDict) (k : String)
    (h : d.keys.Nodup) : (d.del k).keys.Nodup :=
  h.sublist (keys_del_sublist d k)

theorem nodup_keys_foldl_del (names : List String) :
    ∀ (d : VDict), d.keys.Nodup →
      (names.foldl (fun a n => a.del n) d).keys.Nodup := by
  induction names with
  | nil => intro d h; exact h
  | cons n rest ih =>
    intro d h
    exact ih (d.del n) (nodup_keys_del d n h)

/-- `likeNames` only reports keys whose (first) binding is a dict with a
truthy string `like`, provided the keys are unique. -/
theorem likeNames_mem : ∀ (d : VDict), d.keys.Nodup →
    ∀ n ∈ likeNames d, ∃ m l, d.get? n = some (.dict m) ∧
      m.get? "like" = some (.str l) ∧ l.isEmpty = false
  | .nil, _, n, h => by simp [likeNames] at h
  | .cons k0 v t, hnd, n, h => by
    have hnd' := List.nodup_cons.mp (by simpa [VDict.keys] using hnd)
    have htail : n ∈ likeNames t →
        ∃ m l, t.get? n = some (.dict m) ∧
          m.get? "like" = some (.str l) ∧ l.isEmpty = false :=
      fun hm => likeNames_mem t hnd'.2 n hm
    have hne_of_tail : n ∈ likeNames t → k0 ≠ n := by
      intro hm he
      obtain ⟨m, l, hg, _, _⟩ := htail hm
      exact hnd'.1 (he ▸ mem_keys_of_get? t n (.dict m) hg)
    cases v with
    | dict m0 =>
      simp only [likeNames] at h
      cases hl : m0.get? "like" with
      | some lv =>
        cases lv with
        | str l =>
          rw [hl] at h
          have h : n ∈ (if l.isEmpty = true then likeNames t
              else k0 :: likeNames t) := h
          by_cases hle : l.isEmpty
          · rw [if_pos hle] at h
            obtain ⟨m, l', hg, hml, hle'⟩ := htail h
            exact ⟨m, l', by
              rw [VDict.get?_cons_ne k0 (.dict m0) t (hne_of_tail h)]
              exact hg, hml, hle'⟩
          · rw [if_neg hle] at h
            rcases List.mem_cons.mp h with rfl | h
            · exact ⟨m0, l, by rw [VDict.get?_cons_self], hl,
                by simpa using hle⟩
            · obtain ⟨m, l', hg, hml, hle'⟩ := htail h
              exact ⟨m, l', by
                rw [VDict.get?_cons_ne k0 (.dict m0) t (hne_of_tail h)]
                exact hg, hml, hle'⟩
        | null =>
          rw [hl] at h
          obtain ⟨m, l', hg, hml, hle'⟩ := htail h
          exact ⟨m, l', by
            rw [VDict.get?_cons_ne k0 (.dict m0) t (hne_of_tail h)]
            exact hg, hml, hle'⟩
        | bool bb =>
          rw [hl] at h
          obtain ⟨m, l', hg, hml, hle'⟩ := htail h
          exact ⟨m, l', by
            rw [VDict.get?_cons_ne k0 (.dict m0) t (hne_of_tail h)]
            exact hg, hml, hle'⟩
        | int nn =>
          rw [hl] at h
          obtain ⟨m, l', hg, hml, hle'⟩ := htail h
          exact ⟨m, l', by
            rw [VDict.get?_cons_ne k0 (.dict m0) t (hne_of_tail h)]
            exact hg, hml, hle'⟩
        | list ys =>
          rw [hl] at h
          obtain ⟨m, l', hg, hml, hle'⟩ := htail h
          exact ⟨m, l', by
            rw [VDict.get?_cons_ne k0 (.dict m0) t (hne_of_tail h)]
            exact hg, hml, hle'⟩
        | dict mm =>
          rw [hl] at h
          obtain ⟨m, l', hg, hml, hle'⟩ := htail h
          exact ⟨m, l', by
            rw [VDict.get?_cons_ne k0 (.dict m0) t (hne_of_tail h)]
            exact hg, hml, hle'⟩
      | none =>
        rw [hl] at h
        obtain ⟨m, l', hg, hml, hle'⟩ := htail h
        exact ⟨m, l', by
          rw [VDict.get?_cons_ne k0 (.dict m0) t (hne_of_tail h)]
          exact hg, hml, hle'⟩
    | null =>
      simp only [likeNames] at h
      obtain ⟨m, l', hg, hml, hle'⟩ := htail h
      exact ⟨m, l', by
        rw [VDict.get?_cons_ne k0 .null t (hne_of_tail h)]
        exact hg, hml, hle'⟩
    | bool bb =>
      simp only [likeNames] at h
      obtain ⟨m, l', hg, hml, hle'⟩ := htail h
      exact ⟨m, l', by
        rw [VDict.get?_cons_ne k0 (.bool bb) t (hne_of_tail h)]
        exact hg, hml, hle'⟩
    | int nn =>
      simp only [likeNames] at h
      obtain ⟨m, l', hg, hml, hle'⟩ := htail h
      exact ⟨m, l', by
        rw [VDict.get?_cons_ne k0 (.int nn) t (hne_of_tail h)]
        exact hg, hml, hle'⟩
    | str ss =>
      simp only [likeNames] at h
      obtain ⟨m, l', hg, hml, hle'⟩ := htail h
      exact ⟨m, l', by
        rw [VDict.get?_cons_ne k0 (.str ss) t (hne_of_tail h)]
        exact hg, hml, hle'⟩
    | list ys =>
      simp only [likeNames] at h
      obtain ⟨m, l', hg, hml, hle'⟩ := htail h
      exact ⟨m, l', by
        rw [VDict.get?_cons_ne k0 (.list ys) t (hne_of_tail h)]
        exact hg, hml, hle'⟩

theorem get?_foldl_del (names : List String) (k : String)
    (hk : ∀ n ∈ names, n ≠ k) :
    ∀ (d : VDict), (names.foldl (fun a n => a.del n) d).get? k = d.get? k := by
  induction names with
  | nil => intro d; rfl
  | cons n rest ih =>
    intro d
    have h1 : n ≠ k := hk n (by simp)
    have ih' := ih (fun n' hn' => hk n' (by simp [hn'])) (d.del n)
    rw [List.foldl_cons, ih', VDict.get?_del_ne d n k h1]

theorem okBind {α β : Type} (a : α) (f : α → Except String β) :
    (Except.ok a >>= f) = f a := rfl

theorem errBind {α β : Type} (e : String) (f : α → Except String β) :
    ((Except.error e : Except String α) >>= f) = .error e := rfl

/-- Inversion of `probeSanity` for an enabled probe carrying a non-empty
config: the output is the probe with its config reverted against the stored
entry. -/
theorem probeSanity_ours (configData : VDict) (allConfigs : List Val)
    (pm cfg origEntry : VDict) (k : String) (out : Val)
    (hkey : pm.get? "key" = some (.str k))
    (henb : pm.getD "enabled" (.bool true) = .bool true)
    (hcfg : pm.get? "config" = some (.dict cfg))
    (hnn : cfg.isNil = false)
    (horig : configData.getD k (.dict .nil) = .dict origEntry)
    (hok : probeSanity configData allConfigs (.dict pm) = .ok out) :
    ∃ cfg',
      revertSecretsD cfg (origEntry.getD "config" (.dict .nil)) = .ok cfg' ∧
      out = .dict (pm.set "config" (.dict cfg')) ∧
      pm.getD "use" .null = .null := by
  have hgd : pm.getD "config" .null = .dict cfg := by
    simp [VDict.getD, hcfg]
  simp [probeSanity, okBind, errBind, hkey, henb, hgd, horig, hnn] at hok
  split at hok
  all_goals try exact Except.noConfusion hok
  split at hok
  all_goals try exact Except.noConfusion hok
  split at hok
  all_goals try exact Except.noConfusion hok
  split at hok
  all_goals try exact Except.noConfusion hok
  split at hok
  all_goals try exact Except.noConfusion hok
  obtain ⟨u5, hpe, hok⟩ := exBind_ok hok
  split at hok
  all_goals try exact Except.noConfusion hok
  obtain ⟨cfg', hrev, hok⟩ := exBind_ok hok
  split at hok
  all_goals try exact Except.noConfusion hok
  · rename_i hequse
    split at hok
    all_goals try exact Except.noConfusion hok
    have hout : Val.dict (pm.set "config" (Val.dict cfg')) = out := by
      injection hok
    exact ⟨cfg', hrev, hout.symm, hequse⟩
  · rename_i u hequ
    split at hok
    all_goals exact Except.noConfusion hok

/-- The final unknown-key check of `probeSanity`/`configSanity`. -/
theorem finalKeyCheck (msg : String) (keysl : List String) (p2 : VDict)
    (out : Val)
    (h : (match firstUnknownKey p2 keysl with
          | some kx => (Except.error (msg ++ kx) : Except String Val)
          | none => Except.ok (.dict p2)) = .ok out) : out = .dict p2 := by
  split at h
  · exact Except.noConfusion h
  · have := by injection h
    exact this.symm

/-- `probeSanity` keeps the probe `key` field unchanged. -/
theorem probeSanity_key (configData : VDict) (allConfigs : List Val)
    (qV out : Val)
    (hok : probeSanity configData allConfigs qV = .ok out) :
    ∃ qm qm', qV = .dict qm ∧ out = .dict qm' ∧
      qm'.get? "key" = qm.get? "key" := by
  simp [probeSanity, okBind, errBind] at hok
  split at hok
  all_goals try exact Except.noConfusion hok
  rename_i qm
  iterate 20
    all_goals try (obtain ⟨ux, hux, hok⟩ := exBind_ok hok)
    all_goals try split at hok
    all_goals try exact Except.noConfusion hok
  all_goals
    (injection hok with hout
     first
       | exact ⟨qm, _, rfl, hout.symm, rfl⟩
       | exact ⟨qm, _, rfl, hout.symm, by rw [VDict.get?_set]; simp⟩)

/-- `configSanity` keeps the config `name` field unchanged. -/
theorem configSanity_name (configData : VDict) (allConfigs : List Val)
    (cV out : Val)
    (hok : configSanity configData allConfigs cV = .ok out) :
    ∃ cm cm', cV = .dict cm ∧ out = .dict cm' ∧
      cm'.get? "name" = cm.get? "name" := by
  simp [configSanity, okBind, errBind] at hok
  split at hok
  all_goals try exact Except.noConfusion hok
  rename_i cm
  iterate 20
    all_goals try (obtain ⟨ux, hux, hok⟩ := exBind_ok hok)
    all_goals try split at hok
    all_goals try exact Except.noConfusion hok
  all_goals
    (injection hok with hout
     first
       | exact ⟨cm, _, rfl, hout.symm, rfl⟩
       | exact ⟨cm, _, rfl, hout.symm, by rw [VDict.get?_set]; simp⟩)

/-- Shape of a successful `_sanity_check`: the returned document is the
input with `probes`/`configs` replaced by their sanitised versions and the
two tokens replaced by their sanitised values. -/
theorem sanityCheck_shape (env : EnvData) (configData : VDict) (now : Int)
    (st : VDict) (out : Val)
    (hok : sanityCheck env configData now (.dict st) = .ok out) :
    ∃ xs ys zs probesL' configsL' tokAg tokAc,
      st.getD "probes" .null = .list xs ∧
      st.getD "agents" .null = .list ys ∧
      st.getD "configs" .null = .list zs ∧
      xs.toList.mapM (probeSanity configData
        (xs.toList.filterMap (itemKeyOf "key") ++
         zs.toList.filterMap (itemKeyOf "name"))) = .ok probesL' ∧
      zs.toList.mapM (configSanity configData
        (xs.toList.filterMap (itemKeyOf "key") ++
         zs.toList.filterMap (itemKeyOf "name"))) = .ok configsL' ∧
      tokenSanity env.agentToken "agent_token" (st.getD "agent_token" .null)
        = .ok tokAg ∧
      tokenSanity env.agentcoreToken "agentcore_token"
        (st.getD "agentcore_token" .null) = .ok tokAc ∧
      out = .dict ((((st.set "probes" (.list (VList.ofList probesL'))).set
        "configs" (.list (VList.ofList configsL'))).set "agent_token"
        tokAg).set "agentcore_token" tokAc) := by
  simp [sanityCheck, okBind, errBind] at hok
  split at hok
  all_goals try exact Except.noConfusion hok
  rename_i xs hxs
  split at hok
  all_goals try exact Except.noConfusion hok
  rename_i ys hys
  split at hok
  all_goals try exact Except.noConfusion hok
  rename_i zs hzs
  obtain ⟨ud, hdup, hok⟩ := exBind_ok hok
  obtain ⟨probesL', hpl, hok⟩ := exBind_ok hok
  obtain ⟨uag, hag, hok⟩ := exBind_ok hok
  obtain ⟨configsL', hcl, hok⟩ := exBind_ok hok
  obtain ⟨tokAg, htg, hok⟩ := exBind_ok hok
  obtain ⟨tokAc, htc, hok⟩ := exBind_ok hok
  iterate 12
    all_goals try split at hok
    all_goals try exact Except.noConfusion hok
  all_goals
    (injection hok with hout
     exact ⟨xs, ys, zs, probesL', configsL', tokAg, tokAc, hxs, hys, hzs,
       hpl, hcl, htg, htc, hout.symm⟩)

theorem mapM_loop_eq {α β : Type} (f : α → Except String β) :
    ∀ (l : List α) (acc : List β),
    List.mapM.loop f l acc =
      (l.mapM f).bind (fun T => .ok (acc.reverse ++ T)) := by
  intro l
  induction l with
  | nil =>
    intro acc
    simp [List.mapM, List.mapM.loop, Except.bind, pure, Except.pure]
  | cons a as ih =>
    intro acc
    show (f a).bind (fun b => List.mapM.loop f as (b :: acc)) = _
    have hm : (a :: as).mapM f = (f a).bind (fun b => List.mapM.loop f as [b]) := rfl
    rw [hm]
    cases hfa : f a with
    | error e => simp [Except.bind]
    | ok b =>
      simp only [Except.bind]
      rw [ih (b :: acc), ih [b]]
      cases hmas : as.mapM f with
      | error e => simp [Except.bind]
      | ok T => simp [Except.bind]

theorem mapM_cons_eq {α β : Type} (f : α → Except String β) (a : α)
    (l : List α) :
    (a :: l).mapM f =
      (f a).bind (fun b => (l.mapM f).bind (fun T => .ok (b :: T))) := by
  have hm : (a :: l).mapM f = (f a).bind (fun b => List.mapM.loop f l [b]) := rfl
  rw [hm]
  cases hfa : f a with
  | error e => simp [Except.bind]
  | ok b =>
    simp only [Except.bind]
    rw [mapM_loop_eq]
    cases hml : l.mapM f with
    | error e => simp [Except.bind]
    | ok T => simp [Except.bind]

theorem mapM_nil_eq {α β : Type} (f : α → Except String β) :
    ([] : List α).mapM f = .ok [] := rfl

/-- Decomposition of a successful `mapM` over `l1 ++ a :: l2`. -/
theorem mapM_append_cons {α β : Type} (f : α → Except String β) :
    ∀ (l1 : List α) (a : α) (l2 : List α) (L : List β),
    (l1 ++ a :: l2).mapM f = .ok L →
    ∃ L1 b L2, f a = .ok b ∧ l1.mapM f = .ok L1 ∧ l2.mapM f = .ok L2 ∧
      L = L1 ++ b :: L2
  | [], a, l2, L, h => by
    rw [List.nil_append, mapM_cons_eq] at h
    obtain ⟨b, hb, h⟩ := exBind_ok h
    obtain ⟨T, hT, h⟩ := exBind_ok h
    have hL : b :: T = L := by injection h
    exact ⟨[], b, T, hb, rfl, hT, hL.symm⟩
  | x :: l1, a, l2, L, h => by
    rw [List.cons_append, mapM_cons_eq] at h
    obtain ⟨b0, hb0, h⟩ := exBind_ok h
    obtain ⟨T, hT, h⟩ := exBind_ok h
    have hL : b0 :: T = L := by injection h
    obtain ⟨L1, b, L2, hb, h1, h2, hTeq⟩ := mapM_append_cons f l1 a l2 T hT
    exact ⟨b0 :: L1, b, L2, hb, by rw [mapM_cons_eq, hb0, h1]; rfl, h2,
      by rw [← hL, hTeq]; rfl⟩

/-- Transfer a pointwise property through a successful `mapM`. -/
theorem mapM_forall {α β : Type} (f : α → Except String β) (P : β → Prop) :
    ∀ (l : List α) (L : List β), l.mapM f = .ok L →
    (∀ a ∈ l, ∀ b, f a = .ok b → P b) → ∀ x ∈ L, P x
  | [], L, h, _, x, hx => by
    rw [mapM_nil_eq] at h
    have : ([] : List β) = L := by injection h
    rw [← this] at hx
    simp at hx
  | a :: l, L, h, hP, x, hx => by
    rw [mapM_cons_eq] at h
    obtain ⟨b, hb, h⟩ := exBind_ok h
    obtain ⟨T, hT, h⟩ := exBind_ok h
    have hL : b :: T = L := by injection h
    rw [← hL] at hx
    rcases List.mem_cons.mp hx with rfl | hx
    · exact hP a (by simp) x hb
    · exact mapM_forall f P l T hT (fun a' ha' => hP a' (by simp [ha'])) x hx

theorem toList_ofList : ∀ (l : List Val), (VList.ofList l).toList = l
  | [] => rfl
  | v :: t => by
    show v :: (VList.ofList t).toList = v :: t
    rw [toList_ofList t]

theorem getD_list_get? (d : VDict) (k : String) (xs : VList)
    (h : d.getD k .null = .list xs) : d.get? k = some (.list xs) := by
  cases hg : d.get? k with
  | some v => simp only [VDict.getD, hg, Option.getD] at h; rw [h]
  | none => simp [VDict.getD, hg] at h

theorem getD_dict_get? (d : VDict) (k : String) (m : VDict)
    (h : d.getD k (.dict .nil) = .dict m) :
    d.get? k = some (.dict m) ∨ (d.get? k = none ∧ m = .nil) := by
  cases hg : d.get? k with
  | some v =>
    simp only [VDict.getD, hg, Option.getD] at h
    rw [h]
    exact Or.inl rfl
  | none =>
    simp only [VDict.getD, hg, Option.getD] at h
    injection h with h
    exact Or.inr ⟨rfl, h.symm⟩

/-- Keys other than the four replaced by `_sanity_check` read through to the
original document. -/
theorem get?_set4 (st0 : VDict) (P C A B : Val) (k : String)
    (h1 : k ≠ "probes") (h2 : k ≠ "configs") (h3 : k ≠ "agent_token")
    (h4 : k ≠ "agentcore_token") :
    ((((st0.set "probes" P).set "configs" C).set "agent_token" A).set
      "agentcore_token" B).get? k = st0.get? k := by
  rw [VDict.get?_set, if_neg (by simpa using Ne.symm h4)]
  rw [VDict.get?_set, if_neg (by simpa using Ne.symm h3)]
  rw [VDict.get?_set, if_neg (by simpa using Ne.symm h2)]
  rw [VDict.get?_set, if_neg (by simpa using Ne.symm h1)]

theorem getD_set4 (st0 : VDict) (P C A B : Val) (k : String) (dflt : Val)
    (h1 : k ≠ "probes") (h2 : k ≠ "configs") (h3 : k ≠ "agent_token")
    (h4 : k ≠ "agentcore_token") :
    ((((st0.set "probes" P).set "configs" C).set "agent_token" A).set
      "agentcore_token" B).getD k dflt = st0.getD k dflt := by
  simp only [VDict.getD]
  rw [get?_set4 st0 P C A B k h1 h2 h3 h4]

/-- Full trace of a successful `State.set` on a dict document: exposes the
sanitised lists, the reconciliation folds and the final services/config
pair. -/
theorem set_shape (allow : Bool) (now : Int) (s : AppState) (st0 : VDict)
    (s' : AppState)
    (hset : State.set allow now s (.dict st0) = .ok s') :
    ∃ xs ys zs probesL' configsL' tokAg tokAc agentsM acc1 services3 pr
      ra u zidv stav,
      st0.getD "probes" .null = .list xs ∧
      st0.getD "agents" .null = .list ys ∧
      st0.getD "configs" .null = .list zs ∧
      xs.toList.mapM (probeSanity s.config
        (xs.toList.filterMap (itemKeyOf "key") ++
         zs.toList.filterMap (itemKeyOf "name"))) = .ok probesL' ∧
      zs.toList.mapM (configSanity s.config
        (xs.toList.filterMap (itemKeyOf "key") ++
         zs.toList.filterMap (itemKeyOf "name"))) = .ok configsL' ∧
      tokenSanity s.env.agentToken "agent_token"
        (st0.getD "agent_token" .null) = .ok tokAg ∧
      tokenSanity s.env.agentcoreToken "agentcore_token"
        (st0.getD "agentcore_token" .null) = .ok tokAc ∧
      buildAgentsMap ys.toList = .ok agentsM ∧
      probesL'.foldlM (probeStep s.template)
        { services := removeDisabledServices s.services probesL',
          config := s.config, hasSelenium := false } = .ok acc1 ∧
      agentKeys.foldlM (agentStep s.template agentsM)
        (if acc1.hasSelenium = true then acc1.services
         else acc1.services.del "selenium") = .ok services3 ∧
      configsL'.foldlM (fun (pr : VDict × List String) cV => do
          let r ← namedConfigStep pr.1 cV
          Except.ok (r.1, r.2 :: pr.2)) (acc1.config, []) = .ok pr ∧
      st0.getD "ra" (.dict .nil) = .dict ra ∧
      pyAsInt? (ra.getD "until" (.int 0)) = some u ∧
      st0.get? "agentcore_zone_id" = some zidv ∧
      st0.get? "socat_target_addr" = some stav ∧
      s'.template = s.template ∧
      s'.env = { agentcoreToken := tokAc, agentToken := tokAg,
                 zoneId := zidv, socatTargetAddr := stav } ∧
      ((((allow = true ∧ truthy (ra.getD "enabled" (.bool false)) = true) ∧
          55 < u - now) ∧ u ≤ MAX_RA + now) ∧
        (∃ iso, isoUTCo u = some iso ∧
          s'.services =
            (if truthy (st0.getD "socat_target_addr" .null) = true then
              services3.set "socat" _SOCAT
             else services3.del "socat").set "ra" _RA ∧
          s'.config =
            (((likeNames acc1.config).filter
                (fun n => !decide (n ∈ pr.2))).foldl
              (fun a n => a.del n) pr.1).set "__ra_until__" (.str iso)) ∨
       ¬(((allow = true ∧ truthy (ra.getD "enabled" (.bool false)) = true) ∧
          55 < u - now) ∧ u ≤ MAX_RA + now) ∧
        s'.services =
          (if truthy (st0.getD "socat_target_addr" .null) = true then
            services3.set "socat" _SOCAT
           else services3.del "socat").del "ra" ∧
        s'.config =
          ((likeNames acc1.config).filter
              (fun n => !decide (n ∈ pr.2))).foldl
            (fun a n => a.del n) pr.1) := by
  simp [State.set, okBind, errBind] at hset
  obtain ⟨stateV, hsan, hset⟩ := exBind_ok hset
  obtain ⟨xs, ys, zs, probesL', configsL', tokAg, tokAc, hxs, hys, hzs,
    hpl, hcl, htg, htc, hout⟩ :=
    sanityCheck_shape s.env s.config now st0 stateV hsan
  subst hout
  obtain ⟨st, hst, hset⟩ := exBind_ok hset
  have hst' : (((st0.set "probes"
      (Val.list (VList.ofList probesL'))).set "configs"
      (Val.list (VList.ofList configsL'))).set "agent_token" tokAg).set
      "agentcore_token" tokAc = st := by injection hst
  subst hst'
  have hgp : ((((st0.set "probes"
      (Val.list (VList.ofList probesL'))).set "configs"
      (Val.list (VList.ofList configsL'))).set "agent_token" tokAg).set
      "agentcore_token" tokAc).get? "probes" =
      some (.list (VList.ofList probesL')) := by
    rw [VDict.get?_set, if_neg (by decide), VDict.get?_set,
      if_neg (by decide), VDict.get?_set, if_neg (by decide),
      VDict.get?_set, if_pos (by decide)]
  have hgc : ((((st0.set "probes"
      (Val.list (VList.ofList probesL'))).set "configs"
      (Val.list (VList.ofList configsL'))).set "agent_token" tokAg).set
      "agentcore_token" tokAc).get? "configs" =
      some (.list (VList.ofList configsL')) := by
    rw [VDict.get?_set, if_neg (by decide), VDict.get?_set,
      if_neg (by decide), VDict.get?_set, if_pos (by decide)]
  have hga : ((((st0.set "probes"
      (Val.list (VList.ofList probesL'))).set "configs"
      (Val.list (VList.ofList configsL'))).set "agent_token" tokAg).set
      "agentcore_token" tokAc).get? "agents" = st0.get? "agents" :=
    get?_set4 st0 _ _ _ _ "agents" (by decide) (by decide) (by decide)
      (by decide)
  obtain ⟨probesV, hpv, hset⟩ := exBind_ok hset
  rw [VDict.index, hgp] at hpv
  have hpv' : Val.list (VList.ofList probesL') = probesV := by injection hpv
  subst hpv'
  split at hset
  rename_i xs1 heqx
  have hxs1 : VList.ofList probesL' = xs1 := by injection heqx
  subst hxs1
  obtain ⟨agentsV, hav, hset⟩ := exBind_ok hset
  rw [VDict.index, hga, getD_list_get? st0 "agents" ys hys] at hav
  have hav' : Val.list ys = agentsV := by injection hav
  subst hav'
  split at hset
  rename_i ys1 heqy
  have hys1 : ys = ys1 := by injection heqy
  subst hys1
  obtain ⟨agentsM, ham, hset⟩ := exBind_ok hset
  obtain ⟨configsV, hcv, hset⟩ := exBind_ok hset
  rw [VDict.index, hgc] at hcv
  have hcv' : Val.list (VList.ofList configsL') = configsV := by injection hcv
  subst hcv'
  split at hset
  rename_i zs1 heqz
  have hzs1 : VList.ofList configsL' = zs1 := by injection heqz
  subst hzs1
  rw [toList_ofList, toList_ofList] at hset
  obtain ⟨acc1, hacc, hset⟩ := exBind_ok hset
  obtain ⟨services3, hsv3, hset⟩ := exBind_ok hset
  obtain ⟨pr, hpr, hset⟩ := exBind_ok hset
  obtain ⟨ra, hra, hset⟩ := exBind_ok hset
  rw [show ((((st0.set "probes"
      (Val.list (VList.ofList probesL'))).set "configs"
      (Val.list (VList.ofList configsL'))).set "agent_token" tokAg).set
      "agentcore_token" tokAc).getD "ra" (.dict .nil) =
      st0.getD "ra" (.dict .nil) from
    getD_set4 st0 _ _ _ _ "ra" (.dict .nil) (by decide) (by decide)
      (by decide) (by decide)] at hra
  have hgr : st0.getD "ra" (.dict .nil) = .dict ra := by
    cases hgr0 : st0.getD "ra" (.dict .nil) with
    | dict m =>
      rw [hgr0] at hra
      have : m = ra := by injection hra
      rw [this]
    | null => rw [hgr0] at hra; exact Except.noConfusion hra
    | bool b => rw [hgr0] at hra; exact Except.noConfusion hra
    | int n => rw [hgr0] at hra; exact Except.noConfusion hra
    | str a => rw [hgr0] at hra; exact Except.noConfusion hra
    | list l => rw [hgr0] at hra; exact Except.noConfusion hra
  split at hset
  all_goals try exact Except.noConfusion hset
  rename_i u hequ
  have hgsta : ((((st0.set "probes"
      (Val.list (VList.ofList probesL'))).set "configs"
      (Val.list (VList.ofList configsL'))).set "agent_token" tokAg).set
      "agentcore_token" tokAc).getD "socat_target_addr" Val.null =
      st0.getD "socat_target_addr" Val.null :=
    getD_set4 st0 _ _ _ _ "socat_target_addr" Val.null (by decide)
      (by decide) (by decide) (by decide)
  have hgtc : ((((st0.set "probes"
      (Val.list (VList.ofList probesL'))).set "configs"
      (Val.list (VList.ofList configsL'))).set "agent_token" tokAg).set
      "agentcore_token" tokAc).get? "agentcore_token" = some tokAc := by
    rw [VDict.get?_set, if_pos (by decide)]
  have hgtg : ((((st0.set "probes"
      (Val.list (VList.ofList probesL'))).set "configs"
      (Val.list (VList.ofList configsL'))).set "agent_token" tokAg).set
      "agentcore_token" tokAc).get? "agent_token" = some tokAg := by
    rw [VDict.get?_set, if_neg (by decide), VDict.get?_set,
      if_pos (by decide)]
  have hgzi : ((((st0.set "probes"
      (Val.list (VList.ofList probesL'))).set "configs"
      (Val.list (VList.ofList configsL'))).set "agent_token" tokAg).set
      "agentcore_token" tokAc).get? "agentcore_zone_id" =
      st0.get? "agentcore_zone_id" :=
    get?_set4 st0 _ _ _ _ "agentcore_zone_id" (by decide) (by decide)
      (by decide) (by decide)
  have hgst : ((((st0.set "probes"
      (Val.list (VList.ofList probesL'))).set "configs"
      (Val.list (VList.ofList configsL'))).set "agent_token" tokAg).set
      "agentcore_token" tokAc).get? "socat_target_addr" =
      st0.get? "socat_target_addr" :=
    get?_set4 st0 _ _ _ _ "socat_target_addr" (by decide) (by decide)
      (by decide) (by decide)
  split at hset
  · rename_i hcond
    split at hset
    all_goals try exact Except.noConfusion hset
    rename_i iso heqiso
    obtain ⟨tokAc1, htc1, hset⟩ := exBind_ok hset
    rw [VDict.index, hgtc] at htc1
    have htc1' : tokAc = tokAc1 := by injection htc1
    subst htc1'
    obtain ⟨tokAg1, htg1, hset⟩ := exBind_ok hset
    rw [VDict.index, hgtg] at htg1
    have htg1' : tokAg = tokAg1 := by injection htg1
    subst htg1'
    obtain ⟨zidv, hzi, hset⟩ := exBind_ok hset
    rw [VDict.index, hgzi] at hzi
    obtain ⟨stav, hsta, hset⟩ := exBind_ok hset
    rw [VDict.index, hgst] at hsta
    cases hzi0 : st0.get? "agentcore_zone_id" with
    | none => rw [hzi0] at hzi; exact Except.noConfusion hzi
    | some zv =>
      rw [hzi0] at hzi
      have hzv : zv = zidv := by injection hzi
      subst hzv
      cases hst0 : st0.get? "socat_target_addr" with
      | none => rw [hst0] at hsta; exact Except.noConfusion hsta
      | some sv =>
        rw [hst0] at hsta
        have hsv : sv = stav := by injection hsta
        subst hsv
        have hs' := by injection hset
        refine ⟨xs, ys, zs, probesL', configsL', tokAg, tokAc, agentsM,
          acc1, services3, pr, ra, u, zv, sv, hxs, hys, hzs, hpl, hcl,
          htg, htc, ham, hacc, hsv3, hpr, hgr, hequ, rfl, rfl, ?_, ?_,
          Or.inl ⟨hcond, iso, heqiso, ?_, ?_⟩⟩
        · rw [← hs']
        · rw [← hs']
        · rw [← hs']
          rw [hgsta]
        · rw [← hs']
  · rename_i hcond
    obtain ⟨tokAc1, htc1, hset⟩ := exBind_ok hset
    rw [VDict.index, hgtc] at htc1
    have htc1' : tokAc = tokAc1 := by injection htc1
    subst htc1'
    obtain ⟨tokAg1, htg1, hset⟩ := exBind_ok hset
    rw [VDict.index, hgtg] at htg1
    have htg1' : tokAg = tokAg1 := by injection htg1
    subst htg1'
    obtain ⟨zidv, hzi, hset⟩ := exBind_ok hset
    rw [VDict.index, hgzi] at hzi
    obtain ⟨stav, hsta, hset⟩ := exBind_ok hset
    rw [VDict.index, hgst] at hsta
    cases hzi0 : st0.get? "agentcore_zone_id" with
    | none => rw [hzi0] at hzi; exact Except.noConfusion hzi
    | some zv =>
      rw [hzi0] at hzi
      have hzv : zv = zidv := by injection hzi
      subst hzv
      cases hst0 : st0.get? "socat_target_addr" with
      | none => rw [hst0] at hsta; exact Except.noConfusion hsta
      | some sv =>
        rw [hst0] at hsta
        have hsv : sv = stav := by injection hsta
        subst hsv
        have hs' := by injection hset
        refine ⟨xs, ys, zs, probesL', configsL', tokAg, tokAc, agentsM,
          acc1, services3, pr, ra, u, zv, sv, hxs, hys, hzs, hpl, hcl,
          htg, htc, ham, hacc, hsv3, hpr, hgr, hequ, rfl, rfl, ?_, ?_,
          Or.inr ⟨hcond, ?_, ?_⟩⟩
        · rw [← hs']
        · rw [← hs']
        · rw [← hs']
          rw [hgsta]
        · rw [← hs']
  all_goals
    (rename_i hcontra
     exact (hcontra _ rfl).elim)

theorem foldlM_nil_eq {α β : Type} (f : β → α → Except String β) (b : β) :
    ([] : List α).foldlM f b = .ok b := rfl

theorem foldlM_cons_eq {α β : Type} (f : β → α → Except String β) (a : α)
    (l : List α) (b : β) :
    (a :: l).foldlM f b = (f b a).bind (fun b1 => l.foldlM f b1) := by
  cases hfa : f b a with
  | error e => show (f b a) >>= _ = _; rw [hfa]; rfl
  | ok b1 => show (f b a) >>= _ = _; rw [hfa]; rfl

theorem foldlM_append_cons {α β : Type} (f : β → α → Except String β) :
    ∀ (l1 : List α) (a : α) (l2 : List α) (b0 bend : β),
    (l1 ++ a :: l2).foldlM f b0 = .ok bend →
    ∃ bmid bmid2, l1.foldlM f b0 = .ok bmid ∧ f bmid a = .ok bmid2 ∧
      l2.foldlM f bmid2 = .ok bend
  | [], a, l2, b0, bend, h => by
    rw [List.nil_append, foldlM_cons_eq] at h
    obtain ⟨b1, hb1, h⟩ := exBind_ok h
    exact ⟨b0, b1, rfl, hb1, h⟩
  | x :: l1, a, l2, b0, bend, h => by
    rw [List.cons_append, foldlM_cons_eq] at h
    obtain ⟨b1, hb1, h⟩ := exBind_ok h
    obtain ⟨bmid, bmid2, h1, h2, h3⟩ := foldlM_append_cons f l1 a l2 b1 bend h
    exact ⟨bmid, bmid2, by rw [foldlM_cons_eq, hb1]; exact h1, h2, h3⟩

theorem foldlM_preserve {α β : Type} (f : β → α → Except String β)
    (P : β → Prop)
    (hstep : ∀ b a b', P b → f b a = .ok b' → P b') :
    ∀ (l : List α) (b b' : β), l.foldlM f b = .ok b' → P b → P b' := by
  intro l
  induction l with
  | nil =>
    intro b b' h hp
    rw [foldlM_nil_eq] at h
    have hb : b = b' := by injection h
    rw [← hb]
    exact hp
  | cons a t ih =>
    intro b b' h hp
    rw [foldlM_cons_eq] at h
    obtain ⟨b1, hb1, h⟩ := exBind_ok h
    exact ih b1 b' h (hstep b a b1 hp hb1)

theorem foldl_preserve {α β : Type} (f : β → α → β) (P : β → Prop)
    (hstep : ∀ b a, P b → P (f b a)) :
    ∀ (l : List α) (b : β), P b → P (l.foldl f b) := by
  intro l
  induction l with
  | nil => intro b h; exact h
  | cons a t ih =>
    intro b h
    rw [List.foldl_cons]
    exact ih (f b a) (hstep b a h)

set_option maxHeartbeats 1600000 in
/-- `probeStep` touches the config only at the probe own key. -/
theorem probeStep_other (t : VDict) (acc : SetAcc) (qV : Val)
    (acc' : SetAcc) (k : String)
    (h : probeStep t acc qV = .ok acc')
    (hne : ∀ qm, qV = .dict qm → qm.get? "key" ≠ some (.str k)) :
    acc'.config.get? k = acc.config.get? k := by
  simp [probeStep, okBind, errBind, asDict, VDict.index] at h
  split at h
  all_goals try (try simp only [errBind] at h
                 exact Except.noConfusion h)
  rename_i m
  simp only [okBind] at h
  obtain ⟨keyV, hkv, h⟩ := exBind_ok h
  split at hkv
  all_goals try exact Except.noConfusion hkv
  rename_i v heqv
  have hkeyV : v = keyV := by injection hkv
  subst hkeyV
  split at h
  all_goals try (try simp only [errBind] at h
                 exact Except.noConfusion h)
  rename_i s
  have hkne : s ≠ k := fun he => hne m rfl (he ▸ heqv)
  split at h
  · split at h
    · split at h
      all_goals try (try simp only [errBind] at h
                     exact Except.noConfusion h)
      injection h with h2
      rw [← h2]
      rw [VDict.get?_set, if_neg (by simpa using hkne)]
    · injection h with h2
      rw [← h2]
      rw [VDict.get?_set, if_neg (by simpa using hkne)]
  · obtain ⟨composeV, hc1, h⟩ := exBind_ok h
    obtain ⟨compose, hc2, h⟩ := exBind_ok h
    iterate 3
      all_goals try split at h
    all_goals try (try simp only [errBind] at h
                   exact Except.noConfusion h)
    all_goals try (obtain ⟨sm, hsm, h⟩ := exBind_ok h)
    all_goals try (obtain ⟨img, himg, h⟩ := exBind_ok h)
    iterate 2
      all_goals try split at h
      all_goals try (try simp only [errBind] at h
                     exact Except.noConfusion h)
    all_goals
      (injection h with h2
       rw [← h2]
       first
         | (split_ifs <;>
             simp [VDict.get?_set, VDict.get?_del_ne, hkne, Ne.symm hkne])
         | simp [VDict.get?_set, VDict.get?_del_ne, hkne, Ne.symm hkne])

set_option maxHeartbeats 1600000 in
/-- `probeStep` on an enabled probe with a (non-use) config stores the
assets-plus-config entry at the probe key. -/
theorem probeStep_ours (t : VDict) (acc : SetAcc) (pm2 em : VDict)
    (k : String) (cfgv : Val) (acc' : SetAcc)
    (hkey : pm2.get? "key" = some (.str k))
    (henb : pm2.getD "enabled" (.bool true) = .bool true)
    (huse : pm2.getD "use" .null = .null)
    (hcfg : pm2.getD "config" .null = cfgv)
    (htr : truthy cfgv = true)
    (hem : acc.config.getD k (.dict .nil) = .dict em)
    (h : probeStep t acc (.dict pm2) = .ok acc') :
    acc'.config.get? k = some (.dict
      ((if truthy (em.getD "assets" .null) = true then
          VDict.ofList [("assets", em.getD "assets" .null)]
        else VDict.nil).set "config" cfgv)) := by
  simp [probeStep, okBind, errBind, asDict, VDict.index, hkey, henb, huse,
    hcfg, htr, (show truthy (Val.bool true) = true from rfl),
    (show truthy Val.null = false from rfl)] at h
  have hselcfg : (if k = "selenium" then
      (if acc.services.hasKey "selenium" = true then
        ({ services := acc.services, config := acc.config,
           hasSelenium := true } : SetAcc)
       else { services := acc.services.set "selenium" _SELENIUM,
              config := acc.config, hasSelenium := true })
     else acc).config = acc.config := by
    split
    · split <;> rfl
    · rfl
  simp only [hselcfg, hem] at h
  obtain ⟨composeV, hc1, h⟩ := exBind_ok h
  iterate 9
    all_goals try (obtain ⟨xx, hxx, h⟩ := exBind_ok h)
    all_goals try split at h
  all_goals
    (injection h with h2
     rw [← h2]
     rw [VDict.get?_set, if_pos (by simp)]
     try rw [if_pos (by assumption)]
     try rw [if_neg (by assumption)])

theorem probes_fold_other (t : VDict) (k : String) :
    ∀ (L : List Val) (acc acc' : SetAcc),
    (∀ qV ∈ L, ∀ qm, qV = .dict qm → qm.get? "key" ≠ some (.str k)) →
    L.foldlM (probeStep t) acc = .ok acc' →
    acc'.config.get? k = acc.config.get? k
  | [], acc, acc', _, h => by
    rw [foldlM_nil_eq] at h
    have hb : acc = acc' := by injection h
    rw [← hb]
  | qV :: L, acc, acc', hne, h => by
    rw [foldlM_cons_eq] at h
    obtain ⟨acc1, h1, h⟩ := exBind_ok h
    have hstep := probeStep_other t acc qV acc1 k h1
      (fun qm hq => hne qV (by simp) qm hq)
    have hrest := probes_fold_other t k L acc1 acc'
      (fun qV' hq' => hne qV' (by simp [hq'])) h
    rw [hrest, hstep]

theorem namedConfigStep_other (acc : VDict) (cV : Val)
    (out : VDict × String) (k : String)
    (h : namedConfigStep acc cV = .ok out)
    (hne : ∀ cm, cV = .dict cm → cm.get? "name" ≠ some (.str k)) :
    out.1.get? k = acc.get? k := by
  simp [namedConfigStep, okBind, errBind, asDict, VDict.index] at h
  split at h
  all_goals try (try simp only [errBind] at h
                 exact Except.noConfusion h)
  rename_i cm
  simp only [okBind] at h
  obtain ⟨nameV, hnv, h⟩ := exBind_ok h
  split at hnv
  all_goals try exact Except.noConfusion hnv
  rename_i v heqv
  have hnameV : v = nameV := by injection hnv
  subst hnameV
  split at h
  all_goals try (try simp only [errBind] at h
                 exact Except.noConfusion h)
  rename_i n
  have hkne : n ≠ k := fun he => hne cm rfl (he ▸ heqv)
  iterate 5
    all_goals try (obtain ⟨xx, hxx, h⟩ := exBind_ok h)
    all_goals try split at h
  all_goals try (try simp only [errBind] at h
                 exact Except.noConfusion h)
  all_goals
    (injection h with h2
     rw [← h2]
     rw [VDict.get?_set, if_neg (by simpa using hkne)])

theorem configs_fold_other (k : String) :
    ∀ (L : List Val) (pr0 pr' : VDict × List String),
    (∀ cV ∈ L, ∀ cm, cV = .dict cm → cm.get? "name" ≠ some (.str k)) →
    L.foldlM (fun (pr : VDict × List String) cV => do
        let r ← namedConfigStep pr.1 cV
        Except.ok (r.1, r.2 :: pr.2)) pr0 = .ok pr' →
    pr'.1.get? k = pr0.1.get? k
  | [], pr0, pr', _, h => by
    rw [foldlM_nil_eq] at h
    have hb : pr0 = pr' := by injection h
    rw [← hb]
  | cV :: L, pr0, pr', hne, h => by
    rw [foldlM_cons_eq] at h
    obtain ⟨pr1, h1, h⟩ := exBind_ok h
    obtain ⟨r, hr, h1⟩ := exBind_ok h1
    have hpr1 : (r.1, r.2 :: pr0.2) = pr1 := by injection h1
    have hstep := namedConfigStep_other pr0.1 cV r k hr
      (fun cm hq => hne cV (by simp) cm hq)
    have hrest := configs_fold_other k L pr1 pr'
      (fun cV' hq' => hne cV' (by simp [hq'])) h
    rw [hrest, ← hpr1]
    exact hstep

set_option maxHeartbeats 1600000 in
/-- `probeStep` keeps the config keys unique. -/
theorem probeStep_config_nodup (t : VDict) (acc : SetAcc) (qV : Val)
    (acc' : SetAcc) (h : probeStep t acc qV = .ok acc')
    (hnd : acc.config.keys.Nodup) : acc'.config.keys.Nodup := by
  simp [probeStep, okBind, errBind, asDict, VDict.index] at h
  split at h
  all_goals try (try simp only [errBind] at h
                 exact Except.noConfusion h)
  rename_i m
  simp only [okBind] at h
  obtain ⟨keyV, hkv, h⟩ := exBind_ok h
  split at h
  all_goals try (try simp only [errBind] at h
                 exact Except.noConfusion h)
  rename_i s
  iterate 9
    all_goals try (obtain ⟨xx, hxx, h⟩ := exBind_ok h)
    all_goals try split at h
  all_goals try (try simp only [errBind] at h
                 exact Except.noConfusion h)
  all_goals
    (injection h with h2
     rw [← h2]
     try split_ifs
     all_goals
       first
         | exact nodup_keys_set _ _ _ hnd
         | exact nodup_keys_del _ _ (nodup_keys_set _ _ _ hnd))

theorem probes_fold_config_nodup (t : VDict) (L : List Val)
    (acc acc' : SetAcc) (h : L.foldlM (probeStep t) acc = .ok acc')
    (hnd : acc.config.keys.Nodup) : acc'.config.keys.Nodup :=
  foldlM_preserve (probeStep t) (fun b => b.config.keys.Nodup)
    (fun b a b' hb hf => probeStep_config_nodup t b a b' hf hb)
    L acc acc' h hnd

theorem getD_truthy_get? (d : VDict) (k : String) (v : Val)
    (h : d.getD k .null = v) (ht : truthy v = true) :
    d.get? k = some v := by
  cases hg : d.get? k with
  | some w => simp only [VDict.getD, hg, Option.getD] at h; rw [h]
  | none =>
    simp only [VDict.getD, hg, Option.getD] at h
    rw [← h] at ht
    simp [truthy] at ht

/-- The config entry built by the enabled-probe branch of `probeStep` never
carries a `like` key. -/
theorem entry_no_like (A cv : Val) :
    ((if truthy A = true then VDict.ofList [("assets", A)]
      else VDict.nil).set "config" cv).get? "like" = none := by
  split <;> rfl

/-- The config entry built by the enabled-probe branch of `probeStep` holds
the probe's config under `config`. -/
theorem entry_get_config (A cv : Val) :
    ((if truthy A = true then VDict.ofList [("assets", A)]
      else VDict.nil).set "config" cv).get? "config" = some cv := by
  split <;> rfl

/-- A dict reached by `valAt` along a nonempty path is not empty. -/
theorem valAt_dict_ne_nil (m : VDict) (p : List PathElem) (sk : String)
    (x : Val) (h : valAt (.dict m) (p ++ [.field sk]) = some x) :
    m.isNil = false := by
  cases m with
  | nil => rw [valAt_dict_nil_append] at h; exact Option.noConfusion h
  | cons k v t => rfl

/-- `_revert_secrets` maps a non-empty dict to a non-empty (hence truthy)
dict. -/
theorem revertD_truthy (cfg : VDict) (origV : Val) (cfg' : VDict)
    (hnn : cfg.isNil = false)
    (hrev : revertSecretsD cfg origV = .ok cfg') :
    truthy (.dict cfg') = true := by
  cases cfg with
  | nil => exact absurd hnn (by decide)
  | cons k v t =>
    obtain ⟨v0, t', hshape, _⟩ := revertD_cons_shape k v t origV cfg' hrev
    rw [hshape]
    rfl

/-- Common pipeline fact for the secret-restore and asset claims: a
successful `State.set` runs each incoming probe through `probeSanity`,
feeds the result to `probeStep` on an accumulator that still holds the
probe's current config entry, and — provided the entry written by that step
has no `like` key — copies that entry unchanged into the final
configurations manifest. -/
theorem setProbeEntry (allow : Bool) (now : Int) (s : AppState)
    (st0 : VDict) (s' : AppState) (pre post : List Val) (pm em : VDict)
    (k : String)
    (hset : State.set allow now s (.dict st0) = .ok s')
    (hnodup : s.config.keys.Nodup)
    (hprobes : st0.getD "probes" .null =
      .list (VList.ofList (pre ++ .dict pm :: post)))
    (hothers : ∀ qV ∈ pre ++ post, ∀ qm, qV = .dict qm →
      qm.get? "key" ≠ some (.str k))
    (hkey : pm.get? "key" = some (.str k))
    (hem : s.config.getD k (.dict .nil) = .dict em)
    (hnames : ∀ zsl, st0.getD "configs" .null = .list zsl →
      ∀ cV ∈ zsl.toList, ∀ cm, cV = .dict cm →
        cm.get? "name" ≠ some (.str k))
    (hra : k ≠ "__ra_until__") :
    ∃ pmOut accA accB,
      (∃ A, probeSanity s.config A (.dict pm) = .ok pmOut) ∧
      accA.config.getD k (.dict .nil) = .dict em ∧
      probeStep s.template accA pmOut = .ok accB ∧
      (∀ em', accB.config.get? k = some (.dict em') →
        em'.get? "like" = none → s'.config.get? k = some (.dict em')) := by
  obtain ⟨xs, ys, zs, probesL', configsL', tokAg, tokAc, agentsM, acc1,
    services3, pr, ra, u, zidv, stav, H1, H2, H3, H4, H5, H6, H7, H8, H9,
    H10, H11, H12, H13, H14, H15, H16, H17, H18⟩ :=
    set_shape allow now s st0 s' hset
  rw [hprobes] at H1
  have hxs : VList.ofList (pre ++ .dict pm :: post) = xs := by injection H1
  subst hxs
  simp only [toList_ofList] at H4 H5
  obtain ⟨L1, pmOut, L2, hmid, hL1, hL2, hPL⟩ :=
    mapM_append_cons _ pre (.dict pm) post probesL' H4
  subst hPL
  have hL1ne : ∀ qV ∈ L1, ∀ qm, qV = .dict qm →
      qm.get? "key" ≠ some (.str k) :=
    mapM_forall _ _ pre L1 hL1 (by
      intro a ha bq hb qm hqm hk2
      obtain ⟨am, am', haq, hbq, hkeq⟩ := probeSanity_key _ _ a bq hb
      rw [hbq] at hqm
      have he : am' = qm := by injection hqm
      subst he
      rw [hkeq] at hk2
      exact hothers a (List.mem_append.mpr (Or.inl ha)) am haq hk2)
  have hL2ne : ∀ qV ∈ L2, ∀ qm, qV = .dict qm →
      qm.get? "key" ≠ some (.str k) :=
    mapM_forall _ _ post L2 hL2 (by
      intro a ha bq hb qm hqm hk2
      obtain ⟨am, am', haq, hbq, hkeq⟩ := probeSanity_key _ _ a bq hb
      rw [hbq] at hqm
      have he : am' = qm := by injection hqm
      subst he
      rw [hkeq] at hk2
      exact hothers a (List.mem_append.mpr (Or.inr ha)) am haq hk2)
  obtain ⟨accA, accB, hfold1, hstep, hfold2⟩ :=
    foldlM_append_cons (probeStep s.template) L1 pmOut L2 _ acc1 H9
  have hpreEq := probes_fold_other s.template k L1 _ accA hL1ne hfold1
  have hemA : accA.config.getD k (.dict .nil) = .dict em := by
    rw [VDict.getD_eq, hpreEq]
    exact hem
  refine ⟨pmOut, accA, accB, ⟨_, hmid⟩, hemA, hstep, ?_⟩
  intro em' hB hlike
  have hpostEq := probes_fold_other s.template k L2 accB acc1 hL2ne hfold2
  have hacc1 : acc1.config.get? k = some (.dict em') := by
    rw [hpostEq]; exact hB
  have hnodup1 : acc1.config.keys.Nodup :=
    probes_fold_config_nodup s.template (L1 ++ pmOut :: L2) _ acc1 H9 hnodup
  have hklike : k ∉ likeNames acc1.config := by
    intro hmem
    obtain ⟨m, l, hg, hlk, _⟩ := likeNames_mem acc1.config hnodup1 k hmem
    rw [hacc1] at hg
    have h1 : Val.dict em' = Val.dict m := by injection hg
    have h2 : em' = m := by injection h1
    rw [← h2, hlike] at hlk
    exact Option.noConfusion hlk
  have hnamesL : ∀ cV ∈ configsL', ∀ cm, cV = .dict cm →
      cm.get? "name" ≠ some (.str k) :=
    mapM_forall _ _ zs.toList configsL' H5 (by
      intro a ha bq hb cm hqm hk2
      obtain ⟨am, am', haq, hbq, hkeq⟩ := configSanity_name _ _ a bq hb
      rw [hbq] at hqm
      have he : am' = cm := by injection hqm
      subst he
      rw [hkeq] at hk2
      exact hnames zs H3 a ha am haq hk2)
  have hcfgEq : pr.1.get? k = acc1.config.get? k :=
    configs_fold_other k configsL' (acc1.config, []) pr hnamesL H11
  have hdel : (((likeNames acc1.config).filter
      (fun n => !decide (n ∈ pr.2))).foldl
        (fun a n => a.del n) pr.1).get? k = pr.1.get? k :=
    get?_foldl_del _ k (by
      intro n hn he
      subst he
      exact hklike (List.mem_of_mem_filter hn)) pr.1
  rcases H18 with ⟨hcond, iso, hiso, hserv, hconf⟩ | ⟨hcond, hserv, hconf⟩
  · rw [hconf, VDict.get?_set, if_neg (by simpa using Ne.symm hra), hdel,
      hcfgEq]
    exact hacc1
  · rw [hconf, hdel, hcfgEq]
    exact hacc1

/-- A successful `State.set` restores, at every path that `_revert_secrets`
walks, a truthy stored secret in the written config entry of the targeted
probe. -/
theorem setSecretRestore (allow : Bool) (now : Int) (s : AppState)
    (st0 : VDict) (s' : AppState) (pre post : List Val)
    (pm cfg em : VDict) (k : String) (p : List PathElem) (sk : String)
    (b : Bool) (o : Val)
    (hset : State.set allow now s (.dict st0) = .ok s')
    (hnodup : s.config.keys.Nodup)
    (hprobes : st0.getD "probes" .null =
      .list (VList.ofList (pre ++ .dict pm :: post)))
    (hothers : ∀ qV ∈ pre ++ post, ∀ qm, qV = .dict qm →
      qm.get? "key" ≠ some (.str k))
    (hkey : pm.get? "key" = some (.str k))
    (henb : pm.getD "enabled" (.bool true) = .bool true)
    (hcfg : pm.get? "config" = some (.dict cfg))
    (hem : s.config.getD k (.dict .nil) = .dict em)
    (hnames : ∀ zsl, st0.getD "configs" .null = .list zsl →
      ∀ cV ∈ zsl.toList, ∀ cm, cV = .dict cm →
        cm.get? "name" ≠ some (.str k))
    (hra : k ≠ "__ra_until__")
    (hsk : isSecretKey sk = true)
    (hreach : revReach (.dict cfg) p = true)
    (hvn : valAt (.dict cfg) (p ++ [.field sk]) = some (.bool b))
    (hvo : valAt (em.getD "config" (.dict .nil)) (p ++ [.field sk]) = some o)
    (hto : truthy o = true) :
    valAt (.dict s'.config)
      (.field k :: .field "config" :: (p ++ [.field sk])) = some o := by
  obtain ⟨pmOut, accA, accB, ⟨A, hmid⟩, hemA, hstep, htrans⟩ :=
    setProbeEntry allow now s st0 s' pre post pm em k hset hnodup hprobes
      hothers hkey hem hnames hra
  have hnn : cfg.isNil = false := valAt_dict_ne_nil cfg p sk _ hvn
  obtain ⟨cfg', hrev, hpmOut, huse0⟩ :=
    probeSanity_ours s.config A pm cfg em k pmOut hkey henb hcfg hnn hem hmid
  have hvres := revertD_restore cfg (em.getD "config" (.dict .nil)) cfg' p
    sk b o hrev hsk hreach hvn hvo hto
  have htr2 : truthy (.dict cfg') = true := revertD_truthy cfg _ cfg' hnn hrev
  have hkey2 : (pm.set "config" (.dict cfg')).get? "key" = some (.str k) := by
    rw [VDict.get?_set, if_neg (by decide)]; exact hkey
  have henb2 : (pm.set "config" (.dict cfg')).getD "enabled" (.bool true) =
      .bool true := by
    rw [VDict.getD_eq, VDict.get?_set, if_neg (by decide)]; exact henb
  have huse2 : (pm.set "config" (.dict cfg')).getD "use" .null = .null := by
    rw [VDict.getD_eq, VDict.get?_set, if_neg (by decide)]; exact huse0
  have hcfg2 : (pm.set "config" (.dict cfg')).getD "config" .null =
      .dict cfg' := by
    rw [VDict.getD_eq, VDict.get?_set, if_pos (by decide)]; rfl
  rw [hpmOut] at hstep
  have hB := probeStep_ours s.template accA (pm.set "config" (.dict cfg'))
    em k (.dict cfg') accB hkey2 henb2 huse2 hcfg2 htr2 hemA hstep
  have hfin := htrans _ hB (entry_no_like _ _)
  exact valAt_field_intro _ _ _ _ _ hfin
    (valAt_field_intro _ _ _ _ _ (entry_get_config _ _) hvres)

/-- A `State.set` whose targeted probe carries a boolean at a reachable
secret path cannot succeed when every stored value at that path is falsy
(in particular when it is missing). -/
theorem setSecretFail (allow : Bool) (now : Int) (s : AppState)
    (st0 : VDict) (s' : AppState) (pre post : List Val)
    (pm cfg em : VDict) (k : String) (p : List PathElem) (sk : String)
    (b : Bool)
    (hset : State.set allow now s (.dict st0) = .ok s')
    (hnodup : s.config.keys.Nodup)
    (hprobes : st0.getD "probes" .null =
      .list (VList.ofList (pre ++ .dict pm :: post)))
    (hothers : ∀ qV ∈ pre ++ post, ∀ qm, qV = .dict qm →
      qm.get? "key" ≠ some (.str k))
    (hkey : pm.get? "key" = some (.str k))
    (henb : pm.getD "enabled" (.bool true) = .bool true)
    (hcfg : pm.get? "config" = some (.dict cfg))
    (hem : s.config.getD k (.dict .nil) = .dict em)
    (hnames : ∀ zsl, st0.getD "configs" .null = .list zsl →
      ∀ cV ∈ zsl.toList, ∀ cm, cV = .dict cm →
        cm.get? "name" ≠ some (.str k))
    (hra : k ≠ "__ra_until__")
    (hsk : isSecretKey sk = true)
    (hreach : revReach (.dict cfg) p = true)
    (hvn : valAt (.dict cfg) (p ++ [.field sk]) = some (.bool b))
    (hmiss : ∀ o, valAt (em.getD "config" (.dict .nil)) (p ++ [.field sk]) =
      some o → truthy o = false) :
    False := by
  obtain ⟨pmOut, accA, accB, ⟨A, hmid⟩, hemA, hstep, htrans⟩ :=
    setProbeEntry allow now s st0 s' pre post pm em k hset hnodup hprobes
      hothers hkey hem hnames hra
  have hnn : cfg.isNil = false := valAt_dict_ne_nil cfg p sk _ hvn
  obtain ⟨cfg', hrev, _, _⟩ :=
    probeSanity_ours s.config A pm cfg em k pmOut hkey henb hcfg hnn hem hmid
  exact revertD_fail cfg (em.getD "config" (.dict .nil)) cfg' p sk b hrev
    hsk hreach hvn hmiss

/-- Boolean tokens in the incoming document keep the stored env tokens. -/
theorem setTokenKeep (allow : Bool) (now : Int) (s : AppState)
    (st0 : VDict) (s' : AppState) (tag tac : Bool)
    (hset : State.set allow now s (.dict st0) = .ok s')
    (htag : st0.getD "agent_token" .null = .bool tag)
    (htac : st0.getD "agentcore_token" .null = .bool tac) :
    s'.env.agentToken = s.env.agentToken ∧
    s'.env.agentcoreToken = s.env.agentcoreToken := by
  obtain ⟨xs, ys, zs, probesL', configsL', tokAg, tokAc, agentsM, acc1,
    services3, pr, ra, u, zidv, stav, H1, H2, H3, H4, H5, H6, H7, H8, H9,
    H10, H11, H12, H13, H14, H15, H16, H17, H18⟩ :=
    set_shape allow now s st0 s' hset
  rw [htag] at H6
  rw [htac] at H7
  simp only [tokenSanity] at H6 H7
  have h6 : s.env.agentToken = tokAg := by injection H6
  have h7 : s.env.agentcoreToken = tokAc := by injection H7
  rw [H17]
  exact ⟨h6.symm, h7.symm⟩

/-- Packaging for the branch analyses below: after `d[k] = D`, key `k`
holds an entry with any property `D` enjoys. -/
theorem exists_entry_of_set (c : VDict) (k : String) (D : VDict)
    (P : VDict → Prop) (hP : P D) :
    ∃ em', (c.set k (.dict D)).get? k = some (.dict em') ∧ P em' :=
  ⟨D, by rw [VDict.get?_set, if_pos (by simp)], hP⟩

set_option maxHeartbeats 1600000 in
/-- `probeStep` keeps a truthy `assets` value of the probe's current config
entry, and keeps the entry `like`-free. -/
theorem probeStep_assets (t : VDict) (acc : SetAcc) (pm2 em : VDict)
    (k : String) (acc' : SetAcc)
    (hkey : pm2.get? "key" = some (.str k))
    (hem : acc.config.get? k = some (.dict em))
    (htr : truthy (em.getD "assets" .null) = true)
    (hlik : em.get? "like" = none)
    (h : probeStep t acc (.dict pm2) = .ok acc') :
    ∃ em', acc'.config.get? k = some (.dict em') ∧
      em'.get? "assets" = some (em.getD "assets" .null) ∧
      em'.get? "like" = none := by
  have hemD : acc.config.getD k (.dict .nil) = .dict em := by
    rw [VDict.getD_eq, hem]; rfl
  simp [probeStep, okBind, errBind, asDict, VDict.index, hkey, hem] at h
  have hselcfg : (if k = "selenium" then
      (if acc.services.hasKey "selenium" = true then
        ({ services := acc.services, config := acc.config,
           hasSelenium := true } : SetAcc)
       else { services := acc.services.set "selenium" _SELENIUM,
              config := acc.config, hasSelenium := true })
     else acc).config = acc.config := by
    split
    · split <;> rfl
    · rfl
  simp only [hselcfg, hemD] at h
  simp only [htr, if_true, Bool.true_eq_false, if_false] at h
  split at h
  -- disabled branch
  case isTrue =>
    have h2 : ({ acc with
                   config := acc.config.set k
                     (.dict (em.set "enabled" (.bool false))) } :
        SetAcc) = acc' := by injection h
    rw [← h2]
    refine ⟨em.set "enabled" (.bool false), ?_, ?_, ?_⟩
    · rw [VDict.get?_set, if_pos (by simp)]
    · rw [VDict.get?_set, if_neg (by decide)]
      exact getD_truthy_get? em "assets" _ rfl htr
    · rw [VDict.get?_set, if_neg (by decide)]
      exact hlik
  case isFalse =>
    obtain ⟨composeV, hc1, h⟩ := exBind_ok h
    iterate 9
      all_goals try (obtain ⟨xx, hxx, h⟩ := exBind_ok h)
      all_goals try split at h
    all_goals
      (injection h with h2
       rw [← h2]
       refine exists_entry_of_set _ k _
         (fun e => e.get? "assets" = some (em.getD "assets" Val.null) ∧
           e.get? "like" = none) ⟨?_, ?_⟩
       · first
           | (rw [VDict.get?_set, if_neg (by decide)]; rfl)
           | rfl
       · first
           | (rw [VDict.get?_set, if_neg (by decide)]; rfl)
           | rfl)

/-- `_remove_disabled_services` keeps the services keys unique. -/
theorem removeDisabledServices_nodup (services : VDict) (probes : List Val)
    (hnd : services.keys.Nodup) :
    (removeDisabledServices services probes).keys.Nodup :=
  foldl_preserve
    (fun acc name =>
      if strEndsWith name "-probe" && !keepProbe probes (name.dropRight 6)
      then acc.del name else acc)
    (fun d => d.keys.Nodup)
    (fun d a hd => by
      show (if strEndsWith a "-probe" && !keepProbe probes (a.dropRight 6)
          then d.del a else d).keys.Nodup
      split
      · exact nodup_keys_del _ _ hd
      · exact hd)
    services.keys services hnd

set_option maxHeartbeats 1600000 in
/-- `probeStep` keeps the services keys unique. -/
theorem probeStep_services_nodup (t : VDict) (acc : SetAcc) (qV : Val)
    (acc' : SetAcc) (h : probeStep t acc qV = .ok acc')
    (hnd : acc.services.keys.Nodup) : acc'.services.keys.Nodup := by
  simp [probeStep, okBind, errBind, asDict, VDict.index] at h
  split at h
  all_goals try (try simp only [errBind] at h
                 exact Except.noConfusion h)
  rename_i m
  simp only [okBind] at h
  obtain ⟨keyV, hkv, h⟩ := exBind_ok h
  split at h
  all_goals try (try simp only [errBind] at h
                 exact Except.noConfusion h)
  rename_i s
  iterate 9
    all_goals try (obtain ⟨xx, hxx, h⟩ := exBind_ok h)
    all_goals try split at h
  all_goals try (try simp only [errBind] at h
                 exact Except.noConfusion h)
  all_goals
    (injection h with h2
     rw [← h2]
     try split_ifs
     all_goals
       first
         | exact hnd
         | exact nodup_keys_set _ _ _ hnd
         | exact nodup_keys_set _ _ _ (nodup_keys_set _ _ _ hnd))

set_option maxHeartbeats 1600000 in
/-- `agentStep` keeps the services keys unique. -/
theorem agentStep_services_nodup (t agents services : VDict)
    (key : String) (out : VDict)
    (h : agentStep t agents services key = .ok out)
    (hnd : services.keys.Nodup) : out.keys.Nodup := by
  simp [agentStep, okBind, errBind, asDict, VDict.index] at h
  split at h
  · iterate 8
      all_goals try (obtain ⟨xx, hxx, h⟩ := exBind_ok h)
      all_goals try split at h
    all_goals try (try simp only [errBind] at h
                   exact Except.noConfusion h)
    all_goals
      (injection h with h2
       rw [← h2]
       exact nodup_keys_set _ _ _ hnd)
  · have h2 : services.del (key ++ "-agent") = out := by injection h
    rw [← h2]
    exact nodup_keys_del _ _ hnd

/-- `namedConfigStep` keeps a truthy `assets` value of the current entry of
the processed name in the entry it writes, and returns that name. -/
theorem namedConfigStep_assets (acc : VDict) (cm2 em : VDict) (k : String)
    (out : VDict × String)
    (hname : cm2.get? "name" = some (.str k))
    (hem : acc.get? k = some (.dict em))
    (htr : truthy (em.getD "assets" .null) = true)
    (h : namedConfigStep acc (.dict cm2) = .ok out) :
    ∃ em', out = (acc.set k (.dict em'), k) ∧
      em'.get? "assets" = some (em.getD "assets" .null) := by
  have hemD : acc.getD k (.dict .nil) = .dict em := by
    rw [VDict.getD_eq, hem]; rfl
  simp [namedConfigStep, okBind, errBind, asDict, VDict.index, hname,
    hemD, htr] at h
  iterate 6
    all_goals try (obtain ⟨xx, hxx, h⟩ := exBind_ok h)
    all_goals try split at h
  all_goals
    (injection h with h2
     exact ⟨_, h2.symm, rfl⟩)

/-- The named-configs fold only adds names to the processed-names list. -/
theorem configs_fold_names_mono :
    ∀ (L : List Val) (pr0 pr' : VDict × List String),
    L.foldlM (fun (pr : VDict × List String) cV => do
        let r ← namedConfigStep pr.1 cV
        Except.ok (r.1, r.2 :: pr.2)) pr0 = .ok pr' →
    ∀ n ∈ pr0.2, n ∈ pr'.2
  | [], pr0, pr', h, n, hn => by
    rw [foldlM_nil_eq] at h
    have hb : pr0 = pr' := by injection h
    rw [← hb]
    exact hn
  | cV :: L, pr0, pr', h, n, hn => by
    rw [foldlM_cons_eq] at h
    obtain ⟨pr1, h1, h⟩ := exBind_ok h
    obtain ⟨r, hr, h1⟩ := exBind_ok h1
    have hpr1 : (r.1, r.2 :: pr0.2) = pr1 := by injection h1
    exact configs_fold_names_mono L pr1 pr' h n
      (by rw [← hpr1]; exact List.mem_cons_of_mem _ hn)

/-!
## Claims
-/

/-- C1 (counterexample): the source `State.write` runs `os.unlink(target)`
*before* `os.rename(tmp, target)` (src/lib/state.py lines 287-288, 322-323),
so the trace of the write contains an intermediate file system in which the
target holds neither the complete old nor the complete new content — it is
missing entirely.  This refutes the claim that at every intermediate point
the target holds either the complete old or the complete new content. -/
theorem C1_counterexample :
    (applyOp (applyOp [("/docker/docker-compose.yml", "old")]
        (.writeF (tmpFile "/docker/docker-compose.yml" "abcdefghij") "new"))
        (.unlink "/docker/docker-compose.yml")) ∈
      traceFS [("/docker/docker-compose.yml", "old")]
        (writeOps "/docker/docker-compose.yml"
          (tmpFile "/docker/docker-compose.yml" "abcdefghij") "new") ∧
    lookupFS (applyOp (applyOp [("/docker/docker-compose.yml", "old")]
        (.writeF (tmpFile "/docker/docker-compose.yml" "abcdefghij") "new"))
        (.unlink "/docker/docker-compose.yml"))
      "/docker/docker-compose.yml" ≠ some "old" ∧
    lookupFS (applyOp (applyOp [("/docker/docker-compose.yml", "old")]
        (.writeF (tmpFile "/docker/docker-compose.yml" "abcdefghij") "new"))
        (.unlink "/docker/docker-compose.yml"))
      "/docker/docker-compose.yml" ≠ some "new" := by
  refine ⟨by simp [traceFS, writeOps], by decide, by decide⟩

/-- C1 (amended): for the compose and configurations manifests, `State.write`
writes the content to a sibling temp file named with a dot and a 10-char
random suffix, then unlinks the target and renames the temp file over it.
At every intermediate point the target holds the complete old content, is
absent, or holds the complete new content — it never holds partial or mixed
content — but between the unlink and the rename the target is missing, and
after the full sequence it holds the new content.  (The env file is not
covered: `ConfigObj.write` rewrites it in place.) -/
theorem C1_amended (target suffix old new : String)
    (fs0 : List (String × String)) (hs : suffix.length = 10)
    (h0 : lookupFS fs0 target = some old) :
    (∀ fs ∈ traceFS fs0 (writeOps target (tmpFile target suffix) new),
      lookupFS fs target = some old ∨ lookupFS fs target = none ∨
        lookupFS fs target = some new) ∧
    lookupFS (applyOp (applyOp fs0
        (.writeF (tmpFile target suffix) new)) (.unlink target)) target
      = none ∧
    lookupFS (applyOp (applyOp (applyOp fs0
        (.writeF (tmpFile target suffix) new)) (.unlink target))
        (.rename (tmpFile target suffix) target)) target = some new := by
  have hne : tmpFile target suffix ≠ target := tmpFile_ne target suffix hs
  have hne' : target ≠ tmpFile target suffix := Ne.symm hne
  have h1 : lookupFS (applyOp fs0 (.writeF (tmpFile target suffix) new))
      target = some old := by
    simp [applyOp, lookupFS_setFS, hne, hne', h0]
  have h2 : lookupFS (applyOp (applyOp fs0
      (.writeF (tmpFile target suffix) new)) (.unlink target)) target
      = none := by
    simp [applyOp, lookupFS_removeFS]
  have htmp : lookupFS (applyOp (applyOp fs0
      (.writeF (tmpFile target suffix) new)) (.unlink target))
      (tmpFile target suffix) = some new := by
    simp [applyOp, lookupFS_removeFS, lookupFS_setFS, hne, hne']
  have h3 : lookupFS (applyOp (applyOp (applyOp fs0
      (.writeF (tmpFile target suffix) new)) (.unlink target))
      (.rename (tmpFile target suffix) target)) target = some new :=
    lookupFS_rename_present _ _ _ _ htmp
  refine ⟨?_, h2, h3⟩
  intro fs hfs
  simp only [writeOps, traceFS, List.mem_cons, List.mem_singleton,
    List.not_mem_nil, or_false] at hfs
  rcases hfs with rfl | rfl | rfl | rfl
  · exact Or.inl h0
  · exact Or.inl h1
  · exact Or.inr (Or.inl h2)
  · exact Or.inr (Or.inr h3)

/-- C1 (witness for the amended theorem at a concrete input). -/
theorem C1_amended_witness :
    ("abcdefghij" : String).length = 10 ∧
    lookupFS [("/docker/infrasonar.yaml", "old")] "/docker/infrasonar.yaml"
      = some "old" ∧
    lookupFS (applyOp (applyOp (applyOp [("/docker/infrasonar.yaml", "old")]
        (.writeF (tmpFile "/docker/infrasonar.yaml" "abcdefghij") "new"))
        (.unlink "/docker/infrasonar.yaml"))
        (.rename (tmpFile "/docker/infrasonar.yaml" "abcdefghij")
          "/docker/infrasonar.yaml")) "/docker/infrasonar.yaml"
      = some "new" :=
  ⟨by decide, by decide,
    (C1_amended "/docker/infrasonar.yaml" "abcdefghij" "old" "new"
      [("/docker/infrasonar.yaml", "old")] (by decide) (by decide)).2.2⟩

/-- C7: for every inbound request whose code is in the handler map (PING,
READ, PUSH, UPDATE, LOG), if the mutation gate (`Docker.lock`) is held when
`go` runs, the dispatcher replies BUSY echoing the request's packet id and
the handler is never invoked (the outcome is independent of the handler and
the handler-ran flag is false). -/
theorem C7_busy_exclusion (locked : Bool) (tp pid : Nat)
    (handle : Unit → Outcome) (hc : tp ∈ requestCodes) (hl : locked = true) :
    onPackageReceived locked tp pid handle
      = (false, .reply PROTO_RAPP_BUSY pid) := by
  subst hl
  have hcont : requestCodes.contains tp = true :=
    List.elem_eq_true_of_mem hc
  simp [onPackageReceived, hcont, hc, protoGo]

/-- C7 (witness): a PUSH while the gate is held gets BUSY with its pid. -/
theorem C7_busy_exclusion_witness :
    PROTO_RAPP_PUSH ∈ requestCodes ∧
    onPackageReceived true PROTO_RAPP_PUSH 7
        (fun _ => .reply PROTO_RAPP_RES 7)
      = (false, .reply PROTO_RAPP_BUSY 7) :=
  ⟨by decide, C7_busy_exclusion true PROTO_RAPP_PUSH 7
    (fun _ => .reply PROTO_RAPP_RES 7) (by decide) rfl⟩

/-- `delLabelsTop` maps every binding whose value is a dict to the same dict
with its `labels` key deleted. -/
theorem delLabelsTop_get? : ∀ (d d' : VDict), delLabelsTop d = .ok d' →
    ∀ (k : String) (m : VDict), d.get? k = some (.dict m) →
      d'.get? k = some (.dict (m.del "labels"))
  | .nil, d', h => by
    intro k m hm
    simp [VDict.get?] at hm
  | .cons k0 v0 t, d', h => by
    intro k m hm
    match v0, h with
    | .dict m0, h =>
      simp only [delLabelsTop, bind, Except.bind] at h
      cases ht : delLabelsTop t with
      | error e => rw [ht] at h; exact absurd h (by simp)
      | ok t' =>
        rw [ht] at h
        simp only [Except.ok.injEq] at h
        subst h
        by_cases hk : k0 = k
        · subst hk
          simp only [VDict.get?, beq_self_eq_true, if_true] at hm ⊢
          cases hm
          rfl
        · rw [VDict.get?_cons_ne k0 _ _ hk] at hm
          rw [VDict.get?_cons_ne k0 _ _ hk]
          exact delLabelsTop_get? t t' ht k m hm

/-- C8 (counterexample): after loading (`clean_watchtower`), the
`watchtower` service is gone and the template's `labels` is gone, but the
`rapp` service under `services` still carries its `labels` field — the
cleanup loop iterates over the *top-level* values of the compose document
(`cls.compose_data.values()`, src/lib/state.py line 205) instead of the
services, so `labels` fields of actual services survive.  This refutes the
claim that no `labels` field remains in any service under `services`. -/
theorem C8_counterexample :
    cleanWatchtower c8Compose = .ok c8Result ∧
    (match c8Result.get? "services" with
     | some (.dict sm) =>
       !sm.hasKey "watchtower" &&
         (match sm.get? "rapp" with
          | some (.dict rm) => rm.hasKey "labels"
          | _ => false)
     | _ => false) = true := by
  exact ⟨by rfl, by rfl⟩

/-- C8 (amended): after `clean_watchtower` succeeds on a compose document
with uniquely-keyed `services` and template blocks, the `watchtower` service
is absent and the template carries no `labels` field, but the `labels`
fields of the services themselves are NOT removed: every service other than
`watchtower` (and other than one literally named `labels`, which the stray
top-level loop deletes from the services mapping) is exactly as before. -/
theorem C8_amended (compose compose' : VDict) (sm tm : VDict)
    (h : cleanWatchtower compose = .ok compose')
    (hs : compose.get? "services" = some (.dict sm))
    (ht : compose.get? "x-infrasonar-template" = some (.dict tm))
    (hnd : sm.keys.Nodup) (hndt : tm.keys.Nodup) :
    compose'.get? "services"
      = some (.dict ((sm.del "watchtower").del "labels")) ∧
    ((sm.del "watchtower").del "labels").get? "watchtower" = none ∧
    compose'.get? "x-infrasonar-template"
      = some (.dict ((tm.del "labels").del "labels")) ∧
    ((tm.del "labels").del "labels").get? "labels" = none ∧
    (∀ name, name ≠ "watchtower" → name ≠ "labels" →
      ((sm.del "watchtower").del "labels").get? name = sm.get? name) := by
  unfold cleanWatchtower at h
  rw [hs] at h
  simp only [bind, Except.bind] at h
  rw [VDict.get?_set, if_neg (by decide), ht] at h
  set compose2 := (compose.set "services" (.dict (sm.del "watchtower"))).set
    "x-infrasonar-template" (.dict (tm.del "labels")) with hc2
  have h2s : compose2.get? "services" = some (.dict (sm.del "watchtower")) := by
    rw [hc2, VDict.get?_set, if_neg (by decide),
      VDict.get?_set, if_pos (by decide)]
  have h2t : compose2.get? "x-infrasonar-template"
      = some (.dict (tm.del "labels")) := by
    rw [hc2, VDict.get?_set, if_pos (by decide)]
  refine ⟨?_, ?_, ?_, ?_, ?_⟩
  · exact delLabelsTop_get? compose2 compose' h "services" _ h2s
  · exact VDict.get?_del_none _ _ _
      (VDict.get?_del_self_of_nodup sm "watchtower" hnd)
  · exact delLabelsTop_get? compose2 compose' h "x-infrasonar-template" _ h2t
  · exact VDict.get?_del_none _ _ _
      (VDict.get?_del_self_of_nodup tm "labels" hndt)
  · intro name hw hl
    rw [VDict.get?_del_ne _ _ _ (fun e => hl e.symm),
      VDict.get?_del_ne _ _ _ (fun e => hw e.symm)]

/-- C8 (witness for the amended theorem at the concrete compose document). -/
theorem C8_amended_witness :
    ((c8SM.del "watchtower").del "labels").get? "watchtower" = none ∧
    ((c8TM.del "labels").del "labels").get? "labels" = none :=
  ⟨(C8_amended c8Compose c8Result c8SM c8TM (by rfl) (by rfl) (by rfl)
      (by decide) (by decide)).2.1,
   (C8_amended c8Compose c8Result c8SM c8TM (by rfl) (by rfl) (by rfl)
      (by decide) (by decide)).2.2.2.1⟩

/-- C3 (counterexample): `_replace_secrets` walks dict values and dict
elements of lists, but never the elements of a list nested directly inside
another list (src/lib/state.py lines 333-336).  For the stored probe config
`{a: [[{password: "hunter2"}]]}` the document returned by `get` carries the
plaintext secret, refuting the claim that no non-boolean value sits at any
`password`/`secret` key at any nesting depth. -/
theorem C3_counterexample :
    (State.get false c3State).map docConfigsRedacted = .ok false := by rfl

/-- C3 (amended): whenever no list sits directly inside another list in the
stored `config` blocks, the document returned by a successful `get` contains
no non-boolean value at any key named `password` or `secret`, at any nesting
depth, inside the `config` fields of its probes (enabled and disabled) and
named configs. -/
theorem C3_amended (allow : Bool) (s : AppState) (d : Val)
    (hok : storedConfigsOk s.config = true)
    (hget : State.get allow s = .ok d) :
    docConfigsRedacted d = true := by
  simp only [State.get] at hget
  rcases exBind_ok hget with ⟨p1, h1, hget⟩
  rcases exBind_ok hget with ⟨p2, h2, hget⟩
  rcases exBind_ok hget with ⟨ags, h3, hget⟩
  rcases exBind_ok hget with ⟨ra, h4, hget⟩
  injection hget with hd
  subst hd
  have hrw : docConfigsRedacted (.dict (VDict.ofList [
      ("probes", .list (VList.ofList (p1 ++ p2))),
      ("agents", .list (VList.ofList ags)),
      ("configs", .list (VList.ofList (getConfigs s.config))),
      ("agent_token", .bool (truthy s.env.agentToken)),
      ("agentcore_token", .bool (truthy s.env.agentcoreToken)),
      ("agentcore_zone_id", s.env.zoneId),
      ("socat_target_addr", s.env.socatTargetAddr),
      ("ra", .dict ra)]))
      = (itemsConfigRedacted (VList.ofList (p1 ++ p2))
         && itemsConfigRedacted (VList.ofList (getConfigs s.config))) := rfl
  rw [hrw]
  apply bandI
  · apply itemsConfigRedacted_ofList
    intro it hit
    rcases List.mem_append.mp hit with hmem | hmem
    · exact getProbes1_redacted s.services s.config p1 hok h1 it hmem
    · exact getProbes2_redacted s.config p2 hok h2 it hmem
  · apply itemsConfigRedacted_ofList
    intro it hit
    exact getConfigs_redacted s.config hok it hit

/-- C3 (witness for the amended theorem at a concrete state). -/
theorem C3_amended_witness :
    storedConfigsOk c3WitState.config = true ∧
    (State.get false c3WitState).map docConfigsRedacted = .ok true := by
  constructor
  · rfl
  · rw [show State.get false c3WitState = .ok c3WitDoc from rfl]
    rw [show (Except.ok c3WitDoc : Except String Val).map docConfigsRedacted
      = .ok (docConfigsRedacted c3WitDoc) from rfl]
    rw [C3_amended false c3WitState c3WitDoc (by rfl) (by rfl)]

/-- C9: `get_lines(start, limit=500)` refreshes the last-accessed timestamp
and leaves the line buffer unchanged; the returned page satisfies: `count`
is the buffer length, `start` is reset to 0 exactly when `start > count`,
`limit` echoes 500, `next = min count (start' + 500)`, and `lines` is the
slice of at most 500 elements of the buffer beginning at the (possibly
reset) start. -/
theorem C9_get_lines (lv : LogView) (now start : Nat) :
    (lv.get_lines now start 500).1.accessed = now ∧
    (lv.get_lines now start 500).1.lines = lv.lines ∧
    (lv.get_lines now start 500).2.count = lv.lines.length ∧
    (lv.get_lines now start 500).2.start
      = (if start > lv.lines.length then 0 else start) ∧
    (lv.get_lines now start 500).2.limit = 500 ∧
    (lv.get_lines now start 500).2.next
      = min lv.lines.length ((lv.get_lines now start 500).2.start + 500) ∧
    (lv.get_lines now start 500).2.lines
      = (lv.lines.drop ((lv.get_lines now start 500).2.start)).take 500 ∧
    (lv.get_lines now start 500).2.lines.length ≤ 500 := by
  refine ⟨rfl, rfl, rfl, rfl, rfl, ?_, ?_, ?_⟩
  · show (if lv.lines.length -
        (if start > lv.lines.length then 0 else start) > 500
      then (if start > lv.lines.length then 0 else start) + 500
      else lv.lines.length)
      = min lv.lines.length
        ((if start > lv.lines.length then 0 else start) + 500)
    split_ifs <;> omega
  · show ((lv.lines.drop (if start > lv.lines.length then 0 else start)).take
        ((if lv.lines.length -
            (if start > lv.lines.length then 0 else start) > 500
          then (if start > lv.lines.length then 0 else start) + 500
          else lv.lines.length) -
          (if start > lv.lines.length then 0 else start)))
      = (lv.lines.drop (if start > lv.lines.length then 0 else start)).take 500
    split_ifs with h1 h2 h2
    · have h500 : (0 + 500 : Nat) - 0 = 500 := by omega
      rw [h500]
    · have hlen1 : (lv.lines.drop 0).length ≤ lv.lines.length - 0 := by
        simp [List.length_drop]
      have hlen2 : (lv.lines.drop 0).length ≤ 500 := by
        simp only [List.length_drop]
        omega
      rw [List.take_of_length_le hlen1, List.take_of_length_le hlen2]
    · have h500 : (start + 500) - start = 500 := by omega
      rw [h500]
    · have hlen1 : (lv.lines.drop start).length ≤ lv.lines.length - start := by
        simp [List.length_drop]
      have hlen2 : (lv.lines.drop start).length ≤ 500 := by
        simp only [List.length_drop]
        omega
      rw [List.take_of_length_le hlen1, List.take_of_length_le hlen2]
  · show ((lv.lines.drop (if start > lv.lines.length then 0 else start)).take
        ((if lv.lines.length -
            (if start > lv.lines.length then 0 else start) > 500
          then (if start > lv.lines.length then 0 else start) + 500
          else lv.lines.length) -
          (if start > lv.lines.length then 0 else start))).length ≤ 500
    simp only [List.length_take, List.length_drop]
    split_ifs <;> omega

/-- C2 counterexample: for a valid on-disk state whose `ping-probe` compose
service has no `environment` block, `set (get s)` succeeds but CHANGES the
compose manifest: `get` synthesises `environment: {}` in the wire compose
and `set` writes it back into the service, so the round trip is not a
no-op even modulo secret redaction and `assets` preservation. -/
theorem C2_counterexample :
    State.get true c2CexState = .ok c2CexDoc ∧
    State.set true 0 c2CexState c2CexDoc = .ok c2CexOut ∧
    c2CexState.services.get? "ping-probe" =
      some (.dict (VDict.ofList [
        ("image", .str "ghcr.io/infrasonar/ping-probe:v1")])) ∧
    c2CexOut.services.get? "ping-probe" =
      some (.dict (VDict.ofList [
        ("image", .str "ghcr.io/infrasonar/ping-probe:v1"),
        ("environment", .dict .nil)])) :=
  ⟨rfl, rfl, rfl, rfl⟩

/-- C2 (amended): on the canonical family `c2Fam` — every `-probe` compose
service carries an explicit `environment` mapping — `set ∘ get` is an exact
no-op: `set` returns precisely the original state (compose manifest,
configurations manifest with the secret restored, and env data), for every
choice of the stored tokens and of the non-secret config value. -/
theorem C2_amended (ta tc : Val) (u : String) :
    ∃ d, State.get true (c2Fam ta tc u) = .ok d ∧
      State.set true 0 (c2Fam ta tc u) d = .ok (c2Fam ta tc u) :=
  ⟨_, rfl, rfl⟩

/-- C4 counterexample: the incoming document carries boolean `true` at the
key `password` inside a list directly inside another list; the current
on-disk value at that path is missing, yet `set` SUCCEEDS (the claim says
it must fail) and writes the boolean through to disk. -/
theorem C4_counterexample :
    State.set true 0 c4CexState (.dict c4CexDoc) = .ok c4CexOut ∧
    valAt (.dict c4CexDoc)
      [.field "probes", .idx 0, .field "config", .field "a", .idx 0,
       .idx 0, .field "password"] = some (.bool true) ∧
    valAt (.dict c4CexState.config)
      [.field "ping", .field "config", .field "a", .idx 0, .idx 0,
       .field "password"] = none ∧
    valAt (.dict c4CexOut.config)
      [.field "ping", .field "config", .field "a", .idx 0, .idx 0,
       .field "password"] = some (.bool true) :=
  ⟨rfl, rfl, rfl, rfl⟩

/-- C4 (amended): for an incoming probe carrying boolean `true` at a secret
key at a path that `_revert_secrets` actually walks (non-secret dict
fields; list elements only through the first dict of a list), a successful
`set` writes the stored string `"xyz"` back at that path, and `set` cannot
succeed at all when the stored value at that path is missing. -/
theorem C4_amended (allow : Bool) (now : Int) (s : AppState) (st0 : VDict)
    (s' : AppState) (pre post : List Val) (pm cfg em : VDict) (k : String)
    (p : List PathElem) (sk : String)
    (hset : State.set allow now s (.dict st0) = .ok s')
    (hnodup : s.config.keys.Nodup)
    (hprobes : st0.getD "probes" .null =
      .list (VList.ofList (pre ++ .dict pm :: post)))
    (hothers : ∀ qV ∈ pre ++ post, ∀ qm, qV = .dict qm →
      qm.get? "key" ≠ some (.str k))
    (hkey : pm.get? "key" = some (.str k))
    (henb : pm.getD "enabled" (.bool true) = .bool true)
    (hcfg : pm.get? "config" = some (.dict cfg))
    (hem : s.config.getD k (.dict .nil) = .dict em)
    (hnames : ∀ zsl, st0.getD "configs" .null = .list zsl →
      ∀ cV ∈ zsl.toList, ∀ cm, cV = .dict cm →
        cm.get? "name" ≠ some (.str k))
    (hra : k ≠ "__ra_until__")
    (hsk : isSecretKey sk = true)
    (hreach : revReach (.dict cfg) p = true)
    (hvn : valAt (.dict cfg) (p ++ [.field sk]) = some (.bool true)) :
    (valAt (em.getD "config" (.dict .nil)) (p ++ [.field sk]) =
        some (.str "xyz") →
      valAt (.dict s'.config)
        (.field k :: .field "config" :: (p ++ [.field sk])) =
        some (.str "xyz")) ∧
    valAt (em.getD "config" (.dict .nil)) (p ++ [.field sk]) ≠ none := by
  constructor
  · intro hvo
    exact setSecretRestore allow now s st0 s' pre post pm cfg em k p sk
      true (.str "xyz") hset hnodup hprobes hothers hkey henb hcfg hem
      hnames hra hsk hreach hvn hvo rfl
  · intro hnone
    exact setSecretFail allow now s st0 s' pre post pm cfg em k p sk true
      hset hnodup hprobes hothers hkey henb hcfg hem hnames hra hsk hreach
      hvn (by
        intro o ho
        rw [hnone] at ho
        exact Option.noConfusion ho)

/-- C4 witness: a concrete `set` on which the amended claim's restore
branch fires and puts the stored `"xyz"` back on disk. -/
theorem C4_amended_witness :
    State.set true 0 c4WitState (.dict c4WitDoc) = .ok c4WitOut ∧
    valAt (.dict c4WitOut.config)
      [.field "ping", .field "config", .field "password"] =
      some (.str "xyz") :=
  ⟨rfl,
   (C4_amended true 0 c4WitState c4WitDoc c4WitOut [] [] pmW cfgW emW
      "ping" [] "password" rfl (by decide) rfl (by simp) rfl rfl rfl rfl
      (by
        intro zsl hz cV hc
        have hz' : Val.list VList.nil = Val.list zsl := hz
        have h0 : VList.nil = zsl := by injection hz'
        rw [← h0] at hc
        simp [VList.toList] at hc)
      (by decide) rfl rfl rfl).1 rfl⟩

/-- C10 counterexample: boolean `false` at a secret key whose path sits
inside a list directly inside another list is NOT reverted: `set` succeeds
and replaces the stored secret `"hunter2"` by the boolean `false`, clearing
the secret through a boolean. -/
theorem C10_counterexample :
    State.set true 0 c10CexState (.dict c10CexDoc) = .ok c10CexOut ∧
    valAt (.dict c10CexState.config)
      [.field "ping", .field "config", .field "a", .idx 0, .idx 0,
       .field "password"] = some (.str "hunter2") ∧
    valAt (.dict c10CexDoc)
      [.field "probes", .idx 0, .field "config", .field "a", .idx 0,
       .idx 0, .field "password"] = some (.bool false) ∧
    valAt (.dict c10CexOut.config)
      [.field "ping", .field "config", .field "a", .idx 0, .idx 0,
       .field "password"] = some (.bool false) :=
  ⟨rfl, rfl, rfl, rfl⟩

/-- C10 (amended): at every path that `_revert_secrets` actually walks, a
boolean — `false` as well as `true` — at a secret key makes a successful
`set` keep the stored (truthy) secret, and `set` cannot succeed when no
truthy stored value exists there; boolean `agent_token` and
`agentcore_token` values keep the stored env tokens. -/
theorem C10_amended (allow : Bool) (now : Int) (s : AppState) (st0 : VDict)
    (s' : AppState) (pre post : List Val) (pm cfg em : VDict) (k : String)
    (p : List PathElem) (sk : String) (b tag tac : Bool)
    (hset : State.set allow now s (.dict st0) = .ok s')
    (hnodup : s.config.keys.Nodup)
    (hprobes : st0.getD "probes" .null =
      .list (VList.ofList (pre ++ .dict pm :: post)))
    (hothers : ∀ qV ∈ pre ++ post, ∀ qm, qV = .dict qm →
      qm.get? "key" ≠ some (.str k))
    (hkey : pm.get? "key" = some (.str k))
    (henb : pm.getD "enabled" (.bool true) = .bool true)
    (hcfg : pm.get? "config" = some (.dict cfg))
    (hem : s.config.getD k (.dict .nil) = .dict em)
    (hnames : ∀ zsl, st0.getD "configs" .null = .list zsl →
      ∀ cV ∈ zsl.toList, ∀ cm, cV = .dict cm →
        cm.get? "name" ≠ some (.str k))
    (hra : k ≠ "__ra_until__")
    (hsk : isSecretKey sk = true)
    (hreach : revReach (.dict cfg) p = true)
    (hvn : valAt (.dict cfg) (p ++ [.field sk]) = some (.bool b))
    (htag : st0.getD "agent_token" .null = .bool tag)
    (htac : st0.getD "agentcore_token" .null = .bool tac) :
    (∃ o, valAt (em.getD "config" (.dict .nil)) (p ++ [.field sk]) =
        some o ∧ truthy o = true ∧
      valAt (.dict s'.config)
        (.field k :: .field "config" :: (p ++ [.field sk])) = some o) ∧
    s'.env.agentToken = s.env.agentToken ∧
    s'.env.agentcoreToken = s.env.agentcoreToken := by
  obtain ⟨h1, h2⟩ := setTokenKeep allow now s st0 s' tag tac hset htag htac
  refine ⟨?_, h1, h2⟩
  cases ho : valAt (em.getD "config" (.dict .nil)) (p ++ [.field sk]) with
  | none =>
    exact (setSecretFail allow now s st0 s' pre post pm cfg em k p sk b
      hset hnodup hprobes hothers hkey henb hcfg hem hnames hra hsk hreach
      hvn (by
        intro o hoo
        rw [ho] at hoo
        exact Option.noConfusion hoo)).elim
  | some o =>
    cases hto : truthy o with
    | false =>
      refine (setSecretFail allow now s st0 s' pre post pm cfg em k p sk b
        hset hnodup hprobes hothers hkey henb hcfg hem hnames hra hsk
        hreach hvn ?_).elim
      intro o' hoo
      rw [ho] at hoo
      have he : o = o' := by injection hoo
      rw [← he]
      exact hto
    | true =>
      exact ⟨o, rfl, hto,
        setSecretRestore allow now s st0 s' pre post pm cfg em k p sk b o
          hset hnodup hprobes hothers hkey henb hcfg hem hnames hra hsk
          hreach hvn ho hto⟩

/-- C10 witness: boolean `false` at the secret key keeps the stored
`"xyz"`, and the boolean tokens keep the stored env tokens. -/
theorem C10_amended_witness :
    State.set true 0 c4WitState (.dict c10WitDoc) = .ok c10WitOut ∧
    ((∃ o, valAt (emW.getD "config" (.dict .nil)) [.field "password"] =
        some o ∧ truthy o = true ∧
      valAt (.dict c10WitOut.config)
        [.field "ping", .field "config", .field "password"] = some o) ∧
     c10WitOut.env.agentToken = c4WitState.env.agentToken ∧
     c10WitOut.env.agentcoreToken = c4WitState.env.agentcoreToken) :=
  ⟨rfl,
   C10_amended true 0 c4WitState c10WitDoc c10WitOut [] [] pmW10 cfgW10
     emW "ping" [] "password" false false false rfl (by decide) rfl
     (by simp) rfl rfl rfl rfl
     (by
       intro zsl hz cV hc
       have hz' : Val.list VList.nil = Val.list zsl := hz
       have h0 : VList.nil = zsl := by injection hz'
       rw [← h0] at hc
       simp [VList.toList] at hc)
     (by decide) rfl rfl rfl rfl rfl⟩

/-- C5 counterexample: a named config whose stored entry has `like` and a
truthy `assets` is DELETED outright by a successful `set` whose document
omits it (`configs_to_delete`), so its `assets` value is lost — the claim's
universal preservation fails for named configs absent from the incoming
document. -/
theorem C5_counterexample :
    State.set true 0 c5CexState (.dict c5CexDoc) = .ok c5CexOut ∧
    c5CexState.config.get? "web" = some (.dict (VDict.ofList [
      ("like", .str "ping"),
      ("assets", .list (VList.ofList [.int 1])),
      ("config", .dict (VDict.ofList [("user", .str "alice")]))])) ∧
    c5CexOut.config.get? "web" = none :=
  ⟨rfl, rfl, rfl⟩

/-- C5 (amended): a key `k` whose current configurations-manifest entry
has a truthy `assets` value keeps that value across a successful `set`
whose incoming document omits `assets`, in both scopes of the claim:
(probe case) `k` is the key of a probe in the incoming document, the other
items do not use the name and the current entry has no `like`; (named
config case) `k` is the name of a named config in the incoming document
and the other items do not use the name. -/
theorem C5_amended (allow : Bool) (now : Int) (s : AppState) (st0 : VDict)
    (s' : AppState) (k : String) (em : VDict)
    (hset : State.set allow now s (.dict st0) = .ok s')
    (hem : s.config.get? k = some (.dict em))
    (htrA : truthy (em.getD "assets" .null) = true)
    (hra : k ≠ "__ra_until__") :
    (∀ pre post pm,
      s.config.keys.Nodup →
      st0.getD "probes" .null =
        .list (VList.ofList (pre ++ .dict pm :: post)) →
      (∀ qV ∈ pre ++ post, ∀ qm, qV = .dict qm →
        qm.get? "key" ≠ some (.str k)) →
      pm.get? "key" = some (.str k) →
      em.get? "like" = none →
      (∀ zsl, st0.getD "configs" .null = .list zsl →
        ∀ cV ∈ zsl.toList, ∀ cm, cV = .dict cm →
          cm.get? "name" ≠ some (.str k)) →
      ∃ em', s'.config.get? k = some (.dict em') ∧
        em'.get? "assets" = some (em.getD "assets" .null)) ∧
    (∀ pre2 post2 cm,
      st0.getD "configs" .null =
        .list (VList.ofList (pre2 ++ .dict cm :: post2)) →
      (∀ cV ∈ pre2 ++ post2, ∀ cm0, cV = .dict cm0 →
        cm0.get? "name" ≠ some (.str k)) →
      cm.get? "name" = some (.str k) →
      (∀ zsl, st0.getD "probes" .null = .list zsl →
        ∀ qV ∈ zsl.toList, ∀ qm, qV = .dict qm →
          qm.get? "key" ≠ some (.str k)) →
      ∃ em', s'.config.get? k = some (.dict em') ∧
        em'.get? "assets" = some (em.getD "assets" .null)) := by
  constructor
  · intro pre post pm hnodup hprobes hothers hkey hlik hnames
    have hemD : s.config.getD k (.dict .nil) = .dict em := by
      rw [VDict.getD_eq, hem]; rfl
    obtain ⟨pmOut, accA, accB, ⟨A, hmid⟩, hemA, hstep, htrans⟩ :=
      setProbeEntry allow now s st0 s' pre post pm em k hset hnodup hprobes
        hothers hkey hemD hnames hra
    have hemA' : accA.config.get? k = some (.dict em) := by
      rcases getD_dict_get? accA.config k em hemA with h | ⟨h, hnil⟩
      · exact h
      · rw [hnil] at htrA
        exact absurd htrA (by decide)
    obtain ⟨qm, qm', hpmd, hpmd', hkeq⟩ := probeSanity_key _ _ _ _ hmid
    have hpm : pm = qm := by injection hpmd
    rw [hpmd'] at hstep
    have hkey' : qm'.get? "key" = some (.str k) := by
      rw [hkeq, ← hpm]; exact hkey
    obtain ⟨em', hB, hassets, hlike'⟩ :=
      probeStep_assets s.template accA qm' em k accB hkey' hemA' htrA hlik
        hstep
    exact ⟨em', htrans em' hB hlike', hassets⟩
  · intro pre2 post2 cm hconfigs hothersC hnameC hprobesNone
    obtain ⟨xs, ys, zs, probesL', configsL', tokAg, tokAc, agentsM, acc1,
      services3, pr, raS, uS, zidv, stav, H1, H2, H3, H4, H5, H6, H7, H8,
      H9, H10, H11, H12, H13, H14, H15, H16, H17, H18⟩ :=
      set_shape allow now s st0 s' hset
    rw [hconfigs] at H3
    have hzs : VList.ofList (pre2 ++ .dict cm :: post2) = zs := by
      injection H3
    subst hzs
    simp only [toList_ofList] at H4 H5
    have hkeysP : ∀ qV ∈ probesL', ∀ qm, qV = .dict qm →
        qm.get? "key" ≠ some (.str k) :=
      mapM_forall _ _ xs.toList probesL' H4 (by
        intro a ha bq hb qm hqm hk2
        obtain ⟨am, am', haq, hbq, hkeq⟩ := probeSanity_key _ _ a bq hb
        rw [hbq] at hqm
        have he : am' = qm := by injection hqm
        subst he
        rw [hkeq] at hk2
        exact hprobesNone xs H1 a ha am haq hk2)
    have hacc1 : acc1.config.get? k = some (.dict em) := by
      rw [probes_fold_other s.template k probesL' _ acc1 hkeysP H9]
      exact hem
    obtain ⟨L1, cmOut, L2, hmidC, hL1, hL2, hPL⟩ :=
      mapM_append_cons _ pre2 (.dict cm) post2 configsL' H5
    subst hPL
    have hL1n : ∀ cV ∈ L1, ∀ cm0, cV = .dict cm0 →
        cm0.get? "name" ≠ some (.str k) :=
      mapM_forall _ _ pre2 L1 hL1 (by
        intro a ha bq hb cm0 hqm hk2
        obtain ⟨am, am', haq, hbq, hkeq⟩ := configSanity_name _ _ a bq hb
        rw [hbq] at hqm
        have he : am' = cm0 := by injection hqm
        subst he
        rw [hkeq] at hk2
        exact hothersC a (List.mem_append.mpr (Or.inl ha)) am haq hk2)
    have hL2n : ∀ cV ∈ L2, ∀ cm0, cV = .dict cm0 →
        cm0.get? "name" ≠ some (.str k) :=
      mapM_forall _ _ post2 L2 hL2 (by
        intro a ha bq hb cm0 hqm hk2
        obtain ⟨am, am', haq, hbq, hkeq⟩ := configSanity_name _ _ a bq hb
        rw [hbq] at hqm
        have he : am' = cm0 := by injection hqm
        subst he
        rw [hkeq] at hk2
        exact hothersC a (List.mem_append.mpr (Or.inr ha)) am haq hk2)
    obtain ⟨prA, prB, hfoldC1, hstepC, hfoldC2⟩ :=
      foldlM_append_cons _ L1 cmOut L2 (acc1.config, []) pr H11
    have hprA : prA.1.get? k = some (.dict em) := by
      rw [configs_fold_other k L1 (acc1.config, []) prA hL1n hfoldC1]
      exact hacc1
    obtain ⟨cmS, cm2, hcmS, hcmOut, hkeq2⟩ :=
      configSanity_name _ _ _ _ hmidC
    have hcm : cm = cmS := by injection hcmS
    have hname2 : cm2.get? "name" = some (.str k) := by
      rw [hkeq2, ← hcm]; exact hnameC
    obtain ⟨r, hr, hstepC2⟩ := exBind_ok hstepC
    have hprB : (r.1, r.2 :: prA.2) = prB := by injection hstepC2
    rw [hcmOut] at hr
    obtain ⟨em', hrEq, hassets⟩ :=
      namedConfigStep_assets prA.1 cm2 em k r hname2 hprA htrA hr
    have hprB1 : prB.1.get? k = some (.dict em') := by
      rw [← hprB, hrEq]
      show (prA.1.set k (.dict em')).get? k = some (.dict em')
      rw [VDict.get?_set, if_pos (by simp)]
    have hkmem : k ∈ pr.2 := by
      refine configs_fold_names_mono L2 prB pr hfoldC2 k ?_
      rw [← hprB, hrEq]
      show k ∈ k :: prA.2
      exact List.mem_cons_self k prA.2
    have hpr1 : pr.1.get? k = some (.dict em') := by
      rw [configs_fold_other k L2 prB pr hL2n hfoldC2]
      exact hprB1
    have hdel : (((likeNames acc1.config).filter
        (fun n => !decide (n ∈ pr.2))).foldl
          (fun a n => a.del n) pr.1).get? k = pr.1.get? k :=
      get?_foldl_del _ k (by
        intro n hn he
        subst he
        have hf := (List.mem_filter.mp hn).2
        simp only [Bool.not_eq_true', decide_eq_false_iff_not] at hf
        exact hf hkmem) pr.1
    rcases H18 with ⟨hcond, iso, hiso, hserv, hconf⟩ | ⟨hcond, hserv, hconf⟩
    · refine ⟨em', ?_, hassets⟩
      rw [hconf, VDict.get?_set, if_neg (by simpa using Ne.symm hra), hdel]
      exact hpr1
    · refine ⟨em', ?_, hassets⟩
      rw [hconf, hdel]
      exact hpr1

/-- C5 witness: two concrete `set`s — one keeps the stored `assets` of the
`ping` probe entry, the other keeps the stored `assets` of the `web` named
config present in the document — although neither wire document mentions
`assets`. -/
theorem C5_amended_witness :
    State.set true 0 c5WitState (.dict c5WitDoc) = .ok c5WitOut ∧
    State.set true 0 c5WitState2 (.dict c5WitDoc2) = .ok c5WitOut2 ∧
    (∃ em', c5WitOut.config.get? "ping" = some (.dict em') ∧
      em'.get? "assets" = some (emW5.getD "assets" .null)) ∧
    (∃ em', c5WitOut2.config.get? "web" = some (.dict em') ∧
      em'.get? "assets" = some (emW5c.getD "assets" .null)) :=
  ⟨rfl, rfl,
   (C5_amended true 0 c5WitState c5WitDoc c5WitOut "ping" emW5
      rfl rfl rfl (by decide)).1 [] [] pmW5 (by decide) rfl (by simp) rfl
      rfl
      (by
        intro zsl hz cV hc
        have hz' : Val.list VList.nil = Val.list zsl := hz
        have h0 : VList.nil = zsl := by injection hz'
        rw [← h0] at hc
        simp [VList.toList] at hc),
   (C5_amended true 0 c5WitState2 c5WitDoc2 c5WitOut2 "web" emW5c
      rfl rfl rfl (by decide)).2 [] [] cmW5 rfl (by simp) rfl
      (by
        intro zsl hz qV hq
        have hz' : Val.list VList.nil = Val.list zsl := hz
        have h0 : VList.nil = zsl := by injection hz'
        rw [← h0] at hq
        simp [VList.toList] at hq)⟩

/-- C6: after a successful `set` the `ra` service is present in the compose
manifest iff `ALLOW_REMOTE_ACCESS` is true, the incoming `ra.enabled` is
truthy and `until - now` lies in `(55, 259200]`; when present,
`__ra_until__` holds the ISO-8601 UTC form of `until`.  (The services keys
are assumed unique, as YAML mappings guarantee.) -/
theorem C6_ra_window (allow : Bool) (now : Int) (s : AppState)
    (st0 : VDict) (s' : AppState) (ra : VDict) (u : Int)
    (hnodup : s.services.keys.Nodup)
    (hset : State.set allow now s (.dict st0) = .ok s')
    (hra : st0.getD "ra" (.dict .nil) = .dict ra)
    (hu : pyAsInt? (ra.getD "until" (.int 0)) = some u) :
    (s'.services.hasKey "ra" = true ↔
      (allow = true ∧ truthy (ra.getD "enabled" (.bool false)) = true ∧
        55 < u - now ∧ u - now ≤ 259200)) ∧
    (s'.services.hasKey "ra" = true →
      ∃ iso, isoUTCo u = some iso ∧
        s'.config.get? "__ra_until__" = some (.str iso)) := by
  obtain ⟨xs, ys, zs, probesL', configsL', tokAg, tokAc, agentsM, acc1,
    services3, pr, raS, uS, zidv, stav, H1, H2, H3, H4, H5, H6, H7, H8, H9,
    H10, H11, H12, H13, H14, H15, H16, H17, H18⟩ :=
    set_shape allow now s st0 s' hset
  rw [hra] at H12
  have hra2 : ra = raS := by injection H12
  subst hra2
  rw [hu] at H13
  have hu2 : u = uS := by injection H13
  subst hu2
  have hnd1 : acc1.services.keys.Nodup :=
    foldlM_preserve (probeStep s.template) (fun b => b.services.keys.Nodup)
      (fun b a b' hb hf => probeStep_services_nodup s.template b a b' hf hb)
      probesL' _ acc1 H9
      (removeDisabledServices_nodup s.services probesL' hnodup)
  have hnd2 : (if acc1.hasSelenium = true then acc1.services
      else acc1.services.del "selenium").keys.Nodup := by
    split
    · exact hnd1
    · exact nodup_keys_del _ _ hnd1
  have hnd3 : services3.keys.Nodup :=
    foldlM_preserve (agentStep s.template agentsM) (fun d => d.keys.Nodup)
      (fun b a b' hb hf =>
        agentStep_services_nodup s.template agentsM b a b' hf hb)
      agentKeys _ services3 H10 hnd2
  have hnd4 : ((if truthy (st0.getD "socat_target_addr" Val.null) = true
      then services3.set "socat" _SOCAT
      else services3.del "socat")).keys.Nodup := by
    split
    · exact nodup_keys_set _ _ _ hnd3
    · exact nodup_keys_del _ _ hnd3
  rcases H18 with ⟨hcond, iso, hiso, hserv, hconf⟩ | ⟨hcond, hserv, hconf⟩
  · obtain ⟨⟨⟨ha, he⟩, h55⟩, hmax⟩ := hcond
    have hmax' : u - now ≤ 259200 := by
      simp only [MAX_RA] at hmax
      omega
    have hkeyra : s'.services.hasKey "ra" = true := by
      rw [hserv]
      simp [VDict.hasKey, VDict.get?_set]
    refine ⟨⟨fun _ => ⟨ha, he, h55, hmax'⟩, fun _ => hkeyra⟩, fun _ => ?_⟩
    exact ⟨iso, hiso, by rw [hconf, VDict.get?_set, if_pos (by decide)]⟩
  · have hnone : s'.services.get? "ra" = none := by
      rw [hserv]
      exact VDict.get?_del_self_of_nodup _ "ra" hnd4
    have hfalse : s'.services.hasKey "ra" = false := by
      simp [VDict.hasKey, hnone]
    constructor
    · constructor
      · intro htrue
        rw [hfalse] at htrue
        exact Bool.noConfusion htrue
      · intro hc
        exfalso
        obtain ⟨ha, he, h55, hmax⟩ := hc
        refine hcond ⟨⟨⟨ha, he⟩, h55⟩, ?_⟩
        simp only [MAX_RA]
        omega
    · intro htrue
      rw [hfalse] at htrue
      exact Bool.noConfusion htrue

/-- C6 witness: `allow = true`, `enabled = true`, `until = now + 100`
(inside the window) adds the `ra` service and stamps `__ra_until__`. -/
theorem C6_ra_window_witness :
    State.set true 0 c6WitState (.dict c6WitDoc) = .ok c6WitOut ∧
    ((c6WitOut.services.hasKey "ra" = true ↔
      (true = true ∧ truthy (c6Ra.getD "enabled" (.bool false)) = true ∧
        55 < (100 : Int) - 0 ∧ (100 : Int) - 0 ≤ 259200)) ∧
     (c6WitOut.services.hasKey "ra" = true →
      ∃ iso, isoUTCo 100 = some iso ∧
        c6WitOut.config.get? "__ra_until__" = some (.str iso))) :=
  ⟨rfl,
   C6_ra_window true 0 c6WitState c6WitDoc c6WitOut c6Ra 100 (by decide)
     rfl rfl rfl⟩

end Rapp
